import Mathlib

/-!
# Local capabilities directory store (joynr, C++ cluster controller)

A shallow embedding of `LocalCapabilitiesDirectoryStore.cpp` together with the
helpers of `LCDUtil` and the storage classes it relies on, followed by theorems
about the scope-dependent merge of locally registered and globally cached
discovery entries. The embedding also covers `ThreadSafeMap.h`, the pending
lookups of `LocalCapabilitiesDirectory` and `CapabilitiesRegistrar::removeAsync`.

Conventions of the embedding:

* `std::vector` is `List`, `boost::optional` is `Option`, `std::string` is `String`,
  64 bit integers (dates, ages) are `Int`.
* The two overloads of a C++ member function are distinguished by the suffix
  `ByParticipantId`; the overload taking interface addresses keeps the plain name.
* Member functions of the store take the store state as their first argument;
  mutating member functions return the new state.
* A callback object is represented by the list of `capabilitiesReceived` calls made
  on it; a function that may invoke the callback returns the extended list.
* The recursive mutex is not modelled: every member function body is one atomic step.
* An asynchronous call with callbacks is a function on the list of the effects so far;
  the callee is given by its reply.
-/

namespace joynr

/-! ## Data model (`joynr/types`) -/

namespace types

/-- `types::ProviderScope::Enum`. -/
inductive ProviderScope where
  | GLOBAL
  | LOCAL
  deriving DecidableEq, Repr

/-- `types::DiscoveryScope::Enum`. -/
inductive DiscoveryScope where
  | LOCAL_ONLY
  | LOCAL_THEN_GLOBAL
  | LOCAL_AND_GLOBAL
  | GLOBAL_ONLY
  deriving DecidableEq, Repr

/-- `types::Version`. -/
structure Version where
  majorVersion : Int
  minorVersion : Int
  deriving DecidableEq, Repr

/-- `types::ProviderQos`; only the fields that the directory reads are named. -/
structure ProviderQos where
  priority : Int
  scope : ProviderScope
  supportsOnChangeSubscriptions : Bool
  deriving DecidableEq, Repr

/-- `types::DiscoveryEntry`. -/
structure DiscoveryEntry where
  providerVersion : Version
  domain : String
  interfaceName : String
  participantId : String
  qos : ProviderQos
  lastSeenDateMs : Int
  expiryDateMs : Int
  publicKeyId : String
  deriving DecidableEq, Repr

/-- `types::DiscoveryEntryWithMetaInfo`: a discovery entry plus the `isLocal` flag. -/
structure DiscoveryEntryWithMetaInfo extends DiscoveryEntry where
  isLocal : Bool
  deriving DecidableEq, Repr

/-- `types::GlobalDiscoveryEntry`: a discovery entry plus the serialized `address`. -/
structure GlobalDiscoveryEntry extends DiscoveryEntry where
  address : String
  deriving DecidableEq, Repr

/-- `types::DiscoveryQos`. -/
structure DiscoveryQos where
  cacheMaxAge : Int
  discoveryTimeout : Int
  discoveryScope : DiscoveryScope
  providerMustSupportOnChange : Bool
  deriving DecidableEq, Repr

end types

open types

/-- `joynr::InterfaceAddress`: a pair of domain and interface name. -/
structure InterfaceAddress where
  domain : String
  interface : String
  deriving DecidableEq, Repr

/-! ## Containers -/

/-- A `std::unordered_map<std::string, V>`, kept as the list of its bindings. Only the
first binding of a key is visible; `assign` and `erase` keep the keys unique. -/
structure UnorderedMap (V : Type) where
  bindings : List (String × V)
  deriving DecidableEq, Repr

namespace UnorderedMap

/-- The empty map (also the result of `clear()`). -/
def empty {V : Type} : UnorderedMap V := ⟨[]⟩

/-- Lookup helper on the binding list. -/
def findIn {V : Type} : List (String × V) → String → Option V
  | [], _ => none
  | (k, v) :: rest, key => if k = key then some v else findIn rest key

/-- `m.find(key)`: `none` stands for `end()`, `some v` for an iterator with `second = v`. -/
def find {V : Type} (m : UnorderedMap V) (key : String) : Option V :=
  findIn m.bindings key

/-- `m.erase(key)`. -/
def erase {V : Type} (m : UnorderedMap V) (key : String) : UnorderedMap V :=
  ⟨m.bindings.filter (fun b => decide (b.1 ≠ key))⟩

/-- `m[key] = value`. -/
def assign {V : Type} (m : UnorderedMap V) (key : String) (value : V) : UnorderedMap V :=
  ⟨(key, value) :: (m.erase key).bindings⟩

end UnorderedMap

/-! ## Storage classes (`joynr/CapabilitiesStorage.h`) -/

namespace capabilities

/-- Modelled from the spec: `capabilities::Storage`, declared in `CapabilitiesStorage.h`,
which is not among the sources. Section 4.1 (EntryStore): an indexed in-memory collection
of discovery entries with lookup by participant id and by (domain, interface), an `insert`
that replaces any row with the same `participantId`, `removeByParticipantId`, iteration,
`clear()` and `size()`. The rows are kept in insertion order. -/
structure Storage where
  entries : List DiscoveryEntry
  deriving DecidableEq, Repr

namespace Storage

/-- The empty storage. -/
def empty : Storage := ⟨[]⟩

/-- Modelled from the spec: `lookupByParticipantId(id) → optional<Entry>` (section 4.1). -/
def lookupByParticipantId (s : Storage) (participantId : String) : Option DiscoveryEntry :=
  s.entries.find? (fun e => decide (e.participantId = participantId))

/-- Modelled from the spec: `lookupByDomainAndInterface(domain, iface) → [Entry]`
(section 4.1; the order is unspecified there, the model keeps insertion order). -/
def lookupByDomainAndInterface (s : Storage) (domain interface : String) :
    List DiscoveryEntry :=
  s.entries.filter (fun e => decide (e.domain = domain ∧ e.interfaceName = interface))

/-- Modelled from the spec: `removeByParticipantId(id)` (section 4.1). -/
def removeByParticipantId (s : Storage) (participantId : String) : Storage :=
  ⟨s.entries.filter (fun e => decide (e.participantId ≠ participantId))⟩

/-- Modelled from the spec: `insert(entry[, gbids])` replaces any row with the same
`participantId` (section 4.1). The gbids are not stored in the row. -/
def insert (s : Storage) (entry : DiscoveryEntry) (_gbids : List String) : Storage :=
  ⟨(s.removeByParticipantId entry.participantId).entries ++ [entry]⟩

/-- Modelled from the spec: `clear()` (section 4.1). -/
def clear (_s : Storage) : Storage := empty

/-- Modelled from the spec: `size()` (section 4.1). -/
def size (s : Storage) : Nat := s.entries.length

end Storage

/-- A row of the caching storage: the entry and its insertion timestamp (ms). -/
structure CachedEntry where
  entry : DiscoveryEntry
  timestamp : Int
  deriving DecidableEq, Repr

/-- Modelled from the spec: `capabilities::CachingStorage`, declared in
`CapabilitiesStorage.h`, which is not among the sources. Section 4.1 (CachingStore): the
entry store extended with an insertion timestamp per row and age-bounded lookups. The
clock is an explicit argument `now` of the operations that read it. -/
structure CachingStorage where
  rows : List CachedEntry
  deriving DecidableEq, Repr

namespace CachingStorage

/-- The empty cache. -/
def empty : CachingStorage := ⟨[]⟩

/-- The entries of the cache in iteration order (`cbegin()` .. `cend()`). -/
def entries (c : CachingStorage) : List DiscoveryEntry :=
  c.rows.map (fun r => r.entry)

/-- Modelled from the spec: `lookupByParticipantId(id) → optional<Entry>` (section 4.1),
without age bound. -/
def lookupByParticipantId (c : CachingStorage) (participantId : String) :
    Option DiscoveryEntry :=
  (c.rows.find? (fun r => decide (r.entry.participantId = participantId))).map
    (fun r => r.entry)

/-- Modelled from the spec: `lookupCacheByParticipantId(id, maxAge)` returns the row only
if `now - insertedAt ≤ maxAge` (section 4.1). -/
def lookupCacheByParticipantId (c : CachingStorage) (now : Int) (participantId : String)
    (maxAge : Int) : Option DiscoveryEntry :=
  match c.rows.find? (fun r => decide (r.entry.participantId = participantId)) with
  | some r => if now - r.timestamp ≤ maxAge then some r.entry else none
  | none => none

/-- Modelled from the spec: `lookupCacheByDomainAndInterface` filters likewise: the rows of
the (domain, interface) pair with `now - insertedAt ≤ maxAge` (section 4.1). -/
def lookupCacheByDomainAndInterface (c : CachingStorage) (now : Int)
    (domain interface : String) (maxAge : Int) : List DiscoveryEntry :=
  (c.rows.filter (fun r =>
      decide (r.entry.domain = domain ∧ r.entry.interfaceName = interface) &&
      decide (now - r.timestamp ≤ maxAge))).map (fun r => r.entry)

/-- Modelled from the spec: `removeByParticipantId(id)` (section 4.1). -/
def removeByParticipantId (c : CachingStorage) (participantId : String) : CachingStorage :=
  ⟨c.rows.filter (fun r => decide (r.entry.participantId ≠ participantId))⟩

/-- Modelled from the spec: `insert(entry)` replaces any row with the same `participantId`
and stamps the new row with the current time (section 4.1). -/
def insert (c : CachingStorage) (now : Int) (entry : DiscoveryEntry) : CachingStorage :=
  ⟨(c.removeByParticipantId entry.participantId).rows ++ [⟨entry, now⟩]⟩

/-- Modelled from the spec: `clear()` (section 4.1). -/
def clear (_c : CachingStorage) : CachingStorage := empty

/-- Modelled from the spec: `size()` (section 4.1). -/
def size (c : CachingStorage) : Nat := c.rows.length

end CachingStorage

end capabilities

/-! ## `LCDUtil` -/

/-- `ValidateGBIDsEnum::Enum` (LCDUtil.h). -/
inductive ValidateGBIDsEnum where
  | OK
  | INVALID
  | UNKNOWN
  deriving DecidableEq, Repr

namespace LCDUtil

/-- Modelled from the spec: `LCDUtil::isGlobal` (LCDUtil.cpp is not among the sources):
provider scope `GLOBAL` means published to the directory, `LOCAL` never published
(section 3, ProviderScope). -/
def isGlobal (discoveryEntry : DiscoveryEntry) : Bool :=
  decide (discoveryEntry.qos.scope = ProviderScope.GLOBAL)

/-- Modelled from the spec: `LCDUtil::optionalToVector` (LCDUtil.cpp is not among the
sources): the empty list for an empty optional, the one-element list otherwise. -/
def optionalToVector (optionalEntry : Option DiscoveryEntry) : List DiscoveryEntry :=
  match optionalEntry with
  | some entry => [entry]
  | none => []

/-- Modelled from the spec: `LCDUtil::convert(isLocal, entry)` (LCDUtil.cpp is not among
the sources): the same entry plus the boolean `isLocal` attached at read time
(section 3, DiscoveryEntryWithMeta). -/
def convertEntry (isLocal : Bool) (entry : DiscoveryEntry) : DiscoveryEntryWithMetaInfo :=
  { toDiscoveryEntry := entry, isLocal := isLocal }

/-- Modelled from the spec: `LCDUtil::convert(isLocal, entries)` (LCDUtil.cpp is not among
the sources): `convertEntry` on every element, in order. -/
def convert (isLocal : Bool) (entries : List DiscoveryEntry) :
    List DiscoveryEntryWithMetaInfo :=
  entries.map (convertEntry isLocal)

/-- Insertion into a set whose key equality is `DiscoveryEntryKeyEq` (LCDUtil.h): two
entries are the same key when their participant ids are equal; an element whose key is
already present is not inserted. -/
def insertByParticipantId (resultSet : List DiscoveryEntryWithMetaInfo)
    (entry : DiscoveryEntryWithMetaInfo) : List DiscoveryEntryWithMetaInfo :=
  if resultSet.any (fun x => decide (x.participantId = entry.participantId)) then resultSet
  else resultSet ++ [entry]

/-- Modelled from the spec: `LCDUtil::filterDuplicates` (LCDUtil.cpp is not among the
sources): the union of the local and the global entries, deduplicated by `participantId`
keeping the local row (section 4.2, merge algorithm; section 9: local wins on
participant-id collision). The first argument is the local list, as at the call sites of
the store; the order of the result is unspecified in the source, the model keeps the
order of first insertion. -/
def filterDuplicates (localCapabilitiesWithMetaInfo
    globalCapabilitiesWithMetaInfo : List DiscoveryEntryWithMetaInfo) :
    List DiscoveryEntryWithMetaInfo :=
  globalCapabilitiesWithMetaInfo.foldl insertByParticipantId
    (localCapabilitiesWithMetaInfo.foldl insertByParticipantId [])

/-- Modelled from the spec: `LCDUtil::isEntryForGbid` (LCDUtil.cpp is not among the
sources): an entry passes the filter if its `participantId` has no gbid mapping, or if the
requested gbid set intersects the mapped set (section 4.2, gbid filtering). -/
def isEntryForGbid (entry : DiscoveryEntry) (gbids : List String)
    (globalParticipantIdsToGbidsMap : UnorderedMap (List String)) : Bool :=
  match globalParticipantIdsToGbidsMap.find entry.participantId with
  | none => true
  | some entryBackends => entryBackends.any (fun entryBackend => decide (entryBackend ∈ gbids))

/-- Modelled from the spec: `LCDUtil::filterDiscoveryEntriesByGbids` (LCDUtil.cpp is not
among the sources): the entries, in input order, whose mapped gbids intersect the
requested gbids (section 4.2, gbid filtering). An entry without a mapping is dropped, as
the unit test `filterDiscoveryEntriesByGbids` of LCDUtilTest.cpp requires. -/
def filterDiscoveryEntriesByGbids (entries : List DiscoveryEntry) (gbids : List String)
    (globalParticipantIdsToGbidsMap : UnorderedMap (List String)) : List DiscoveryEntry :=
  entries.filter (fun entry =>
    match globalParticipantIdsToGbidsMap.find entry.participantId with
    | none => false
    | some entryBackends =>
        entryBackends.any (fun entryBackend => decide (entryBackend ∈ gbids)))

/-- Modelled from the spec: `LCDUtil::validateGbids` (LCDUtil.cpp is not among the sources).
Section 7: `validateGbids(requested, known) → {OK | INVALID | UNKNOWN}`; `INVALID` stands
for an empty string or a duplicate in the request, `UNKNOWN` for a requested gbid that is
not a known one. The condition of `INVALID` is taken on the whole request and checked
first, as the test `test_validateGbids_emptyGbid` of LCDUtilTest.cpp requires for an empty
gbid, which is not a known one either. The set `validGbids` is given by its elements. -/
def validateGbids (gbids : List String) (validGbids : List String) : ValidateGBIDsEnum :=
  if "" ∈ gbids ∨ ¬ gbids.Nodup then ValidateGBIDsEnum.INVALID
  else if ∃ gbid ∈ gbids, gbid ∉ validGbids then ValidateGBIDsEnum.UNKNOWN
  else ValidateGBIDsEnum.OK

/-- Modelled from the spec: `LCDUtil::toGlobalDiscoveryEntry` (LCDUtil.cpp is not among the
sources): a `GlobalDiscoveryEntry` is the `DiscoveryEntry` plus a serialized `address`
(section 3); the address is the local address passed in, as `test_toGlobalDiscoveryEntry`
of LCDUtilTest.cpp asserts. -/
def toGlobalDiscoveryEntry (discoveryEntry : DiscoveryEntry) (localAddress : String) :
    GlobalDiscoveryEntry :=
  { toDiscoveryEntry := discoveryEntry, address := localAddress }

/-- Modelled from the spec: `LCDUtil::getInterfaceAddresses` (LCDUtil.cpp is not among the
sources): one `InterfaceAddress`, the pair (domain, interfaceName) of section 3, for every
domain, in the order of the domains, as `test_getInterfaceAddresses` of LCDUtilTest.cpp
asserts. -/
def getInterfaceAddresses (domains : List String) (interfaceName : String) :
    List InterfaceAddress :=
  domains.map (fun domain => { domain := domain, interface := interfaceName })

/-- Modelled from the spec: `LCDUtil::containsOnlyEmptyString` (LCDUtil.cpp is not among
the sources, and the spec gives no rule for it). The model returns `true` exactly for the
one-element list holding the empty string; `test_containsOnlyEmptyString` of
LCDUtilTest.cpp fixes the values for [""], ["validGbid"] and ["", "validGbid"]. -/
def containsOnlyEmptyString (gbids : List String) : Bool :=
  decide (gbids.length = 1) && decide (gbids.head? = some "")

end LCDUtil

/-! ## `ILocalCapabilitiesCallback` -/

/-- The observable state of an `ILocalCapabilitiesCallback`: the arguments of the
`capabilitiesReceived` calls made on it so far, oldest first. -/
structure ILocalCapabilitiesCallback where
  received : List (List DiscoveryEntryWithMetaInfo)
  deriving DecidableEq, Repr

namespace ILocalCapabilitiesCallback

/-- A callback on which nothing has been called yet. -/
def fresh : ILocalCapabilitiesCallback := ⟨[]⟩

/-- `callback->capabilitiesReceived(capabilities)`. -/
def capabilitiesReceived (callback : ILocalCapabilitiesCallback)
    (capabilities : List DiscoveryEntryWithMetaInfo) : ILocalCapabilitiesCallback :=
  ⟨callback.received ++ [capabilities]⟩

end ILocalCapabilitiesCallback

/-! ## `LocalCapabilitiesDirectoryStore` -/

/-- The members of `LocalCapabilitiesDirectoryStore` (without the mutex). -/
structure LocalCapabilitiesDirectoryStore where
  locallyRegisteredCapabilities : capabilities.Storage
  globalLookupCache : capabilities.CachingStorage
  globalParticipantIdsToGbidsMap : UnorderedMap (List String)
  participantIdToAwaitGlobalRegistrationMap : UnorderedMap Bool
  deriving DecidableEq, Repr

namespace LocalCapabilitiesDirectoryStore

/-- Modelled from the spec: the constant `_includeLocalScopes`, declared in
`LocalCapabilitiesDirectoryStore.h`, which is not among the sources: the discovery scopes
whose result contains every local match; for `GLOBAL_ONLY` only the local entries of global
scope take part (section 4.2, merge algorithm). -/
def includeLocalScopes : List DiscoveryScope :=
  [DiscoveryScope.LOCAL_ONLY, DiscoveryScope.LOCAL_THEN_GLOBAL, DiscoveryScope.LOCAL_AND_GLOBAL]

/-- Modelled from the spec: the constant `_includeGlobalScopes`, declared in
`LocalCapabilitiesDirectoryStore.h`, which is not among the sources: the discovery scopes
whose result may contain cache rows, that is all but `LOCAL_ONLY` (section 4.2, merge
algorithm). -/
def includeGlobalScopes : List DiscoveryScope :=
  [DiscoveryScope.GLOBAL_ONLY, DiscoveryScope.LOCAL_THEN_GLOBAL, DiscoveryScope.LOCAL_AND_GLOBAL]

/-- The constructor: both storages and both maps are empty. -/
def init : LocalCapabilitiesDirectoryStore :=
  { locallyRegisteredCapabilities := capabilities.Storage.empty
    globalLookupCache := capabilities.CachingStorage.empty
    globalParticipantIdsToGbidsMap := UnorderedMap.empty
    participantIdToAwaitGlobalRegistrationMap := UnorderedMap.empty }

/-- `searchLocal(participantId, scope)`. -/
def searchLocalByParticipantId (s : LocalCapabilitiesDirectoryStore) (participantId : String)
    (scope : DiscoveryScope) : Option DiscoveryEntry :=
  let entry := s.locallyRegisteredCapabilities.lookupByParticipantId participantId
  match entry with
  | some e =>
      if scope ∉ includeLocalScopes ∧ e.qos.scope = ProviderScope.LOCAL then
        -- ignore the found entry
        none
      else entry
  | none => entry

/-- `searchLocal(interfaceAddresses, scope)`. -/
def searchLocal (s : LocalCapabilitiesDirectoryStore)
    (interfaceAddresses : List InterfaceAddress) (scope : DiscoveryScope) :
    List DiscoveryEntry :=
  interfaceAddresses.flatMap (fun interfaceAddress =>
    let entries := s.locallyRegisteredCapabilities.lookupByDomainAndInterface
      interfaceAddress.domain interfaceAddress.interface
    if scope ∈ includeLocalScopes then entries
    else entries.filter (fun entry => LCDUtil.isGlobal entry))

/-- `searchGlobalCache(participantId, gbids, maxCacheAge)`. -/
def searchGlobalCacheByParticipantId (s : LocalCapabilitiesDirectoryStore) (now : Int)
    (participantId : String) (gbids : List String) (maxCacheAge : Int) :
    Option DiscoveryEntry :=
  let entry :=
    if maxCacheAge ≥ 0 then
      s.globalLookupCache.lookupCacheByParticipantId now participantId maxCacheAge
    else s.globalLookupCache.lookupByParticipantId participantId
  match entry with
  | some e =>
      if ¬ LCDUtil.isEntryForGbid e gbids s.globalParticipantIdsToGbidsMap then none
      else entry
  | none => entry

/-- `searchGlobalCache(interfaceAddresses, gbids, maxCacheAge)`. -/
def searchGlobalCache (s : LocalCapabilitiesDirectoryStore) (now : Int)
    (interfaceAddresses : List InterfaceAddress) (gbids : List String) (maxCacheAge : Int) :
    List DiscoveryEntry :=
  interfaceAddresses.flatMap (fun interfaceAddress =>
    let entries := s.globalLookupCache.lookupCacheByDomainAndInterface now
      interfaceAddress.domain interfaceAddress.interface maxCacheAge
    LCDUtil.filterDiscoveryEntriesByGbids entries gbids s.globalParticipantIdsToGbidsMap)

/-- `callReceiverIfPossible(scope, localCapabilities, globallyCachedCapabilities, callback)`:
the returned pair is the return value and the callback after the call. The consecutive
`if` statements of the source, each ending in `return true`, form the `else if` chain. -/
def callReceiverIfPossible (scope : DiscoveryScope)
    (localCapabilities globallyCachedCapabilities : List DiscoveryEntry)
    (callback : ILocalCapabilitiesCallback) : Bool × ILocalCapabilitiesCallback :=
  -- return only local capabilities
  if scope = DiscoveryScope.LOCAL_ONLY then
    -- we call capabilitiesReceived for empty results, too
    let localCapsWithMetaInfo := LCDUtil.convert true localCapabilities
    (true, callback.capabilitiesReceived localCapsWithMetaInfo)
  -- return local then global capabilities
  else if scope = DiscoveryScope.LOCAL_THEN_GLOBAL ∧ localCapabilities ≠ [] then
    let localCapsWithMetaInfo := LCDUtil.convert true localCapabilities
    (true, callback.capabilitiesReceived localCapsWithMetaInfo)
  else if scope = DiscoveryScope.LOCAL_THEN_GLOBAL ∧ globallyCachedCapabilities ≠ [] then
    let globalCachedCapsWithMetaInfo := LCDUtil.convert false globallyCachedCapabilities
    (true, callback.capabilitiesReceived globalCachedCapsWithMetaInfo)
  -- return local and global capabilities
  else if scope = DiscoveryScope.LOCAL_AND_GLOBAL ∧ globallyCachedCapabilities ≠ [] then
    let localCapsWithMetaInfo := LCDUtil.convert true localCapabilities
    let globalCachedCapsWithMetaInfo := LCDUtil.convert false globallyCachedCapabilities
    -- merge and remove duplicated entries, keeping the local ones
    let localAndGlobalCapsWithMetaInfo :=
      LCDUtil.filterDuplicates localCapsWithMetaInfo globalCachedCapsWithMetaInfo
    (true, callback.capabilitiesReceived localAndGlobalCapsWithMetaInfo)
  -- return globally registered entries and the global cached entries
  else if scope = DiscoveryScope.GLOBAL_ONLY ∧ globallyCachedCapabilities ≠ [] then
    let globallyRegisteredEntries :=
      localCapabilities.filter (fun capability => LCDUtil.isGlobal capability)
    let globallyRegisteredCapsWithMetaInfo := LCDUtil.convert true globallyRegisteredEntries
    let globalCachedCapsWithMetaInfo := LCDUtil.convert false globallyCachedCapabilities
    let allGlobalCaps :=
      LCDUtil.filterDuplicates globallyRegisteredCapsWithMetaInfo globalCachedCapsWithMetaInfo
    (true, callback.capabilitiesReceived allGlobalCaps)
  else (false, callback)

/-- `getLocalAndCachedCapabilities(interfaceAddresses, discoveryQos, gbids, callback)`. -/
def getLocalAndCachedCapabilities (s : LocalCapabilitiesDirectoryStore) (now : Int)
    (interfaceAddresses : List InterfaceAddress) (discoveryQos : DiscoveryQos)
    (gbids : List String) (callback : ILocalCapabilitiesCallback) :
    Bool × ILocalCapabilitiesCallback :=
  let scope := discoveryQos.discoveryScope
  let localCapabilities := s.searchLocal interfaceAddresses scope
  let globallyCachedEntries :=
    if scope ∈ includeGlobalScopes then
      s.searchGlobalCache now interfaceAddresses gbids discoveryQos.cacheMaxAge
    else []
  callReceiverIfPossible scope localCapabilities globallyCachedEntries callback

/-- `getLocalAndCachedCapabilities(participantId, discoveryQos, gbids, callback)`. -/
def getLocalAndCachedCapabilitiesByParticipantId (s : LocalCapabilitiesDirectoryStore)
    (now : Int) (participantId : String) (discoveryQos : DiscoveryQos)
    (gbids : List String) (callback : ILocalCapabilitiesCallback) :
    Bool × ILocalCapabilitiesCallback :=
  let scope := discoveryQos.discoveryScope
  let found := s.searchLocalByParticipantId participantId scope
  let (localCapability, globalCachedCapability) :=
    match found with
    | some e =>
        if scope = DiscoveryScope.GLOBAL_ONLY then (none, some e) else (some e, none)
    | none =>
        if scope ∈ includeGlobalScopes then
          (none, s.searchGlobalCacheByParticipantId now participantId gbids
            discoveryQos.cacheMaxAge)
        else (none, none)
  let localCapabilities := LCDUtil.optionalToVector localCapability
  let globallyCachedEntries := LCDUtil.optionalToVector globalCachedCapability
  callReceiverIfPossible scope localCapabilities globallyCachedEntries callback

/-- `eraseParticipantIdToGbidMapping(participantId, cacheLock)`. -/
def eraseParticipantIdToGbidMapping (s : LocalCapabilitiesDirectoryStore)
    (participantId : String) : LocalCapabilitiesDirectoryStore :=
  { s with globalParticipantIdsToGbidsMap := s.globalParticipantIdsToGbidsMap.erase participantId }

/-- `mapGbidsToGlobalProviderParticipantId(participantId, allGbids)`: the new state and the
final value of the reference argument `allGbids`. -/
def mapGbidsToGlobalProviderParticipantId (s : LocalCapabilitiesDirectoryStore)
    (participantId : String) (allGbids : List String) :
    LocalCapabilitiesDirectoryStore × List String :=
  let allGbids :=
    match s.globalParticipantIdsToGbidsMap.find participantId with
    | some oldGbids =>
        -- entry already exists
        oldGbids.foldl (fun acc gbid => if gbid ∉ acc then acc ++ [gbid] else acc) allGbids
    | none => allGbids
  let newMap := s.globalParticipantIdsToGbidsMap.assign participantId allGbids
  ({ s with globalParticipantIdsToGbidsMap := newMap }, allGbids)

/-- `clear()`. -/
def clear (s : LocalCapabilitiesDirectoryStore) : LocalCapabilitiesDirectoryStore :=
  { locallyRegisteredCapabilities := s.locallyRegisteredCapabilities.clear
    globalLookupCache := s.globalLookupCache.clear
    globalParticipantIdsToGbidsMap := UnorderedMap.empty
    participantIdToAwaitGlobalRegistrationMap := UnorderedMap.empty }

/-- `insertInLocalCapabilitiesStorage(entry, awaitGlobalRegistration, gbids)`. -/
def insertInLocalCapabilitiesStorage (s : LocalCapabilitiesDirectoryStore)
    (entry : DiscoveryEntry) (awaitGlobalRegistration : Bool) (gbids : List String) :
    LocalCapabilitiesDirectoryStore :=
  -- always remove cached remote entries with the same participantId.
  let cachedEntry := s.globalLookupCache.lookupByParticipantId entry.participantId
  let s1 :=
    match cachedEntry with
    | some c =>
        let removed := s.globalLookupCache.removeByParticipantId entry.participantId
        eraseParticipantIdToGbidMapping { s with globalLookupCache := removed } c.participantId
    | none => s
  let allGbids := gbids
  let awaitMap := s1.participantIdToAwaitGlobalRegistrationMap.assign entry.participantId
    awaitGlobalRegistration
  let s2 := { s1 with participantIdToAwaitGlobalRegistrationMap := awaitMap }
  if LCDUtil.isGlobal entry then
    let inserted := s2.locallyRegisteredCapabilities.insert entry allGbids
    let s3 := { s2 with locallyRegisteredCapabilities := inserted }
    (mapGbidsToGlobalProviderParticipantId s3 entry.participantId allGbids).1
  else
    let inserted := s2.locallyRegisteredCapabilities.insert entry []
    { s2 with locallyRegisteredCapabilities := inserted }

/-- `insertInGlobalLookupCache(entry, gbids)`; `now` is the time of the insertion. -/
def insertInGlobalLookupCache (s : LocalCapabilitiesDirectoryStore) (now : Int)
    (entry : DiscoveryEntry) (gbids : List String) : LocalCapabilitiesDirectoryStore :=
  let allGbids := gbids
  let s1 := { s with globalLookupCache := s.globalLookupCache.insert now entry }
  (mapGbidsToGlobalProviderParticipantId s1 entry.participantId allGbids).1

/-- `getCachedGlobalDiscoveryEntries()`. -/
def getCachedGlobalDiscoveryEntries (s : LocalCapabilitiesDirectoryStore) :
    List DiscoveryEntry :=
  s.globalLookupCache.entries

/-- `getLocalCapabilities(participantId)`. -/
def getLocalCapabilitiesByParticipantId (s : LocalCapabilitiesDirectoryStore)
    (participantId : String) : List DiscoveryEntry :=
  LCDUtil.optionalToVector (s.locallyRegisteredCapabilities.lookupByParticipantId participantId)

/-- `getAwaitGlobalRegistration(participantId, cacheLock)`. -/
def getAwaitGlobalRegistration (s : LocalCapabilitiesDirectoryStore)
    (participantId : String) : Bool :=
  match s.participantIdToAwaitGlobalRegistrationMap.find participantId with
  | some second => second
  -- if no entry was found for given participantId, continue as it was registered with false
  | none => false

/-- `getGbidsForParticipantId(participantId, cacheLock)`. -/
def getGbidsForParticipantId (s : LocalCapabilitiesDirectoryStore)
    (participantId : String) : List String :=
  match s.globalParticipantIdsToGbidsMap.find participantId with
  | none => []
  | some second => second

/-- `eraseParticipantIdToAwaitGlobalRegistrationMapping(participantId, cacheLock)`. -/
def eraseParticipantIdToAwaitGlobalRegistrationMapping (s : LocalCapabilitiesDirectoryStore)
    (participantId : String) : LocalCapabilitiesDirectoryStore :=
  let erased := s.participantIdToAwaitGlobalRegistrationMap.erase participantId
  { s with participantIdToAwaitGlobalRegistrationMap := erased }

/-- `countGlobalCapabilities()`. -/
def countGlobalCapabilities (s : LocalCapabilitiesDirectoryStore) : Nat :=
  s.locallyRegisteredCapabilities.entries.foldl
    (fun counter capability =>
      if capability.qos.scope = ProviderScope.GLOBAL then counter + 1 else counter) 0

/-- `getAllGlobalCapabilities()`. -/
def getAllGlobalCapabilities (s : LocalCapabilitiesDirectoryStore) : List DiscoveryEntry :=
  s.locallyRegisteredCapabilities.entries.foldl
    (fun allGlobalEntries capability =>
      if LCDUtil.isGlobal capability then allGlobalEntries ++ [capability]
      else allGlobalEntries) []

/-- `getLocalCapabilities(interfaceAddresses)`: `searchLocal(interfaceAddresses)` with the
default value of the scope argument. The default is declared in
`LocalCapabilitiesDirectoryStore.h`, which is not among the sources, and is a parameter
here. -/
def getLocalCapabilities (s : LocalCapabilitiesDirectoryStore)
    (defaultScope : DiscoveryScope) (interfaceAddresses : List InterfaceAddress) :
    List DiscoveryEntry :=
  s.searchLocal interfaceAddresses defaultScope

/-! ### The member functions as transitions of the store -/

/-- A call of a public member function of the store, with its arguments. -/
inductive Call where
  | getLocalAndCachedCapabilities (interfaceAddresses : List InterfaceAddress)
      (discoveryQos : DiscoveryQos) (gbids : List String)
      (callback : ILocalCapabilitiesCallback)
  | getLocalAndCachedCapabilitiesByParticipantId (participantId : String)
      (discoveryQos : DiscoveryQos) (gbids : List String)
      (callback : ILocalCapabilitiesCallback)
  | getCachedGlobalDiscoveryEntries
  | countGlobalCapabilities
  | getAllGlobalCapabilities
  | getLocalCapabilitiesByParticipantId (participantId : String)
  | getLocalCapabilities (defaultScope : DiscoveryScope)
      (interfaceAddresses : List InterfaceAddress)
  | insertInLocalCapabilitiesStorage (entry : DiscoveryEntry)
      (awaitGlobalRegistration : Bool) (gbids : List String)
  | insertInGlobalLookupCache (entry : DiscoveryEntry) (gbids : List String)
  | clear

/-- What a call hands back to its caller. -/
inductive Response where
  | lookup (result : Bool) (callback : ILocalCapabilitiesCallback)
  | entries (result : List DiscoveryEntry)
  | count (result : Nat)
  | done
  deriving DecidableEq, Repr

/-- The lookups and accessors among the calls. -/
def Call.isLookupOrAccessor : Call → Bool
  | Call.getLocalAndCachedCapabilities _ _ _ _ => true
  | Call.getLocalAndCachedCapabilitiesByParticipantId _ _ _ _ => true
  | Call.getCachedGlobalDiscoveryEntries => true
  | Call.countGlobalCapabilities => true
  | Call.getAllGlobalCapabilities => true
  | Call.getLocalCapabilitiesByParticipantId _ => true
  | Call.getLocalCapabilities _ _ => true
  | Call.insertInLocalCapabilitiesStorage _ _ _ => false
  | Call.insertInGlobalLookupCache _ _ => false
  | Call.clear => false

/-- The members of the store after a call made at time `now`, and the response of the call.
No statement of a lookup or accessor, nor of `searchLocal`, `searchGlobalCache` and
`callReceiverIfPossible` which they call, assigns to a member of the store; the lookups of
the storages do not modify them (section 3, invariant 4: a cache row that is too old is
invisible to lookups but not eagerly erased). -/
def call (s : LocalCapabilitiesDirectoryStore) (now : Int) :
    Call → LocalCapabilitiesDirectoryStore × Response
  | Call.getLocalAndCachedCapabilities interfaceAddresses discoveryQos gbids callback =>
      let result := s.getLocalAndCachedCapabilities now interfaceAddresses discoveryQos gbids
        callback
      (s, Response.lookup result.1 result.2)
  | Call.getLocalAndCachedCapabilitiesByParticipantId participantId discoveryQos gbids
      callback =>
      let result := s.getLocalAndCachedCapabilitiesByParticipantId now participantId
        discoveryQos gbids callback
      (s, Response.lookup result.1 result.2)
  | Call.getCachedGlobalDiscoveryEntries =>
      (s, Response.entries s.getCachedGlobalDiscoveryEntries)
  | Call.countGlobalCapabilities => (s, Response.count s.countGlobalCapabilities)
  | Call.getAllGlobalCapabilities => (s, Response.entries s.getAllGlobalCapabilities)
  | Call.getLocalCapabilitiesByParticipantId participantId =>
      (s, Response.entries (s.getLocalCapabilitiesByParticipantId participantId))
  | Call.getLocalCapabilities defaultScope interfaceAddresses =>
      (s, Response.entries (s.getLocalCapabilities defaultScope interfaceAddresses))
  | Call.insertInLocalCapabilitiesStorage entry awaitGlobalRegistration gbids =>
      (s.insertInLocalCapabilitiesStorage entry awaitGlobalRegistration gbids, Response.done)
  | Call.insertInGlobalLookupCache entry gbids =>
      (s.insertInGlobalLookupCache now entry gbids, Response.done)
  | Call.clear => (s.clear, Response.done)

/-! ### The lookups and accessors with the store as a result

The member functions that read the store, embedded statement by statement as functions that
return their result together with the store after the call. A call on a storage hands back
the storage after the call, which replaces the member it was made on; the functions of
`LCDUtil` receive the gbids map by value (LCDUtil.h) and hand nothing back. -/

namespace stateful

/-- Modelled from the spec: `capabilities::Storage::lookupByParticipantId` with the storage
after the call (`CapabilitiesStorage.h` is not among the sources). Section 4.1 names the
operations that change the rows, `insert`, `removeByParticipantId` and `clear()`; a lookup
is not one of them, so the storage after it is the storage before it. -/
def Storage.lookupByParticipantId (storage : capabilities.Storage) (participantId : String) :
    Option DiscoveryEntry × capabilities.Storage :=
  (storage.lookupByParticipantId participantId, storage)

/-- Modelled from the spec: `capabilities::Storage::lookupByDomainAndInterface` with the
storage after the call (`CapabilitiesStorage.h` is not among the sources; section 4.1, as
for `lookupByParticipantId`). -/
def Storage.lookupByDomainAndInterface (storage : capabilities.Storage)
    (domain interface : String) : List DiscoveryEntry × capabilities.Storage :=
  (storage.lookupByDomainAndInterface domain interface, storage)

/-- Modelled from the spec: the iteration over a `capabilities::Storage` from `begin()` to
`end()` with the storage after it (`CapabilitiesStorage.h` is not among the sources;
section 4.1, iteration for bulk operations). -/
def Storage.iterate (storage : capabilities.Storage) :
    List DiscoveryEntry × capabilities.Storage :=
  (storage.entries, storage)

/-- Modelled from the spec: `capabilities::CachingStorage::lookupByParticipantId` with the
cache after the call (`CapabilitiesStorage.h` is not among the sources; section 4.1). -/
def CachingStorage.lookupByParticipantId (cache : capabilities.CachingStorage)
    (participantId : String) : Option DiscoveryEntry × capabilities.CachingStorage :=
  (cache.lookupByParticipantId participantId, cache)

/-- Modelled from the spec: `capabilities::CachingStorage::lookupCacheByParticipantId` with
the cache after the call (`CapabilitiesStorage.h` is not among the sources). Section 3,
invariant 4: a cache row older than `cacheMaxAgeMs` is invisible to lookups but not eagerly
erased, so the cache after the lookup is the cache before it. -/
def CachingStorage.lookupCacheByParticipantId (cache : capabilities.CachingStorage)
    (now : Int) (participantId : String) (maxAge : Int) :
    Option DiscoveryEntry × capabilities.CachingStorage :=
  (cache.lookupCacheByParticipantId now participantId maxAge, cache)

/-- Modelled from the spec: `capabilities::CachingStorage::lookupCacheByDomainAndInterface`
with the cache after the call (`CapabilitiesStorage.h` is not among the sources; section 3,
invariant 4, as for `lookupCacheByParticipantId`). -/
def CachingStorage.lookupCacheByDomainAndInterface (cache : capabilities.CachingStorage)
    (now : Int) (domain interface : String) (maxAge : Int) :
    List DiscoveryEntry × capabilities.CachingStorage :=
  (cache.lookupCacheByDomainAndInterface now domain interface maxAge, cache)

/-- Modelled from the spec: the iteration over a `capabilities::CachingStorage` from
`cbegin()` to `cend()` with the cache after it (`CapabilitiesStorage.h` is not among the
sources; section 4.1, iteration for bulk operations). -/
def CachingStorage.iterate (cache : capabilities.CachingStorage) :
    List DiscoveryEntry × capabilities.CachingStorage :=
  (cache.entries, cache)

/-- `searchLocal(participantId, scope)` and the store after the call. -/
def searchLocalByParticipantId (s : LocalCapabilitiesDirectoryStore) (participantId : String)
    (scope : DiscoveryScope) : Option DiscoveryEntry × LocalCapabilitiesDirectoryStore :=
  let found := Storage.lookupByParticipantId s.locallyRegisteredCapabilities participantId
  let s1 := { s with locallyRegisteredCapabilities := found.2 }
  let entry := found.1
  match entry with
  | some e =>
      if scope ∉ includeLocalScopes ∧ e.qos.scope = ProviderScope.LOCAL then
        -- ignore the found entry
        (none, s1)
      else (entry, s1)
  | none => (entry, s1)

/-- `searchLocal(interfaceAddresses, scope)` and the store after the call; the loop carries
`result` and the store. -/
def searchLocal (s : LocalCapabilitiesDirectoryStore)
    (interfaceAddresses : List InterfaceAddress) (scope : DiscoveryScope) :
    List DiscoveryEntry × LocalCapabilitiesDirectoryStore :=
  interfaceAddresses.foldl
    (fun (state : List DiscoveryEntry × LocalCapabilitiesDirectoryStore) interfaceAddress =>
      let found := Storage.lookupByDomainAndInterface state.2.locallyRegisteredCapabilities
        interfaceAddress.domain interfaceAddress.interface
      let s1 := { state.2 with locallyRegisteredCapabilities := found.2 }
      let entries := found.1
      if scope ∈ includeLocalScopes then (state.1 ++ entries, s1)
      else (state.1 ++ entries.filter (fun entry => LCDUtil.isGlobal entry), s1))
    ([], s)

/-- `searchGlobalCache(participantId, gbids, maxCacheAge)` and the store after the call. -/
def searchGlobalCacheByParticipantId (s : LocalCapabilitiesDirectoryStore) (now : Int)
    (participantId : String) (gbids : List String) (maxCacheAge : Int) :
    Option DiscoveryEntry × LocalCapabilitiesDirectoryStore :=
  let found :=
    if maxCacheAge ≥ 0 then
      CachingStorage.lookupCacheByParticipantId s.globalLookupCache now participantId
        maxCacheAge
    else CachingStorage.lookupByParticipantId s.globalLookupCache participantId
  let s1 := { s with globalLookupCache := found.2 }
  let entry := found.1
  match entry with
  | some e =>
      if ¬ LCDUtil.isEntryForGbid e gbids s1.globalParticipantIdsToGbidsMap then (none, s1)
      else (entry, s1)
  | none => (entry, s1)

/-- `searchGlobalCache(interfaceAddresses, gbids, maxCacheAge)` and the store after the
call; the loop carries `result` and the store. -/
def searchGlobalCache (s : LocalCapabilitiesDirectoryStore) (now : Int)
    (interfaceAddresses : List InterfaceAddress) (gbids : List String) (maxCacheAge : Int) :
    List DiscoveryEntry × LocalCapabilitiesDirectoryStore :=
  interfaceAddresses.foldl
    (fun (state : List DiscoveryEntry × LocalCapabilitiesDirectoryStore) interfaceAddress =>
      let found := CachingStorage.lookupCacheByDomainAndInterface state.2.globalLookupCache
        now interfaceAddress.domain interfaceAddress.interface maxCacheAge
      let s1 := { state.2 with globalLookupCache := found.2 }
      let entries := found.1
      let filteredEntries := LCDUtil.filterDiscoveryEntriesByGbids entries gbids
        s1.globalParticipantIdsToGbidsMap
      (state.1 ++ filteredEntries, s1))
    ([], s)

/-- `getLocalAndCachedCapabilities(interfaceAddresses, discoveryQos, gbids, callback)`: the
return value, the callback after the call and the store after the call.
`callReceiverIfPossible` names no member of the store. -/
def getLocalAndCachedCapabilities (s : LocalCapabilitiesDirectoryStore) (now : Int)
    (interfaceAddresses : List InterfaceAddress) (discoveryQos : DiscoveryQos)
    (gbids : List String) (callback : ILocalCapabilitiesCallback) :
    (Bool × ILocalCapabilitiesCallback) × LocalCapabilitiesDirectoryStore :=
  let scope := discoveryQos.discoveryScope
  let searchedLocal := searchLocal s interfaceAddresses scope
  let localCapabilities := searchedLocal.1
  let searchedCache :=
    if scope ∈ includeGlobalScopes then
      searchGlobalCache searchedLocal.2 now interfaceAddresses gbids discoveryQos.cacheMaxAge
    else ([], searchedLocal.2)
  let globallyCachedEntries := searchedCache.1
  (callReceiverIfPossible scope localCapabilities globallyCachedEntries callback,
    searchedCache.2)

/-- `getLocalAndCachedCapabilities(participantId, discoveryQos, gbids, callback)`: the
return value, the callback after the call and the store after the call. -/
def getLocalAndCachedCapabilitiesByParticipantId (s : LocalCapabilitiesDirectoryStore)
    (now : Int) (participantId : String) (discoveryQos : DiscoveryQos)
    (gbids : List String) (callback : ILocalCapabilitiesCallback) :
    (Bool × ILocalCapabilitiesCallback) × LocalCapabilitiesDirectoryStore :=
  let scope := discoveryQos.discoveryScope
  let searchedLocal := searchLocalByParticipantId s participantId scope
  let searched : (Option DiscoveryEntry × Option DiscoveryEntry) ×
      LocalCapabilitiesDirectoryStore :=
    match searchedLocal.1 with
    | some e =>
        if scope = DiscoveryScope.GLOBAL_ONLY then ((none, some e), searchedLocal.2)
        else ((some e, none), searchedLocal.2)
    | none =>
        if scope ∈ includeGlobalScopes then
          let searchedCache := searchGlobalCacheByParticipantId searchedLocal.2 now
            participantId gbids discoveryQos.cacheMaxAge
          ((none, searchedCache.1), searchedCache.2)
        else ((none, none), searchedLocal.2)
  let localCapabilities := LCDUtil.optionalToVector searched.1.1
  let globallyCachedEntries := LCDUtil.optionalToVector searched.1.2
  (callReceiverIfPossible scope localCapabilities globallyCachedEntries callback, searched.2)

/-- `getCachedGlobalDiscoveryEntries()` and the store after the call. -/
def getCachedGlobalDiscoveryEntries (s : LocalCapabilitiesDirectoryStore) :
    List DiscoveryEntry × LocalCapabilitiesDirectoryStore :=
  let iterated := CachingStorage.iterate s.globalLookupCache
  (iterated.1, { s with globalLookupCache := iterated.2 })

/-- `countGlobalCapabilities()` and the store after the call. -/
def countGlobalCapabilities (s : LocalCapabilitiesDirectoryStore) :
    Nat × LocalCapabilitiesDirectoryStore :=
  let iterated := Storage.iterate s.locallyRegisteredCapabilities
  let counter := iterated.1.foldl
    (fun counter capability =>
      if capability.qos.scope = ProviderScope.GLOBAL then counter + 1 else counter) 0
  (counter, { s with locallyRegisteredCapabilities := iterated.2 })

/-- `getAllGlobalCapabilities()` and the store after the call. -/
def getAllGlobalCapabilities (s : LocalCapabilitiesDirectoryStore) :
    List DiscoveryEntry × LocalCapabilitiesDirectoryStore :=
  let iterated := Storage.iterate s.locallyRegisteredCapabilities
  let allGlobalEntries := iterated.1.foldl
    (fun allGlobalEntries capability =>
      if LCDUtil.isGlobal capability then allGlobalEntries ++ [capability]
      else allGlobalEntries) []
  (allGlobalEntries, { s with locallyRegisteredCapabilities := iterated.2 })

/-- `getLocalCapabilities(participantId)` and the store after the call. -/
def getLocalCapabilitiesByParticipantId (s : LocalCapabilitiesDirectoryStore)
    (participantId : String) : List DiscoveryEntry × LocalCapabilitiesDirectoryStore :=
  let found := Storage.lookupByParticipantId s.locallyRegisteredCapabilities participantId
  (LCDUtil.optionalToVector found.1, { s with locallyRegisteredCapabilities := found.2 })

/-- `getLocalCapabilities(interfaceAddresses)` and the store after the call; the default
value of the scope argument of `searchLocal` is a parameter, as in `getLocalCapabilities`
above. -/
def getLocalCapabilities (s : LocalCapabilitiesDirectoryStore)
    (defaultScope : DiscoveryScope) (interfaceAddresses : List InterfaceAddress) :
    List DiscoveryEntry × LocalCapabilitiesDirectoryStore :=
  searchLocal s interfaceAddresses defaultScope

end stateful

/-! ### Notions used to state the properties -/

/-- The local matches of a by-interface query: every locally registered entry of one of
the requested (domain, interface) pairs, whatever its provider scope. -/
def localMatches (s : LocalCapabilitiesDirectoryStore)
    (interfaceAddresses : List InterfaceAddress) : List DiscoveryEntry :=
  interfaceAddresses.flatMap (fun interfaceAddress =>
    s.locallyRegisteredCapabilities.lookupByDomainAndInterface
      interfaceAddress.domain interfaceAddress.interface)

/-- The participant ids of a list of discovery entries. -/
def participantIds (entries : List DiscoveryEntry) : List String :=
  entries.map (fun e => e.participantId)

/-- The participant ids of a delivered list. -/
def deliveredIds (delivered : List DiscoveryEntryWithMetaInfo) : List String :=
  delivered.map (fun x => x.participantId)

/-- The requested gbids meet the gbids mapped to the participant id, if it has a mapping. -/
def gbidsMatchIfMapped (s : LocalCapabilitiesDirectoryStore) (gbids : List String)
    (participantId : String) : Prop :=
  ∀ mapped, s.globalParticipantIdsToGbidsMap.find participantId = some mapped →
    ∃ gbid ∈ mapped, gbid ∈ gbids

/-- No participant id is present in both the local store and the global lookup cache. -/
def localAndCacheDisjoint (s : LocalCapabilitiesDirectoryStore) : Prop :=
  ∀ e ∈ s.locallyRegisteredCapabilities.entries, ∀ r ∈ s.globalLookupCache.rows,
    e.participantId ≠ r.entry.participantId

instance decidableLocalAndCacheDisjoint (s : LocalCapabilitiesDirectoryStore) :
    Decidable (localAndCacheDisjoint s) := by
  unfold localAndCacheDisjoint
  infer_instance

/-- A gbid list as the directory accepts it in a request: non-empty, without the empty
string and without duplicates. -/
def validGbidList (gbids : List String) : Prop :=
  gbids ≠ [] ∧ "" ∉ gbids ∧ gbids.Nodup

instance decidableValidGbidList (gbids : List String) : Decidable (validGbidList gbids) := by
  unfold validGbidList
  infer_instance

/-- For every GLOBAL-scope entry of the local store the gbid list mapped to its participant
id is non-empty and contains no empty string and no duplicate. -/
def globalEntriesHaveValidGbids (s : LocalCapabilitiesDirectoryStore) : Prop :=
  ∀ e ∈ s.locallyRegisteredCapabilities.entries, e.qos.scope = ProviderScope.GLOBAL →
    validGbidList (s.getGbidsForParticipantId e.participantId)

instance decidableGlobalEntriesHaveValidGbids (s : LocalCapabilitiesDirectoryStore) :
    Decidable (globalEntriesHaveValidGbids s) := by
  unfold globalEntriesHaveValidGbids
  infer_instance

/-- No gbid list of the participant id to gbids map contains the empty string. -/
def mappedGbidsWithoutEmptyString (s : LocalCapabilitiesDirectoryStore) : Prop :=
  ∀ (participantId : String) (mapped : List String),
    s.globalParticipantIdsToGbidsMap.find participantId = some mapped → "" ∉ mapped

/-- The store after a sequence of calls, each made at its own time. -/
def afterCalls (s : LocalCapabilitiesDirectoryStore) :
    List (Int × Call) → LocalCapabilitiesDirectoryStore
  | [] => s
  | (now, c) :: rest => afterCalls (s.call now c).1 rest

end LocalCapabilitiesDirectoryStore

/-! ## `ThreadSafeMap` (`joynr/ThreadSafeMap.h`) -/

/-- The uses of the standard containers that the C++ standard leaves undefined. -/
inductive UndefinedBehaviour where
  | eraseOfEnd
  | dereferenceOfEnd
  deriving DecidableEq, Repr

/-- `ThreadSafeMap<Key, T>`: the member `map`, a `std::map`, as the list of its bindings
(the keys are pairwise distinct when the map is built by `insert`); the lock is not
modelled. -/
structure ThreadSafeMap (Key T : Type) where
  map : List (Key × T)
  deriving DecidableEq, Repr

namespace ThreadSafeMap

/-- The constructor: the empty map. -/
def empty {Key T : Type} : ThreadSafeMap Key T := ⟨[]⟩

/-- `map.find(key)`: the binding that the returned iterator points to, `none` for
`map.end()`. -/
def find {Key T : Type} [DecidableEq Key] (m : ThreadSafeMap Key T) (key : Key) :
    Option (Key × T) :=
  m.map.find? (fun b => decide (b.1 = key))

/-- `map.erase(position)`: erasing `map.end()` is undefined behaviour. -/
def erase {Key T : Type} [DecidableEq Key] (m : ThreadSafeMap Key T) :
    Option (Key × T) → Except UndefinedBehaviour (ThreadSafeMap Key T)
  | none => Except.error UndefinedBehaviour.eraseOfEnd
  | some b => Except.ok ⟨m.map.filter (fun x => decide (x.1 ≠ b.1))⟩

/-- `insert(key, value)`: `std::map::insert` does nothing when the key is present. -/
def insert {Key T : Type} [DecidableEq Key] (m : ThreadSafeMap Key T) (key : Key)
    (value : T) : ThreadSafeMap Key T :=
  match m.find key with
  | some _ => m
  | none => ⟨m.map ++ [(key, value)]⟩

/-- `remove(key)`: `map.erase(map.find(key))`. -/
def remove {Key T : Type} [DecidableEq Key] (m : ThreadSafeMap Key T) (key : Key) :
    Except UndefinedBehaviour (ThreadSafeMap Key T) :=
  m.erase (m.find key)

/-- `value(key)`: `map.find(key)->second`; dereferencing `map.end()` is undefined
behaviour. -/
def value {Key T : Type} [DecidableEq Key] (m : ThreadSafeMap Key T) (key : Key) :
    Except UndefinedBehaviour T :=
  match m.find key with
  | some b => Except.ok b.2
  | none => Except.error UndefinedBehaviour.dereferenceOfEnd

/-- `take(key)`: the returned value and the map after the call. The argument `aValue` is
the content of the local variable `T aValue;` after its declaration: a default constructed
value when `T` is a class type, an indeterminate value when `T` is a scalar or pointer
type. The function assigns it only when the key is found. -/
def take {Key T : Type} [DecidableEq Key] (m : ThreadSafeMap Key T) (aValue : T)
    (key : Key) : Except UndefinedBehaviour (T × ThreadSafeMap Key T) :=
  let mapElement := m.find key
  match mapElement with
  | some b =>
      -- aValue = mapElement->second
      match m.erase mapElement with
      | Except.ok erased => Except.ok (b.2, erased)
      | Except.error e => Except.error e
  | none => Except.ok (aValue, m)

/-- `contains(key)`. -/
def contains {Key T : Type} [DecidableEq Key] (m : ThreadSafeMap Key T) (key : Key) : Bool :=
  (m.find key).isSome

/-- `size()`. -/
def size {Key T : Type} (m : ThreadSafeMap Key T) : Nat :=
  m.map.length

/-- The keys of a `std::map` are pairwise distinct. -/
def keysDistinct {Key T : Type} (m : ThreadSafeMap Key T) : Prop :=
  (m.map.map (fun b => b.1)).Nodup

instance decidableKeysDistinct {Key T : Type} [DecidableEq Key] (m : ThreadSafeMap Key T) :
    Decidable (keysDistinct m) := by
  unfold keysDistinct
  infer_instance

end ThreadSafeMap

/-! ## Pending lookups (`joynr/LcdPendingLookupsHandler.h`, `joynr/LocalCapabilitiesDirectory.h`) -/

/-- Modelled from the spec: the key of a pending lookup by interface, the pair
(domains, interfaceName) of section 4.5. The handler of the pending lookups is declared in
`joynr/LcdPendingLookupsHandler.h`, which is not among the sources. -/
structure LookupKey where
  domains : List String
  interfaceName : String
  deriving DecidableEq, Repr

/-- Modelled from the spec: a waiter of the pending lookups (`LcdPendingLookupsHandler.h` is
not among the sources): the callback of a lookup, known by the name of its caller, with the
qos and the gbids of the lookup (section 4.5). -/
structure Waiter where
  callback : String
  qos : DiscoveryQos
  gbids : List String
  deriving DecidableEq, Repr

/-- Modelled from the spec: `LcdPendingLookupsHandler` (`LcdPendingLookupsHandler.h` is not
among the sources): the waiters with their keys, in the order of their registration
(section 4.5). The handler is synchronised by its own mutex (section 5), so concurrent
calls take effect one after the other. -/
structure LcdPendingLookupsHandler where
  pendingLookups : List (LookupKey × Waiter)
  deriving DecidableEq, Repr

namespace LcdPendingLookupsHandler

/-- Modelled from the spec: the handler without waiters (`LcdPendingLookupsHandler.h` is not
among the sources). -/
def empty : LcdPendingLookupsHandler := ⟨[]⟩

/-- Modelled from the spec: the list of waiting callbacks that a key is mapped to, in the
order of their registration (section 4.5; `LcdPendingLookupsHandler.h` is not among the
sources). -/
def waiters (h : LcdPendingLookupsHandler) (key : LookupKey) : List Waiter :=
  (h.pendingLookups.filter (fun p => decide (p.1 = key))).map (fun p => p.2)

/-- Modelled from the spec: `register(key, callback, qos, gbids)` of section 4.5
(`LcdPendingLookupsHandler.h` is not among the sources): adds a waiter and returns `true`
if and only if it is the first waiter of the key. -/
def register (h : LcdPendingLookupsHandler) (key : LookupKey) (callback : String)
    (qos : DiscoveryQos) (gbids : List String) : LcdPendingLookupsHandler × Bool :=
  (⟨h.pendingLookups ++ [(key, ⟨callback, qos, gbids⟩)]⟩, (h.waiters key).isEmpty)

/-- Modelled from the spec: `resolve(key, entries)` of section 4.5
(`LcdPendingLookupsHandler.h` is not among the sources): pops all waiters of the key,
applies the filter of each waiter's qos and gbids, and invokes the callbacks in the order of
registration. The spec does not define the filter, which is a parameter. The result is the
handler after the call and the invocations, each a callback with the list handed to it. -/
def resolve (h : LcdPendingLookupsHandler)
    (waiterFilter : DiscoveryQos → List String → List DiscoveryEntryWithMetaInfo →
      List DiscoveryEntryWithMetaInfo)
    (key : LookupKey) (entries : List DiscoveryEntryWithMetaInfo) :
    LcdPendingLookupsHandler × List (String × List DiscoveryEntryWithMetaInfo) :=
  (⟨h.pendingLookups.filter (fun p => decide (p.1 ≠ key))⟩,
    (h.waiters key).map (fun w => (w.callback, waiterFilter w.qos w.gbids entries)))

end LcdPendingLookupsHandler

/-- The members of `LocalCapabilitiesDirectory` that a lookup by interface uses, and the
`lookup` requests sent through `_globalCapabilitiesDirectoryClient` so far. -/
structure LocalCapabilitiesDirectory where
  localCapabilitiesDirectoryStore : LocalCapabilitiesDirectoryStore
  lcdPendingLookupsHandler : LcdPendingLookupsHandler
  globalLookups : List LookupKey
  deriving DecidableEq, Repr

namespace LocalCapabilitiesDirectory

/-- Modelled from the spec: `hasPendingLookups()`, declared in `LocalCapabilitiesDirectory.h`
with the comment that it returns true if lookup calls with discovery scope
`LOCAL_THEN_GLOBAL` are ongoing; its body is in LocalCapabilitiesDirectory.cpp, which is not
among the sources. -/
def hasPendingLookups (d : LocalCapabilitiesDirectory) : Bool :=
  d.lcdPendingLookupsHandler.pendingLookups.any
    (fun p => decide (p.2.qos.discoveryScope = DiscoveryScope.LOCAL_THEN_GLOBAL))

/-- Modelled from the spec: `lookup(domains, interfaceName, gbids, callback, discoveryQos)`,
declared in `LocalCapabilitiesDirectory.h`; its body is in LocalCapabilitiesDirectory.cpp,
which is not among the sources. Section 4.6: the lookup is first tried on the store; on a
miss, if the scope admits global results, the callback is registered as a waiter and the
first waiter of the key initiates the global fetch. The result is the directory after the
call and the lists handed to the callback during the call. -/
def lookup (d : LocalCapabilitiesDirectory) (now : Int) (domains : List String)
    (interfaceName : String) (gbids : List String) (callback : String)
    (discoveryQos : DiscoveryQos) :
    LocalCapabilitiesDirectory × List (List DiscoveryEntryWithMetaInfo) :=
  let interfaceAddresses := LCDUtil.getInterfaceAddresses domains interfaceName
  let resolved := d.localCapabilitiesDirectoryStore.getLocalAndCachedCapabilities now
    interfaceAddresses discoveryQos gbids ILocalCapabilitiesCallback.fresh
  if resolved.1 then (d, resolved.2.received)
  else if discoveryQos.discoveryScope ∈ LocalCapabilitiesDirectoryStore.includeGlobalScopes then
    let registered := d.lcdPendingLookupsHandler.register ⟨domains, interfaceName⟩ callback
      discoveryQos gbids
    let sent :=
      if registered.2 then d.globalLookups ++ [⟨domains, interfaceName⟩] else d.globalLookups
    ({ d with lcdPendingLookupsHandler := registered.1, globalLookups := sent }, [])
  else (d, [])

/-- Modelled from the spec: the atomic steps of the concurrent lookups of a burst
(LocalCapabilitiesDirectory.cpp is not among the sources). Section 5: the store is read
under the mutex of the store, the pending lookups are synchronised by their own mutex, and
remote operations are submitted without blocking. A lookup is therefore three steps, which
the lookups of other callers may separate: the query of the store, the registration of the
waiter, and, for the first waiter, the request to the global capabilities directory. The
index selects the caller among those that are ready for the step. -/
inductive LookupStep where
  | query (caller : Nat)
  | register (caller : Nat)
  | fetch (caller : Nat)
  deriving DecidableEq, Repr

/-- Modelled from the spec: a burst of lookups of the same domains and interface in progress
(LocalCapabilitiesDirectory.cpp is not among the sources): the directory, the callers that
have not queried the store yet, those that missed and have not registered yet, those that
registered as the first waiter and have not sent the request yet, the value that `register`
returned to each caller so far, and the lists that the store handed to callers at once. -/
structure Burst where
  directory : LocalCapabilitiesDirectory
  notStarted : List Waiter
  missed : List Waiter
  mustFetch : List Waiter
  registered : List (String × Bool)
  answered : List (String × List (List DiscoveryEntryWithMetaInfo))
  deriving DecidableEq, Repr

namespace Burst

/-- The burst before its first step. -/
def start (d : LocalCapabilitiesDirectory) (callers : List Waiter) : Burst :=
  { directory := d
    notStarted := callers
    missed := []
    mustFetch := []
    registered := []
    answered := [] }

/-- Every caller has made all steps of its lookup. -/
def finished (b : Burst) : Prop :=
  b.notStarted = [] ∧ b.missed = [] ∧ b.mustFetch = []

instance decidableFinished (b : Burst) : Decidable (finished b) := by
  unfold finished
  infer_instance

/-- Modelled from the spec: one atomic step of a lookup of the burst (section 4.6 and
section 5; LocalCapabilitiesDirectory.cpp is not among the sources). A step of a caller
that is not ready for it changes nothing. -/
def step (now : Int) (domains : List String) (interfaceName : String) (b : Burst) :
    LookupStep → Burst
  | LookupStep.query caller =>
      match b.notStarted[caller]? with
      | none => b
      | some w =>
          let interfaceAddresses := LCDUtil.getInterfaceAddresses domains interfaceName
          let resolved :=
            b.directory.localCapabilitiesDirectoryStore.getLocalAndCachedCapabilities now
              interfaceAddresses w.qos w.gbids ILocalCapabilitiesCallback.fresh
          let others := b.notStarted.eraseIdx caller
          if resolved.1 then
            { b with
              notStarted := others
              answered := b.answered ++ [(w.callback, resolved.2.received)] }
          else if w.qos.discoveryScope ∈ LocalCapabilitiesDirectoryStore.includeGlobalScopes then
            { b with notStarted := others, missed := b.missed ++ [w] }
          else { b with notStarted := others }
  | LookupStep.register caller =>
      match b.missed[caller]? with
      | none => b
      | some w =>
          let registered := b.directory.lcdPendingLookupsHandler.register
            ⟨domains, interfaceName⟩ w.callback w.qos w.gbids
          let d := { b.directory with lcdPendingLookupsHandler := registered.1 }
          { b with
            directory := d
            missed := b.missed.eraseIdx caller
            mustFetch := if registered.2 then b.mustFetch ++ [w] else b.mustFetch
            registered := b.registered ++ [(w.callback, registered.2)] }
  | LookupStep.fetch caller =>
      match b.mustFetch[caller]? with
      | none => b
      | some _ =>
          let sent := b.directory.globalLookups ++ [⟨domains, interfaceName⟩]
          let d := { b.directory with globalLookups := sent }
          { b with directory := d, mustFetch := b.mustFetch.eraseIdx caller }

/-- The burst after the steps of a schedule, an interleaving of the steps of the callers. -/
def run (now : Int) (domains : List String) (interfaceName : String) (b : Burst)
    (schedule : List LookupStep) : Burst :=
  schedule.foldl (step now domains interfaceName) b

/-- The lookups of the burst have been coalesced so far: the store is the store of the
directory `d` in which the burst started; every caller of the burst is still to query the
store, still to register, or a waiter of the key; no caller was answered by the store; the
waiters of the key are the callers that registered, in the order of their registration; the
first registration, and no other, was told that it is the first waiter; and one request for
the key has been sent or is still to be sent by the first waiter, once the key has a
waiter. -/
def coalescing (d : LocalCapabilitiesDirectory) (callers : List Waiter) (key : LookupKey)
    (b : Burst) : Prop :=
  b.directory.localCapabilitiesDirectoryStore = d.localCapabilitiesDirectoryStore ∧
    (b.notStarted ++ b.missed ++
      b.directory.lcdPendingLookupsHandler.waiters key).Perm callers ∧
    b.answered = [] ∧
    b.registered.map (fun r => r.1) =
      (b.directory.lcdPendingLookupsHandler.waiters key).map (fun w => w.callback) ∧
    b.registered.map (fun r => r.2) =
      List.replicate (min 1 (b.directory.lcdPendingLookupsHandler.waiters key).length) true ++
        List.replicate ((b.directory.lcdPendingLookupsHandler.waiters key).length - 1)
          false ∧
    b.directory.globalLookups ++ b.mustFetch.map (fun _ => key) =
      d.globalLookups ++
        (if b.directory.lcdPendingLookupsHandler.waiters key = [] then [] else [key])

end Burst

end LocalCapabilitiesDirectory

/-! ## `CapabilitiesRegistrar` (`capabilities/CapabilitiesRegistrar.cpp`) -/

namespace exceptions

/-- A `JoynrRuntimeException`, with its message. -/
structure JoynrRuntimeException where
  message : String
  deriving DecidableEq, Repr

end exceptions

/-- What `CapabilitiesRegistrar::removeAsync` is seen to do: the calls it makes on its
collaborators and on the callbacks of its caller. -/
inductive Effect where
  | discoveryProxyRemoveAsync (participantId : String)
  | removeNextHop (participantId : String)
  | removeRequestCaller (dispatcher : String) (participantId : String)
  | onSuccess
  | onError (error : exceptions.JoynrRuntimeException)
  deriving DecidableEq, Repr

/-- The effects so far, the earliest first. A callback is a function on the effects so far:
it is given the effects that precede its invocation and returns them with its own. -/
abbrev Effects := List Effect

/-- The reply of an asynchronous call: the callee invokes `onSuccess`, or `onError` with an
exception, or none of the two (the reply never arrives). -/
inductive Reply where
  | onSuccess
  | onError (error : exceptions.JoynrRuntimeException)
  | noReply
  deriving DecidableEq, Repr

/-- An `IDispatcher`, known by its name. -/
structure IDispatcher where
  name : String
  deriving DecidableEq, Repr

/-- `IDispatcher::removeRequestCaller(participantId)`. -/
def IDispatcher.removeRequestCaller (dispatcher : IDispatcher) (participantId : String)
    (effects : Effects) : Effects :=
  effects ++ [Effect.removeRequestCaller dispatcher.name participantId]

/-- A `system::IDiscoveryAsync` proxy, given by its reply to `removeAsync`. -/
structure IDiscoveryAsync where
  removeAsyncReply : Reply
  deriving DecidableEq, Repr

/-- `IDiscoveryAsync::removeAsync(participantId, onSuccess, onError)`: the call, followed by
the callback that the reply selects. -/
def IDiscoveryAsync.removeAsync (discoveryProxy : IDiscoveryAsync) (participantId : String)
    (onSuccess : Effects → Effects)
    (onError : exceptions.JoynrRuntimeException → Effects → Effects)
    (effects : Effects) : Effects :=
  let called := effects ++ [Effect.discoveryProxyRemoveAsync participantId]
  match discoveryProxy.removeAsyncReply with
  | Reply.onSuccess => onSuccess called
  | Reply.onError error => onError error called
  | Reply.noReply => called

/-- An `IMessageRouter`, given by its reply to `removeNextHop`. -/
structure IMessageRouter where
  removeNextHopReply : Reply
  deriving DecidableEq, Repr

/-- `IMessageRouter::removeNextHop(participantId, onSuccess, onError)`: the call, followed
by the callback that the reply selects. -/
def IMessageRouter.removeNextHop (messageRouter : IMessageRouter) (participantId : String)
    (onSuccess : Effects → Effects)
    (onError : exceptions.JoynrRuntimeException → Effects → Effects)
    (effects : Effects) : Effects :=
  let called := effects ++ [Effect.removeNextHop participantId]
  match messageRouter.removeNextHopReply with
  | Reply.onSuccess => onSuccess called
  | Reply.onError error => onError error called
  | Reply.noReply => called

/-- The members of `CapabilitiesRegistrar` that `removeAsync` uses. The message router is
`none` when it has been destroyed by the time the discovery proxy replies, so that the weak
pointer taken by `removeAsync` cannot be locked. -/
structure CapabilitiesRegistrar where
  dispatcherList : List IDispatcher
  discoveryProxy : IDiscoveryAsync
  messageRouter : Option IMessageRouter
  deriving DecidableEq, Repr

namespace CapabilitiesRegistrar

/-- `removeAsync(participantId, onSuccess, onError)`. -/
def removeAsync (r : CapabilitiesRegistrar) (participantId : String)
    (onSuccess : Effects → Effects)
    (onError : exceptions.JoynrRuntimeException → Effects → Effects) : Effects → Effects :=
  let onSuccessWrapper : Effects → Effects := fun effects =>
    let onSuccessWrapper : Effects → Effects := fun effects =>
      let removed := r.dispatcherList.foldl
        (fun effects currentDispatcher =>
          currentDispatcher.removeRequestCaller participantId effects) effects
      onSuccess removed
    match r.messageRouter with
    | some ptr => ptr.removeNextHop participantId onSuccessWrapper onError effects
    | none => effects
  r.discoveryProxy.removeAsync participantId onSuccessWrapper onError

/-- `addDispatcher(dispatcher)`. -/
def addDispatcher (r : CapabilitiesRegistrar) (dispatcher : IDispatcher) :
    CapabilitiesRegistrar :=
  { r with dispatcherList := r.dispatcherList ++ [dispatcher] }

/-- The `onSuccess` callback of a caller who records the invocation. -/
def recordOnSuccess : Effects → Effects :=
  fun effects => effects ++ [Effect.onSuccess]

/-- The `onError` callback of a caller who records the invocation. -/
def recordOnError : exceptions.JoynrRuntimeException → Effects → Effects :=
  fun error effects => effects ++ [Effect.onError error]

end CapabilitiesRegistrar

/-! ## Concrete stores and queries -/

namespace Examples

open LocalCapabilitiesDirectoryStore

/-- A discovery entry with the given domain, interface, participant id and provider scope. -/
def entry (domain interfaceName participantId : String) (scope : ProviderScope) :
    DiscoveryEntry :=
  { providerVersion := ⟨1, 0⟩
    domain := domain
    interfaceName := interfaceName
    participantId := participantId
    qos := ⟨0, scope, false⟩
    lastSeenDateMs := 0
    expiryDateMs := 100000
    publicKeyId := "" }

/-- A discovery qos with the given scope and cache max age. -/
def qos (scope : DiscoveryScope) (cacheMaxAge : Int) : DiscoveryQos :=
  { cacheMaxAge := cacheMaxAge
    discoveryTimeout := 1000
    discoveryScope := scope
    providerMustSupportOnChange := false }

/-- The interface address ("d", "i") of all example entries. -/
def address : InterfaceAddress := ⟨"d", "i"⟩

/-- Participant "p1", provider scope GLOBAL. -/
def p1 : DiscoveryEntry := entry "d" "i" "p1" ProviderScope.GLOBAL

/-- Participant "p2", provider scope GLOBAL. -/
def p2 : DiscoveryEntry := entry "d" "i" "p2" ProviderScope.GLOBAL

/-- Participant "p3", provider scope LOCAL. -/
def p3 : DiscoveryEntry := entry "d" "i" "p3" ProviderScope.LOCAL

/-- Only "p1" is registered, locally, for gbid "a". -/
def storeLocalP1 : LocalCapabilitiesDirectoryStore :=
  insertInLocalCapabilitiesStorage init p1 false ["a"]

/-- Only "p2" is known, as a cache row inserted at time 5 for gbid "a". -/
def storeCachedP2 : LocalCapabilitiesDirectoryStore :=
  insertInGlobalLookupCache init 5 p2 ["a"]

/-- Participant "p1" is registered locally and "p2" is cached (time 5), both for gbid "a". -/
def storeLocalP1CachedP2 : LocalCapabilitiesDirectoryStore :=
  insertInGlobalLookupCache storeLocalP1 5 p2 ["a"]

/-- Participant "p3" (provider scope LOCAL) is registered locally and "p2" is cached. -/
def storeLocalP3CachedP2 : LocalCapabilitiesDirectoryStore :=
  insertInGlobalLookupCache (insertInLocalCapabilitiesStorage init p3 false []) 5 p2 ["a"]

/-- Participant "p1" is registered locally and then also inserted into the cache. -/
def storeLocalP1CachedP1 : LocalCapabilitiesDirectoryStore :=
  insertInGlobalLookupCache storeLocalP1 5 p1 ["b"]

/-- A directory whose store is empty, without pending lookups and without requests sent to
the global capabilities directory. -/
def emptyDirectory : LocalCapabilitiesDirectory :=
  { localCapabilitiesDirectoryStore := init
    lcdPendingLookupsHandler := LcdPendingLookupsHandler.empty
    globalLookups := [] }

/-- Three callers of the same `LOCAL_THEN_GLOBAL` lookup with `cacheMaxAge = 0` and gbid
"a". -/
def threeCallers : List Waiter :=
  [⟨"caller1", qos DiscoveryScope.LOCAL_THEN_GLOBAL 0, ["a"]⟩,
    ⟨"caller2", qos DiscoveryScope.LOCAL_THEN_GLOBAL 0, ["a"]⟩,
    ⟨"caller3", qos DiscoveryScope.LOCAL_THEN_GLOBAL 0, ["a"]⟩]

/-- A schedule of three callers in which the lookups overlap: all query the store before any
registers, and the last of them registers first. -/
def overlappingSchedule : List LocalCapabilitiesDirectory.LookupStep :=
  [LocalCapabilitiesDirectory.LookupStep.query 1, LocalCapabilitiesDirectory.LookupStep.query 0,
    LocalCapabilitiesDirectory.LookupStep.query 0,
    LocalCapabilitiesDirectory.LookupStep.register 2,
    LocalCapabilitiesDirectory.LookupStep.register 0,
    LocalCapabilitiesDirectory.LookupStep.fetch 0,
    LocalCapabilitiesDirectory.LookupStep.register 0]

/-- A directory whose store holds only the cache row of "p2", inserted at time 5 for gbid
"a", without pending lookups. -/
def directoryCachedP2 : LocalCapabilitiesDirectory :=
  { localCapabilitiesDirectoryStore := storeCachedP2
    lcdPendingLookupsHandler := LcdPendingLookupsHandler.empty
    globalLookups := [] }

/-- Three callers of the same `LOCAL_THEN_GLOBAL` lookup with `cacheMaxAge = 1000` and gbid
"a". -/
def threeCallersAcceptingCache : List Waiter :=
  [⟨"caller1", qos DiscoveryScope.LOCAL_THEN_GLOBAL 1000, ["a"]⟩,
    ⟨"caller2", qos DiscoveryScope.LOCAL_THEN_GLOBAL 1000, ["a"]⟩,
    ⟨"caller3", qos DiscoveryScope.LOCAL_THEN_GLOBAL 1000, ["a"]⟩]

/-- A directory with an empty store in which an earlier caller waits for the lookup of
(["d"], "i"); its request has been sent before. -/
def directoryWithPendingLookup : LocalCapabilitiesDirectory :=
  { localCapabilitiesDirectoryStore := init
    lcdPendingLookupsHandler :=
      (LcdPendingLookupsHandler.empty.register ⟨["d"], "i"⟩ "caller0"
        (qos DiscoveryScope.LOCAL_THEN_GLOBAL 0) ["a"]).1
    globalLookups := [] }

/-- Two callers of the lookup of (["d"], "i") that name different gbids. -/
def twoCallersOfDifferentGbids : List Waiter :=
  [⟨"caller1", qos DiscoveryScope.LOCAL_THEN_GLOBAL 0, ["a"]⟩,
    ⟨"caller2", qos DiscoveryScope.LOCAL_THEN_GLOBAL 0, ["b"]⟩]

/-- The gbid filter of section 4.2 as the filter of a waiter, with the gbids map of the store
in which "p2" is cached for gbid "a". -/
def gbidFilter : DiscoveryQos → List String → List DiscoveryEntryWithMetaInfo →
    List DiscoveryEntryWithMetaInfo :=
  fun _ gbids entries =>
    entries.filter (fun e =>
      LCDUtil.isEntryForGbid e.toDiscoveryEntry gbids
        storeCachedP2.globalParticipantIdsToGbidsMap)

/-- A registrar with two dispatchers whose discovery proxy and message router reply with
success. -/
def registrar : CapabilitiesRegistrar :=
  { dispatcherList := [⟨"dispatcher1"⟩, ⟨"dispatcher2"⟩]
    discoveryProxy := ⟨Reply.onSuccess⟩
    messageRouter := some ⟨Reply.onSuccess⟩ }

end Examples

/-! ## The inputs of `LCDUtilTest.cpp` -/

namespace LCDUtilTest

/-- The discovery entry that the unit tests build: version 42.42, dates 10000, public key
id "testkey". -/
def entry (domain interfaceName participantId : String) (scope : ProviderScope) :
    DiscoveryEntry :=
  { providerVersion := ⟨42, 42⟩
    domain := domain
    interfaceName := interfaceName
    participantId := participantId
    qos := ⟨0, scope, false⟩
    lastSeenDateMs := 10000
    expiryDateMs := 10000
    publicKeyId := "testkey" }

/-- `entry1` of `test_filterDuplicates`. -/
def entry1 : DiscoveryEntryWithMetaInfo :=
  ⟨entry "domain1" "interface1" "participantId1" ProviderScope.LOCAL, false⟩

/-- `entry2` of `test_filterDuplicates`. -/
def entry2 : DiscoveryEntryWithMetaInfo :=
  ⟨entry "domain2" "interface2" "participantId2" ProviderScope.LOCAL, false⟩

/-- `entry1_1` of `test_filterDuplicates`. -/
def entry1_1 : DiscoveryEntryWithMetaInfo :=
  ⟨entry "domain1" "interface1" "participantId1" ProviderScope.GLOBAL, true⟩

/-- `entry3` of `test_filterDuplicates`. -/
def entry3 : DiscoveryEntryWithMetaInfo :=
  ⟨entry "domain3" "interface3" "participantId3" ProviderScope.GLOBAL, true⟩

/-- `participantIdsToGbidsMap` of `test_isEntryForGbid` and `filterDiscoveryEntriesByGbids`. -/
def participantIdsToGbidsMap : UnorderedMap (List String) :=
  (UnorderedMap.empty).assign "participantId1" ["gbid1"]

end LCDUtilTest

/-! # Properties -/

/-! ## Helper lemmas: `LCDUtil` -/

namespace LCDUtil

theorem mem_convert (isLocal : Bool) (entries : List DiscoveryEntry)
    (x : DiscoveryEntryWithMetaInfo) :
    x ∈ convert isLocal entries ↔ x.isLocal = isLocal ∧ x.toDiscoveryEntry ∈ entries := by
  unfold convert convertEntry
  rw [List.mem_map]
  constructor
  · rintro ⟨e, he, rfl⟩
    exact ⟨rfl, he⟩
  · rintro ⟨h1, h2⟩
    refine ⟨x.toDiscoveryEntry, h2, ?_⟩
    cases x
    simp_all

theorem convert_map_toDiscoveryEntry (isLocal : Bool) (entries : List DiscoveryEntry) :
    (convert isLocal entries).map (fun x => x.toDiscoveryEntry) = entries := by
  unfold convert convertEntry
  induction entries with
  | nil => rfl
  | cons e rest ih => simp only [List.map_cons, ih]

theorem convert_map_participantId (isLocal : Bool) (entries : List DiscoveryEntry) :
    (convert isLocal entries).map (fun x => x.participantId) =
      entries.map (fun e => e.participantId) := by
  unfold convert convertEntry
  simp

theorem insertByParticipantId_pids (acc : List DiscoveryEntryWithMetaInfo)
    (e : DiscoveryEntryWithMetaInfo) (p : String) :
    p ∈ (insertByParticipantId acc e).map (fun x => x.participantId) ↔
      p ∈ acc.map (fun x => x.participantId) ∨ p = e.participantId := by
  unfold insertByParticipantId
  split_ifs with h
  · constructor
    · intro hp; exact Or.inl hp
    · rintro (hp | hp)
      · exact hp
      · subst hp
        simp only [List.any_eq_true, decide_eq_true_eq] at h
        obtain ⟨x, hx, hxe⟩ := h
        exact List.mem_map.mpr ⟨x, hx, hxe⟩
  · simp [eq_comm]

theorem insertByParticipantId_mem (acc : List DiscoveryEntryWithMetaInfo)
    (e x : DiscoveryEntryWithMetaInfo) (hx : x ∈ insertByParticipantId acc e) :
    x ∈ acc ∨ (x = e ∧ e.participantId ∉ acc.map (fun y => y.participantId)) := by
  unfold insertByParticipantId at hx
  split_ifs at hx with h
  · exact Or.inl hx
  · rcases List.mem_append.mp hx with hx | hx
    · exact Or.inl hx
    · right
      refine ⟨by simpa using hx, ?_⟩
      intro hmem
      apply h
      obtain ⟨y, hy, hye⟩ := List.mem_map.mp hmem
      simp only [List.any_eq_true, decide_eq_true_eq]
      exact ⟨y, hy, hye⟩

theorem insertByParticipantId_nodup (acc : List DiscoveryEntryWithMetaInfo)
    (e : DiscoveryEntryWithMetaInfo)
    (hacc : (acc.map (fun x => x.participantId)).Nodup) :
    ((insertByParticipantId acc e).map (fun x => x.participantId)).Nodup := by
  unfold insertByParticipantId
  split_ifs with h
  · exact hacc
  · rw [List.map_append, List.nodup_append]
    refine ⟨hacc, by simp, ?_⟩
    intro p hp hp2
    simp only [List.map_cons, List.map_nil, List.mem_singleton] at hp2
    subst hp2
    apply h
    obtain ⟨y, hy, hye⟩ := List.mem_map.mp hp
    simp only [List.any_eq_true, decide_eq_true_eq]
    exact ⟨y, hy, hye⟩

theorem foldl_insert_pids (xs : List DiscoveryEntryWithMetaInfo) :
    ∀ (acc : List DiscoveryEntryWithMetaInfo) (p : String),
      p ∈ (xs.foldl insertByParticipantId acc).map (fun x => x.participantId) ↔
        p ∈ acc.map (fun x => x.participantId) ∨ p ∈ xs.map (fun x => x.participantId) := by
  induction xs with
  | nil => intro acc p; simp
  | cons e rest ih =>
    intro acc p
    rw [List.foldl_cons, ih, insertByParticipantId_pids]
    simp only [List.map_cons, List.mem_cons]
    tauto

theorem foldl_insert_mem (xs : List DiscoveryEntryWithMetaInfo) :
    ∀ (acc : List DiscoveryEntryWithMetaInfo) (x : DiscoveryEntryWithMetaInfo),
      x ∈ xs.foldl insertByParticipantId acc →
        x ∈ acc ∨ (x ∈ xs ∧ x.participantId ∉ acc.map (fun y => y.participantId)) := by
  induction xs with
  | nil => intro acc x hx; exact Or.inl (by simpa using hx)
  | cons e rest ih =>
    intro acc x hx
    rw [List.foldl_cons] at hx
    rcases ih _ _ hx with h | ⟨h1, h2⟩
    · rcases insertByParticipantId_mem acc e x h with h | ⟨h, h3⟩
      · exact Or.inl h
      · subst h
        exact Or.inr ⟨List.mem_cons_self _ _, h3⟩
    · right
      refine ⟨List.mem_cons_of_mem _ h1, ?_⟩
      intro hmem
      exact h2 ((insertByParticipantId_pids acc e _).mpr (Or.inl hmem))

theorem foldl_insert_nodup (xs : List DiscoveryEntryWithMetaInfo) :
    ∀ (acc : List DiscoveryEntryWithMetaInfo),
      (acc.map (fun x => x.participantId)).Nodup →
        ((xs.foldl insertByParticipantId acc).map (fun x => x.participantId)).Nodup := by
  induction xs with
  | nil => intro acc h; simpa using h
  | cons e rest ih =>
    intro acc h
    rw [List.foldl_cons]
    exact ih _ (insertByParticipantId_nodup acc e h)

theorem filterDuplicates_nodup (l g : List DiscoveryEntryWithMetaInfo) :
    ((filterDuplicates l g).map (fun x => x.participantId)).Nodup := by
  unfold filterDuplicates
  exact foldl_insert_nodup g _ (foldl_insert_nodup l [] (by simp))

theorem filterDuplicates_pids (l g : List DiscoveryEntryWithMetaInfo) (p : String) :
    p ∈ (filterDuplicates l g).map (fun x => x.participantId) ↔
      p ∈ l.map (fun x => x.participantId) ∨ p ∈ g.map (fun x => x.participantId) := by
  unfold filterDuplicates
  rw [foldl_insert_pids, foldl_insert_pids]
  simp

theorem filterDuplicates_mem (l g : List DiscoveryEntryWithMetaInfo)
    (x : DiscoveryEntryWithMetaInfo) (hx : x ∈ filterDuplicates l g) :
    x ∈ l ∨ (x ∈ g ∧ x.participantId ∉ l.map (fun y => y.participantId)) := by
  unfold filterDuplicates at hx
  rcases foldl_insert_mem g _ x hx with h | ⟨h1, h2⟩
  · rcases foldl_insert_mem l [] x h with h | ⟨h, _⟩
    · simp at h
    · exact Or.inl h
  · right
    refine ⟨h1, ?_⟩
    intro hmem
    exact h2 ((foldl_insert_pids l [] _).mpr (Or.inr hmem))

end LCDUtil

/-! ## Helper lemmas: the store -/

namespace LocalCapabilitiesDirectoryStore

theorem callReceiverIfPossible_fst (scope : DiscoveryScope)
    (L C : List DiscoveryEntry) (callback : ILocalCapabilitiesCallback) :
    (callReceiverIfPossible scope L C callback).1 = true ↔
      (scope = DiscoveryScope.LOCAL_ONLY ∨
        (scope = DiscoveryScope.LOCAL_THEN_GLOBAL ∧ (L ≠ [] ∨ C ≠ [])) ∨
        ((scope = DiscoveryScope.LOCAL_AND_GLOBAL ∨ scope = DiscoveryScope.GLOBAL_ONLY) ∧
          C ≠ [])) := by
  unfold callReceiverIfPossible
  cases scope <;> simp <;> split_ifs <;> simp_all

theorem searchLocal_of_includeLocal (s : LocalCapabilitiesDirectoryStore)
    (interfaceAddresses : List InterfaceAddress) (scope : DiscoveryScope)
    (h : scope ∈ includeLocalScopes) :
    s.searchLocal interfaceAddresses scope = s.localMatches interfaceAddresses := by
  simp [searchLocal, localMatches, h]

theorem searchLocal_GLOBAL_ONLY (s : LocalCapabilitiesDirectoryStore)
    (interfaceAddresses : List InterfaceAddress) :
    s.searchLocal interfaceAddresses DiscoveryScope.GLOBAL_ONLY =
      (s.localMatches interfaceAddresses).filter (fun e => LCDUtil.isGlobal e) := by
  unfold searchLocal localMatches
  rw [List.filter_flatMap]
  simp [includeLocalScopes]

theorem mem_localMatches (s : LocalCapabilitiesDirectoryStore)
    (interfaceAddresses : List InterfaceAddress) (e : DiscoveryEntry) :
    e ∈ s.localMatches interfaceAddresses ↔
      e ∈ s.locallyRegisteredCapabilities.entries ∧
        ∃ ia ∈ interfaceAddresses, e.domain = ia.domain ∧ e.interfaceName = ia.interface := by
  unfold localMatches capabilities.Storage.lookupByDomainAndInterface
  simp only [List.mem_flatMap, List.mem_filter, decide_eq_true_eq]
  constructor
  · rintro ⟨ia, hia, he, hd⟩
    exact ⟨he, ia, hia, hd⟩
  · rintro ⟨he, ia, hia, hd⟩
    exact ⟨ia, hia, he, hd⟩

/-! ## The merge algorithm, by interface -/

theorem getLocalAndCachedCapabilities_eq (s : LocalCapabilitiesDirectoryStore)
    (now : Int) (interfaceAddresses : List InterfaceAddress) (discoveryQos : DiscoveryQos)
    (gbids : List String) (callback : ILocalCapabilitiesCallback) :
    s.getLocalAndCachedCapabilities now interfaceAddresses discoveryQos gbids callback =
      callReceiverIfPossible discoveryQos.discoveryScope
        (s.searchLocal interfaceAddresses discoveryQos.discoveryScope)
        (if discoveryQos.discoveryScope ∈ includeGlobalScopes then
          s.searchGlobalCache now interfaceAddresses gbids discoveryQos.cacheMaxAge
        else [])
        callback := rfl

/-- C1: a by-interface `getLocalAndCachedCapabilities`, with `L` the local matches and `C`
the age- and gbid-filtered cache matches, returns `true` exactly when the scope is
`LOCAL_ONLY`, or the scope is `LOCAL_THEN_GLOBAL` and `L` or `C` is non-empty, or the scope
is `LOCAL_AND_GLOBAL` or `GLOBAL_ONLY` and `C` is non-empty; otherwise it returns `false`. -/
theorem getLocalAndCachedCapabilities_returns_true_iff (s : LocalCapabilitiesDirectoryStore)
    (now : Int) (interfaceAddresses : List InterfaceAddress) (discoveryQos : DiscoveryQos)
    (gbids : List String) (callback : ILocalCapabilitiesCallback) :
    (s.getLocalAndCachedCapabilities now interfaceAddresses discoveryQos gbids callback).1
        = true ↔
      (discoveryQos.discoveryScope = DiscoveryScope.LOCAL_ONLY ∨
        (discoveryQos.discoveryScope = DiscoveryScope.LOCAL_THEN_GLOBAL ∧
          (s.localMatches interfaceAddresses ≠ [] ∨
            s.searchGlobalCache now interfaceAddresses gbids discoveryQos.cacheMaxAge ≠ [])) ∨
        ((discoveryQos.discoveryScope = DiscoveryScope.LOCAL_AND_GLOBAL ∨
            discoveryQos.discoveryScope = DiscoveryScope.GLOBAL_ONLY) ∧
          s.searchGlobalCache now interfaceAddresses gbids discoveryQos.cacheMaxAge ≠ [])) := by
  rw [getLocalAndCachedCapabilities_eq, callReceiverIfPossible_fst]
  rcases hs : discoveryQos.discoveryScope with _ | _ | _ | _
  · simp
  · have h := searchLocal_of_includeLocal s interfaceAddresses
      DiscoveryScope.LOCAL_THEN_GLOBAL (by decide)
    simp [h, includeGlobalScopes]
  · simp [includeGlobalScopes]
  · simp [includeGlobalScopes]

/-- C2: a by-interface `getLocalAndCachedCapabilities` with scope `LOCAL_ONLY` returns `true`
and delivers exactly the local matches, each tagged `isLocal = true`: an entry is delivered
if and only if it is tagged local, is registered locally and has one of the requested
(domain, interface) pairs. Without a local match the empty list is delivered. -/
theorem getLocalAndCachedCapabilities_LOCAL_ONLY (s : LocalCapabilitiesDirectoryStore)
    (now : Int) (interfaceAddresses : List InterfaceAddress) (discoveryQos : DiscoveryQos)
    (gbids : List String) (callback : ILocalCapabilitiesCallback)
    (hscope : discoveryQos.discoveryScope = DiscoveryScope.LOCAL_ONLY) :
    ∃ delivered : List DiscoveryEntryWithMetaInfo,
      s.getLocalAndCachedCapabilities now interfaceAddresses discoveryQos gbids callback =
          (true, callback.capabilitiesReceived delivered) ∧
        delivered.map (fun x => x.toDiscoveryEntry) = s.localMatches interfaceAddresses ∧
        (∀ x : DiscoveryEntryWithMetaInfo, x ∈ delivered ↔
          x.isLocal = true ∧ x.toDiscoveryEntry ∈ s.locallyRegisteredCapabilities.entries ∧
            ∃ ia ∈ interfaceAddresses,
              x.domain = ia.domain ∧ x.interfaceName = ia.interface) ∧
        (s.localMatches interfaceAddresses = [] → delivered = []) := by
  refine ⟨LCDUtil.convert true (s.localMatches interfaceAddresses), ?_, ?_, ?_, ?_⟩
  · rw [getLocalAndCachedCapabilities_eq, hscope,
      searchLocal_of_includeLocal s interfaceAddresses DiscoveryScope.LOCAL_ONLY (by decide)]
    simp [callReceiverIfPossible]
  · exact LCDUtil.convert_map_toDiscoveryEntry _ _
  · intro x
    rw [LCDUtil.mem_convert, mem_localMatches]
  · intro h
    rw [h]
    rfl

/-- Witness for C2: in the store with "p1" registered locally and "p2" cached, a `LOCAL_ONLY`
query for ("d", "i") delivers the local matches. -/
theorem getLocalAndCachedCapabilities_LOCAL_ONLY_witness :
    (Examples.qos DiscoveryScope.LOCAL_ONLY 0).discoveryScope = DiscoveryScope.LOCAL_ONLY ∧
      ∃ delivered : List DiscoveryEntryWithMetaInfo,
        Examples.storeLocalP1CachedP2.getLocalAndCachedCapabilities 10 [Examples.address]
            (Examples.qos DiscoveryScope.LOCAL_ONLY 0) ["a"] ILocalCapabilitiesCallback.fresh =
          (true, ILocalCapabilitiesCallback.fresh.capabilitiesReceived delivered) ∧
        delivered.map (fun x => x.toDiscoveryEntry) =
          Examples.storeLocalP1CachedP2.localMatches [Examples.address] := by
  refine ⟨rfl, ?_⟩
  obtain ⟨delivered, h1, h2, _⟩ :=
    getLocalAndCachedCapabilities_LOCAL_ONLY Examples.storeLocalP1CachedP2 10
      [Examples.address] (Examples.qos DiscoveryScope.LOCAL_ONLY 0) ["a"]
      ILocalCapabilitiesCallback.fresh rfl
  exact ⟨delivered, h1, h2⟩

/-- C3: for scope `LOCAL_THEN_GLOBAL`, with `L` the local results and `C` the cache results:
if `L` is non-empty the callback receives exactly `L`, every entry tagged `isLocal = true`;
if `L` is empty and `C` is not, it receives exactly `C`, every entry tagged
`isLocal = false`; if both are empty the call returns `false` and the callback is not
invoked. -/
theorem getLocalAndCachedCapabilities_LOCAL_THEN_GLOBAL (s : LocalCapabilitiesDirectoryStore)
    (now : Int) (interfaceAddresses : List InterfaceAddress) (discoveryQos : DiscoveryQos)
    (gbids : List String) (callback : ILocalCapabilitiesCallback)
    (hscope : discoveryQos.discoveryScope = DiscoveryScope.LOCAL_THEN_GLOBAL) :
    (s.localMatches interfaceAddresses ≠ [] →
      ∃ delivered : List DiscoveryEntryWithMetaInfo,
        s.getLocalAndCachedCapabilities now interfaceAddresses discoveryQos gbids callback =
            (true, callback.capabilitiesReceived delivered) ∧
          delivered.map (fun x => x.toDiscoveryEntry) = s.localMatches interfaceAddresses ∧
          ∀ x ∈ delivered, x.isLocal = true) ∧
    (s.localMatches interfaceAddresses = [] →
      s.searchGlobalCache now interfaceAddresses gbids discoveryQos.cacheMaxAge ≠ [] →
      ∃ delivered : List DiscoveryEntryWithMetaInfo,
        s.getLocalAndCachedCapabilities now interfaceAddresses discoveryQos gbids callback =
            (true, callback.capabilitiesReceived delivered) ∧
          delivered.map (fun x => x.toDiscoveryEntry) =
            s.searchGlobalCache now interfaceAddresses gbids discoveryQos.cacheMaxAge ∧
          ∀ x ∈ delivered, x.isLocal = false) ∧
    (s.localMatches interfaceAddresses = [] →
      s.searchGlobalCache now interfaceAddresses gbids discoveryQos.cacheMaxAge = [] →
      s.getLocalAndCachedCapabilities now interfaceAddresses discoveryQos gbids callback =
        (false, callback)) := by
  have hL := searchLocal_of_includeLocal s interfaceAddresses
    DiscoveryScope.LOCAL_THEN_GLOBAL (by decide)
  refine ⟨?_, ?_, ?_⟩
  · intro hne
    refine ⟨LCDUtil.convert true (s.localMatches interfaceAddresses), ?_,
      LCDUtil.convert_map_toDiscoveryEntry _ _, ?_⟩
    · rw [getLocalAndCachedCapabilities_eq, hscope, hL]
      simp [callReceiverIfPossible, hne]
    · intro x hx
      exact ((LCDUtil.mem_convert _ _ _).mp hx).1
  · intro hnil hne
    refine ⟨LCDUtil.convert false
      (s.searchGlobalCache now interfaceAddresses gbids discoveryQos.cacheMaxAge), ?_,
      LCDUtil.convert_map_toDiscoveryEntry _ _, ?_⟩
    · rw [getLocalAndCachedCapabilities_eq, hscope, hL]
      simp [callReceiverIfPossible, hnil, hne, includeGlobalScopes]
    · intro x hx
      exact ((LCDUtil.mem_convert _ _ _).mp hx).1
  · intro hnil hnil2
    rw [getLocalAndCachedCapabilities_eq, hscope, hL]
    simp [callReceiverIfPossible, hnil, hnil2, includeGlobalScopes]

/-- Witness for C3: a local hit ("p1" registered), a cache hit without local match ("p2"
cached only) and a miss (empty store) under scope `LOCAL_THEN_GLOBAL`. -/
theorem getLocalAndCachedCapabilities_LOCAL_THEN_GLOBAL_witness :
    (Examples.qos DiscoveryScope.LOCAL_THEN_GLOBAL 100).discoveryScope =
        DiscoveryScope.LOCAL_THEN_GLOBAL ∧
      Examples.storeLocalP1CachedP2.localMatches [Examples.address] ≠ [] ∧
      (∃ delivered : List DiscoveryEntryWithMetaInfo,
        Examples.storeLocalP1CachedP2.getLocalAndCachedCapabilities 10 [Examples.address]
            (Examples.qos DiscoveryScope.LOCAL_THEN_GLOBAL 100) ["a"]
            ILocalCapabilitiesCallback.fresh =
          (true, ILocalCapabilitiesCallback.fresh.capabilitiesReceived delivered) ∧
        delivered.map (fun x => x.toDiscoveryEntry) =
          Examples.storeLocalP1CachedP2.localMatches [Examples.address] ∧
        ∀ x ∈ delivered, x.isLocal = true) ∧
      Examples.storeCachedP2.localMatches [Examples.address] = [] ∧
      Examples.storeCachedP2.searchGlobalCache 10 [Examples.address] ["a"] 100 ≠ [] ∧
      (∃ delivered : List DiscoveryEntryWithMetaInfo,
        Examples.storeCachedP2.getLocalAndCachedCapabilities 10 [Examples.address]
            (Examples.qos DiscoveryScope.LOCAL_THEN_GLOBAL 100) ["a"]
            ILocalCapabilitiesCallback.fresh =
          (true, ILocalCapabilitiesCallback.fresh.capabilitiesReceived delivered) ∧
        delivered.map (fun x => x.toDiscoveryEntry) =
          Examples.storeCachedP2.searchGlobalCache 10 [Examples.address] ["a"] 100 ∧
        ∀ x ∈ delivered, x.isLocal = false) ∧
      init.getLocalAndCachedCapabilities 10 [Examples.address]
          (Examples.qos DiscoveryScope.LOCAL_THEN_GLOBAL 100) ["a"]
          ILocalCapabilitiesCallback.fresh =
        (false, ILocalCapabilitiesCallback.fresh) :=
  ⟨rfl, by decide,
    (getLocalAndCachedCapabilities_LOCAL_THEN_GLOBAL Examples.storeLocalP1CachedP2 10
      [Examples.address] (Examples.qos DiscoveryScope.LOCAL_THEN_GLOBAL 100) ["a"]
      ILocalCapabilitiesCallback.fresh rfl).1 (by decide),
    by decide, by decide,
    (getLocalAndCachedCapabilities_LOCAL_THEN_GLOBAL Examples.storeCachedP2 10
      [Examples.address] (Examples.qos DiscoveryScope.LOCAL_THEN_GLOBAL 100) ["a"]
      ILocalCapabilitiesCallback.fresh rfl).2.1 (by decide) (by decide),
    (getLocalAndCachedCapabilities_LOCAL_THEN_GLOBAL init 10
      [Examples.address] (Examples.qos DiscoveryScope.LOCAL_THEN_GLOBAL 100) ["a"]
      ILocalCapabilitiesCallback.fresh rfl).2.2 (by decide) (by decide)⟩

/-- C4: for scope `LOCAL_AND_GLOBAL` with non-empty cache results `C`, the delivered list is
the union of the local matches `L` (tagged `isLocal = true`) and `C` (tagged
`isLocal = false`) deduplicated by participant id: it holds exactly one entry for each
participant id occurring in `L` or `C`, every entry is a local-tagged row of `L` or a
global-tagged row of `C` whose id does not occur in `L`, and an id occurring in `L` (so
also one occurring in both) is represented by the local row. -/
theorem getLocalAndCachedCapabilities_LOCAL_AND_GLOBAL (s : LocalCapabilitiesDirectoryStore)
    (now : Int) (interfaceAddresses : List InterfaceAddress) (discoveryQos : DiscoveryQos)
    (gbids : List String) (callback : ILocalCapabilitiesCallback)
    (hscope : discoveryQos.discoveryScope = DiscoveryScope.LOCAL_AND_GLOBAL)
    (hC : s.searchGlobalCache now interfaceAddresses gbids discoveryQos.cacheMaxAge ≠ []) :
    ∃ delivered : List DiscoveryEntryWithMetaInfo,
      s.getLocalAndCachedCapabilities now interfaceAddresses discoveryQos gbids callback =
          (true, callback.capabilitiesReceived delivered) ∧
        (deliveredIds delivered).Nodup ∧
        (∀ p : String, p ∈ deliveredIds delivered ↔
          p ∈ participantIds (s.localMatches interfaceAddresses) ∨
            p ∈ participantIds
              (s.searchGlobalCache now interfaceAddresses gbids discoveryQos.cacheMaxAge)) ∧
        (∀ x ∈ delivered,
          (x.isLocal = true ∧ x.toDiscoveryEntry ∈ s.localMatches interfaceAddresses) ∨
            (x.isLocal = false ∧
              x.toDiscoveryEntry ∈
                s.searchGlobalCache now interfaceAddresses gbids discoveryQos.cacheMaxAge ∧
              x.participantId ∉ participantIds (s.localMatches interfaceAddresses))) ∧
        (∀ x ∈ delivered, x.participantId ∈ participantIds (s.localMatches interfaceAddresses) →
          x.isLocal = true ∧ x.toDiscoveryEntry ∈ s.localMatches interfaceAddresses) := by
  have hL := searchLocal_of_includeLocal s interfaceAddresses
    DiscoveryScope.LOCAL_AND_GLOBAL (by decide)
  have hmem : ∀ x ∈ LCDUtil.filterDuplicates
      (LCDUtil.convert true (s.localMatches interfaceAddresses))
      (LCDUtil.convert false
        (s.searchGlobalCache now interfaceAddresses gbids discoveryQos.cacheMaxAge)),
      (x.isLocal = true ∧ x.toDiscoveryEntry ∈ s.localMatches interfaceAddresses) ∨
        (x.isLocal = false ∧
          x.toDiscoveryEntry ∈
            s.searchGlobalCache now interfaceAddresses gbids discoveryQos.cacheMaxAge ∧
          x.participantId ∉ participantIds (s.localMatches interfaceAddresses)) := by
    intro x hx
    rcases LCDUtil.filterDuplicates_mem _ _ x hx with h | ⟨h1, h2⟩
    · exact Or.inl ((LCDUtil.mem_convert _ _ _).mp h)
    · right
      rw [LCDUtil.convert_map_participantId] at h2
      exact ⟨((LCDUtil.mem_convert _ _ _).mp h1).1, ((LCDUtil.mem_convert _ _ _).mp h1).2, h2⟩
  refine ⟨_, ?_, LCDUtil.filterDuplicates_nodup _ _, ?_, hmem, ?_⟩
  · rw [getLocalAndCachedCapabilities_eq, hscope, hL]
    simp [callReceiverIfPossible, hC, includeGlobalScopes]
  · intro p
    unfold deliveredIds participantIds
    rw [LCDUtil.filterDuplicates_pids, LCDUtil.convert_map_participantId,
      LCDUtil.convert_map_participantId]
  · intro x hx hp
    rcases hmem x hx with h | ⟨_, _, h3⟩
    · exact h
    · exact absurd hp h3

/-- Witness for C4: "p1" is registered locally and also cached; a `LOCAL_AND_GLOBAL` query
finds the cache row and delivers a list without duplicate participant ids. -/
theorem getLocalAndCachedCapabilities_LOCAL_AND_GLOBAL_witness :
    (Examples.qos DiscoveryScope.LOCAL_AND_GLOBAL 100).discoveryScope =
        DiscoveryScope.LOCAL_AND_GLOBAL ∧
      Examples.storeLocalP1CachedP1.searchGlobalCache 10 [Examples.address] ["a"] 100 ≠ [] ∧
      ∃ delivered : List DiscoveryEntryWithMetaInfo,
        Examples.storeLocalP1CachedP1.getLocalAndCachedCapabilities 10 [Examples.address]
            (Examples.qos DiscoveryScope.LOCAL_AND_GLOBAL 100) ["a"]
            ILocalCapabilitiesCallback.fresh =
          (true, ILocalCapabilitiesCallback.fresh.capabilitiesReceived delivered) ∧
        (deliveredIds delivered).Nodup ∧
        ∀ x ∈ delivered,
          x.participantId ∈
              participantIds (Examples.storeLocalP1CachedP1.localMatches [Examples.address]) →
            x.isLocal = true ∧
              x.toDiscoveryEntry ∈
                Examples.storeLocalP1CachedP1.localMatches [Examples.address] := by
  refine ⟨rfl, by decide, ?_⟩
  obtain ⟨delivered, h1, h2, _, _, h5⟩ :=
    getLocalAndCachedCapabilities_LOCAL_AND_GLOBAL Examples.storeLocalP1CachedP1 10
      [Examples.address] (Examples.qos DiscoveryScope.LOCAL_AND_GLOBAL 100) ["a"]
      ILocalCapabilitiesCallback.fresh rfl (by decide)
  exact ⟨delivered, h1, h2, h5⟩

/-- C5: for scope `GLOBAL_ONLY` with non-empty cache results `C`, the delivered list is the
union of the local matches of provider scope `GLOBAL` (tagged `isLocal = true`) and `C`
(tagged `isLocal = false`), deduplicated by participant id keeping the local row; a local
match of provider scope `LOCAL` is not delivered as a local row. -/
theorem getLocalAndCachedCapabilities_GLOBAL_ONLY (s : LocalCapabilitiesDirectoryStore)
    (now : Int) (interfaceAddresses : List InterfaceAddress) (discoveryQos : DiscoveryQos)
    (gbids : List String) (callback : ILocalCapabilitiesCallback)
    (hscope : discoveryQos.discoveryScope = DiscoveryScope.GLOBAL_ONLY)
    (hC : s.searchGlobalCache now interfaceAddresses gbids discoveryQos.cacheMaxAge ≠ []) :
    ∃ delivered : List DiscoveryEntryWithMetaInfo,
      s.getLocalAndCachedCapabilities now interfaceAddresses discoveryQos gbids callback =
          (true, callback.capabilitiesReceived delivered) ∧
        (deliveredIds delivered).Nodup ∧
        (∀ p : String, p ∈ deliveredIds delivered ↔
          p ∈ participantIds
              ((s.localMatches interfaceAddresses).filter
                (fun e => decide (e.qos.scope = ProviderScope.GLOBAL))) ∨
            p ∈ participantIds
              (s.searchGlobalCache now interfaceAddresses gbids discoveryQos.cacheMaxAge)) ∧
        (∀ x ∈ delivered,
          (x.isLocal = true ∧ x.toDiscoveryEntry ∈ s.localMatches interfaceAddresses ∧
              x.qos.scope = ProviderScope.GLOBAL) ∨
            (x.isLocal = false ∧
              x.toDiscoveryEntry ∈
                s.searchGlobalCache now interfaceAddresses gbids discoveryQos.cacheMaxAge ∧
              x.participantId ∉ participantIds
                ((s.localMatches interfaceAddresses).filter
                  (fun e => decide (e.qos.scope = ProviderScope.GLOBAL))))) ∧
        (∀ x ∈ delivered, x.isLocal = true → x.qos.scope ≠ ProviderScope.LOCAL) := by
  have hL := searchLocal_GLOBAL_ONLY s interfaceAddresses
  have hfilter : (fun e : DiscoveryEntry => LCDUtil.isGlobal e) =
      (fun e => decide (e.qos.scope = ProviderScope.GLOBAL)) := rfl
  rw [hfilter] at hL
  have hmem : ∀ x ∈ LCDUtil.filterDuplicates
      (LCDUtil.convert true ((s.localMatches interfaceAddresses).filter
        (fun e => decide (e.qos.scope = ProviderScope.GLOBAL))))
      (LCDUtil.convert false
        (s.searchGlobalCache now interfaceAddresses gbids discoveryQos.cacheMaxAge)),
      (x.isLocal = true ∧ x.toDiscoveryEntry ∈ s.localMatches interfaceAddresses ∧
          x.qos.scope = ProviderScope.GLOBAL) ∨
        (x.isLocal = false ∧
          x.toDiscoveryEntry ∈
            s.searchGlobalCache now interfaceAddresses gbids discoveryQos.cacheMaxAge ∧
          x.participantId ∉ participantIds
            ((s.localMatches interfaceAddresses).filter
              (fun e => decide (e.qos.scope = ProviderScope.GLOBAL)))) := by
    intro x hx
    rcases LCDUtil.filterDuplicates_mem _ _ x hx with h | ⟨h1, h2⟩
    · left
      obtain ⟨h1, h2⟩ := (LCDUtil.mem_convert _ _ _).mp h
      rw [List.mem_filter, decide_eq_true_eq] at h2
      exact ⟨h1, h2.1, h2.2⟩
    · right
      rw [LCDUtil.convert_map_participantId] at h2
      exact ⟨((LCDUtil.mem_convert _ _ _).mp h1).1, ((LCDUtil.mem_convert _ _ _).mp h1).2, h2⟩
  refine ⟨_, ?_, LCDUtil.filterDuplicates_nodup _ _, ?_, hmem, ?_⟩
  · rw [getLocalAndCachedCapabilities_eq, hscope, hL]
    simp [callReceiverIfPossible, hC, includeGlobalScopes, LCDUtil.isGlobal, List.filter_filter]
  · intro p
    unfold deliveredIds participantIds
    rw [LCDUtil.filterDuplicates_pids, LCDUtil.convert_map_participantId,
      LCDUtil.convert_map_participantId]
  · intro x hx hlocal
    rcases hmem x hx with ⟨_, _, h3⟩ | ⟨h1, _, _⟩
    · rw [h3]; decide
    · rw [hlocal] at h1; exact absurd h1 (by decide)

/-- Witness for C5: "p3" (provider scope `LOCAL`) is registered locally and "p2" is cached; a
`GLOBAL_ONLY` query finds the cache row, and no delivered local row has scope `LOCAL`. -/
theorem getLocalAndCachedCapabilities_GLOBAL_ONLY_witness :
    (Examples.qos DiscoveryScope.GLOBAL_ONLY 100).discoveryScope =
        DiscoveryScope.GLOBAL_ONLY ∧
      Examples.storeLocalP3CachedP2.searchGlobalCache 10 [Examples.address] ["a"] 100 ≠ [] ∧
      ∃ delivered : List DiscoveryEntryWithMetaInfo,
        Examples.storeLocalP3CachedP2.getLocalAndCachedCapabilities 10 [Examples.address]
            (Examples.qos DiscoveryScope.GLOBAL_ONLY 100) ["a"]
            ILocalCapabilitiesCallback.fresh =
          (true, ILocalCapabilitiesCallback.fresh.capabilitiesReceived delivered) ∧
        (deliveredIds delivered).Nodup ∧
        ∀ x ∈ delivered, x.isLocal = true → x.qos.scope ≠ ProviderScope.LOCAL := by
  refine ⟨rfl, by decide, ?_⟩
  obtain ⟨delivered, h1, h2, _, _, h5⟩ :=
    getLocalAndCachedCapabilities_GLOBAL_ONLY Examples.storeLocalP3CachedP2 10
      [Examples.address] (Examples.qos DiscoveryScope.GLOBAL_ONLY 100) ["a"]
      ILocalCapabilitiesCallback.fresh rfl (by decide)
  exact ⟨delivered, h1, h2, h5⟩

/-! ## The merge algorithm, by participant id -/

theorem getLocalAndCachedCapabilitiesByParticipantId_eq (s : LocalCapabilitiesDirectoryStore)
    (now : Int) (participantId : String) (discoveryQos : DiscoveryQos)
    (gbids : List String) (callback : ILocalCapabilitiesCallback) :
    s.getLocalAndCachedCapabilitiesByParticipantId now participantId discoveryQos gbids
        callback =
      match s.searchLocalByParticipantId participantId discoveryQos.discoveryScope with
      | some e =>
          if discoveryQos.discoveryScope = DiscoveryScope.GLOBAL_ONLY then
            callReceiverIfPossible discoveryQos.discoveryScope [] [e] callback
          else callReceiverIfPossible discoveryQos.discoveryScope [e] [] callback
      | none =>
          if discoveryQos.discoveryScope ∈ includeGlobalScopes then
            callReceiverIfPossible discoveryQos.discoveryScope []
              (LCDUtil.optionalToVector
                (s.searchGlobalCacheByParticipantId now participantId gbids
                  discoveryQos.cacheMaxAge))
              callback
          else callReceiverIfPossible discoveryQos.discoveryScope [] [] callback := by
  simp only [getLocalAndCachedCapabilitiesByParticipantId]
  generalize s.searchLocalByParticipantId participantId discoveryQos.discoveryScope = found
  cases found <;> simp only [] <;> split_ifs <;> rfl

/-- C6, as amended: in the by-participant `getLocalAndCachedCapabilities`, whenever
`searchLocal` finds the participant id and the scope is `LOCAL_ONLY` or `LOCAL_THEN_GLOBAL`,
the locally found entry is returned directly: the call returns `true` and the callback
receives exactly that entry, tagged `isLocal = true`, whatever the cache contains. -/
theorem getLocalAndCachedCapabilitiesByParticipantId_local_hit
    (s : LocalCapabilitiesDirectoryStore)
    (now : Int) (participantId : String) (discoveryQos : DiscoveryQos)
    (gbids : List String) (callback : ILocalCapabilitiesCallback) (e : DiscoveryEntry)
    (hfound : s.searchLocalByParticipantId participantId discoveryQos.discoveryScope = some e)
    (hscope : discoveryQos.discoveryScope = DiscoveryScope.LOCAL_ONLY ∨
      discoveryQos.discoveryScope = DiscoveryScope.LOCAL_THEN_GLOBAL) :
    s.getLocalAndCachedCapabilitiesByParticipantId now participantId discoveryQos gbids
        callback =
      (true, callback.capabilitiesReceived [LCDUtil.convertEntry true e]) := by
  rw [getLocalAndCachedCapabilitiesByParticipantId_eq, hfound]
  rcases hscope with h | h <;> rw [h] <;>
    simp [callReceiverIfPossible, LCDUtil.convert]

/-- Witness for C6 as amended: "p1" is registered locally and found under scope
`LOCAL_THEN_GLOBAL`. -/
theorem getLocalAndCachedCapabilitiesByParticipantId_local_hit_witness :
    Examples.storeLocalP1CachedP2.searchLocalByParticipantId "p1"
        (Examples.qos DiscoveryScope.LOCAL_THEN_GLOBAL 100).discoveryScope =
        some Examples.p1 ∧
      ((Examples.qos DiscoveryScope.LOCAL_THEN_GLOBAL 100).discoveryScope =
          DiscoveryScope.LOCAL_ONLY ∨
        (Examples.qos DiscoveryScope.LOCAL_THEN_GLOBAL 100).discoveryScope =
          DiscoveryScope.LOCAL_THEN_GLOBAL) ∧
      Examples.storeLocalP1CachedP2.getLocalAndCachedCapabilitiesByParticipantId 10 "p1"
          (Examples.qos DiscoveryScope.LOCAL_THEN_GLOBAL 100) ["a"]
          ILocalCapabilitiesCallback.fresh =
        (true, ILocalCapabilitiesCallback.fresh.capabilitiesReceived
          [LCDUtil.convertEntry true Examples.p1]) :=
  ⟨by decide, Or.inr rfl,
    getLocalAndCachedCapabilitiesByParticipantId_local_hit Examples.storeLocalP1CachedP2 10
      "p1" (Examples.qos DiscoveryScope.LOCAL_THEN_GLOBAL 100) ["a"]
      ILocalCapabilitiesCallback.fresh Examples.p1 (by decide) (Or.inr rfl)⟩

/-- Counterexample to C6 as stated: with "p1" registered locally (provider scope `GLOBAL`)
and scope `LOCAL_AND_GLOBAL`, `searchLocal` finds the entry, the exception for
`GLOBAL_ONLY` does not apply, and yet the by-participant call returns `false` without
invoking the callback. -/
theorem getLocalAndCachedCapabilitiesByParticipantId_LOCAL_AND_GLOBAL_local_hit_defers :
    Examples.storeLocalP1.searchLocalByParticipantId "p1" DiscoveryScope.LOCAL_AND_GLOBAL =
        some Examples.p1 ∧
      ¬ ((Examples.qos DiscoveryScope.LOCAL_AND_GLOBAL 100).discoveryScope =
          DiscoveryScope.GLOBAL_ONLY ∧ Examples.p1.qos.scope = ProviderScope.GLOBAL) ∧
      Examples.storeLocalP1.getLocalAndCachedCapabilitiesByParticipantId 10 "p1"
          (Examples.qos DiscoveryScope.LOCAL_AND_GLOBAL 100) ["a"]
          ILocalCapabilitiesCallback.fresh =
        (false, ILocalCapabilitiesCallback.fresh) := by
  decide

/-- C7: in the by-participant `getLocalAndCachedCapabilities` with scope `GLOBAL_ONLY`, a
participant id that is registered locally with provider scope `GLOBAL` is treated as a
global result: the call returns `true` and the callback receives exactly that entry tagged
`isLocal = false`, whatever the cache holds; if it is registered locally with provider
scope `LOCAL`, the local entry is ignored and the outcome is that of the cache search
alone. -/
theorem getLocalAndCachedCapabilitiesByParticipantId_GLOBAL_ONLY
    (s : LocalCapabilitiesDirectoryStore)
    (now : Int) (participantId : String) (discoveryQos : DiscoveryQos)
    (gbids : List String) (callback : ILocalCapabilitiesCallback) (e : DiscoveryEntry)
    (hscope : discoveryQos.discoveryScope = DiscoveryScope.GLOBAL_ONLY)
    (hregistered :
      s.locallyRegisteredCapabilities.lookupByParticipantId participantId = some e) :
    (e.qos.scope = ProviderScope.GLOBAL →
      s.getLocalAndCachedCapabilitiesByParticipantId now participantId discoveryQos gbids
          callback =
        (true, callback.capabilitiesReceived [LCDUtil.convertEntry false e])) ∧
    (e.qos.scope = ProviderScope.LOCAL →
      s.getLocalAndCachedCapabilitiesByParticipantId now participantId discoveryQos gbids
          callback =
        match s.searchGlobalCacheByParticipantId now participantId gbids
            discoveryQos.cacheMaxAge with
        | some cached => (true, callback.capabilitiesReceived [LCDUtil.convertEntry false cached])
        | none => (false, callback)) := by
  constructor
  · intro hglobal
    have hfound : s.searchLocalByParticipantId participantId DiscoveryScope.GLOBAL_ONLY =
        some e := by
      simp [searchLocalByParticipantId, hregistered, hglobal]
    rw [getLocalAndCachedCapabilitiesByParticipantId_eq, hscope, hfound]
    simp [callReceiverIfPossible, LCDUtil.convert, LCDUtil.filterDuplicates,
      LCDUtil.insertByParticipantId]
  · intro hlocal
    have hfound : s.searchLocalByParticipantId participantId DiscoveryScope.GLOBAL_ONLY =
        none := by
      simp [searchLocalByParticipantId, hregistered, hlocal, includeLocalScopes]
    rw [getLocalAndCachedCapabilitiesByParticipantId_eq, hscope, hfound]
    cases s.searchGlobalCacheByParticipantId now participantId gbids
      discoveryQos.cacheMaxAge with
    | none =>
      simp [callReceiverIfPossible, LCDUtil.optionalToVector, includeGlobalScopes]
    | some cached =>
      simp [callReceiverIfPossible, LCDUtil.optionalToVector, includeGlobalScopes,
        LCDUtil.convert, LCDUtil.filterDuplicates, LCDUtil.insertByParticipantId]

/-- Witness for C7: "p1" (provider scope `GLOBAL`) is registered locally and delivered as a
global result; "p3" (provider scope `LOCAL`) is registered locally and ignored. -/
theorem getLocalAndCachedCapabilitiesByParticipantId_GLOBAL_ONLY_witness :
    (Examples.qos DiscoveryScope.GLOBAL_ONLY 100).discoveryScope =
        DiscoveryScope.GLOBAL_ONLY ∧
      Examples.storeLocalP1CachedP2.locallyRegisteredCapabilities.lookupByParticipantId "p1" =
        some Examples.p1 ∧
      Examples.p1.qos.scope = ProviderScope.GLOBAL ∧
      Examples.storeLocalP1CachedP2.getLocalAndCachedCapabilitiesByParticipantId 10 "p1"
          (Examples.qos DiscoveryScope.GLOBAL_ONLY 100) ["a"]
          ILocalCapabilitiesCallback.fresh =
        (true, ILocalCapabilitiesCallback.fresh.capabilitiesReceived
          [LCDUtil.convertEntry false Examples.p1]) ∧
      Examples.storeLocalP3CachedP2.locallyRegisteredCapabilities.lookupByParticipantId "p3" =
        some Examples.p3 ∧
      Examples.p3.qos.scope = ProviderScope.LOCAL ∧
      Examples.storeLocalP3CachedP2.getLocalAndCachedCapabilitiesByParticipantId 10 "p3"
          (Examples.qos DiscoveryScope.GLOBAL_ONLY 100) ["a"]
          ILocalCapabilitiesCallback.fresh =
        (false, ILocalCapabilitiesCallback.fresh) :=
  ⟨rfl, by decide, rfl,
    (getLocalAndCachedCapabilitiesByParticipantId_GLOBAL_ONLY Examples.storeLocalP1CachedP2
      10 "p1" (Examples.qos DiscoveryScope.GLOBAL_ONLY 100) ["a"]
      ILocalCapabilitiesCallback.fresh Examples.p1 rfl (by decide)).1 rfl,
    by decide, rfl,
    (getLocalAndCachedCapabilitiesByParticipantId_GLOBAL_ONLY Examples.storeLocalP3CachedP2
      10 "p3" (Examples.qos DiscoveryScope.GLOBAL_ONLY 100) ["a"]
      ILocalCapabilitiesCallback.fresh Examples.p3 rfl (by decide)).2 rfl⟩

/-! ## Callback discipline -/

theorem callReceiverIfPossible_callback (scope : DiscoveryScope)
    (L C : List DiscoveryEntry) (callback : ILocalCapabilitiesCallback) :
    ((callReceiverIfPossible scope L C callback).1 = true →
      ∃ capabilities : List DiscoveryEntryWithMetaInfo,
        (callReceiverIfPossible scope L C callback).2.received =
          callback.received ++ [capabilities]) ∧
    ((callReceiverIfPossible scope L C callback).1 = false →
      (callReceiverIfPossible scope L C callback).2 = callback) := by
  unfold callReceiverIfPossible
  split_ifs <;> simp [ILocalCapabilitiesCallback.capabilitiesReceived]

/-- C8: for both variants of `getLocalAndCachedCapabilities` and every input,
`capabilitiesReceived` is invoked exactly once when the call returns `true` (the calls
recorded on the callback grow by exactly one) and not at all when it returns `false` (the
callback is unchanged). -/
theorem getLocalAndCachedCapabilities_callback_once_iff_true
    (s : LocalCapabilitiesDirectoryStore) (now : Int)
    (interfaceAddresses : List InterfaceAddress) (participantId : String)
    (discoveryQos : DiscoveryQos) (gbids : List String)
    (callback : ILocalCapabilitiesCallback) :
    (((s.getLocalAndCachedCapabilities now interfaceAddresses discoveryQos gbids callback).1
          = true →
        ∃ capabilities : List DiscoveryEntryWithMetaInfo,
          (s.getLocalAndCachedCapabilities now interfaceAddresses discoveryQos gbids
              callback).2.received = callback.received ++ [capabilities]) ∧
      ((s.getLocalAndCachedCapabilities now interfaceAddresses discoveryQos gbids callback).1
          = false →
        (s.getLocalAndCachedCapabilities now interfaceAddresses discoveryQos gbids
            callback).2 = callback)) ∧
    (((s.getLocalAndCachedCapabilitiesByParticipantId now participantId discoveryQos gbids
          callback).1 = true →
        ∃ capabilities : List DiscoveryEntryWithMetaInfo,
          (s.getLocalAndCachedCapabilitiesByParticipantId now participantId discoveryQos gbids
              callback).2.received = callback.received ++ [capabilities]) ∧
      ((s.getLocalAndCachedCapabilitiesByParticipantId now participantId discoveryQos gbids
          callback).1 = false →
        (s.getLocalAndCachedCapabilitiesByParticipantId now participantId discoveryQos gbids
            callback).2 = callback)) := by
  constructor
  · rw [getLocalAndCachedCapabilities_eq]
    exact callReceiverIfPossible_callback _ _ _ _
  · rw [getLocalAndCachedCapabilitiesByParticipantId_eq]
    cases s.searchLocalByParticipantId participantId discoveryQos.discoveryScope with
    | none =>
      simp only []
      split_ifs <;> exact callReceiverIfPossible_callback _ _ _ _
    | some e =>
      simp only []
      split_ifs <;> exact callReceiverIfPossible_callback _ _ _ _

/-! ## Gbid filtering -/

theorem searchGlobalCache_gbids (s : LocalCapabilitiesDirectoryStore) (now : Int)
    (interfaceAddresses : List InterfaceAddress) (gbids : List String) (maxCacheAge : Int)
    (e : DiscoveryEntry)
    (he : e ∈ s.searchGlobalCache now interfaceAddresses gbids maxCacheAge) :
    gbidsMatchIfMapped s gbids e.participantId := by
  unfold searchGlobalCache LCDUtil.filterDiscoveryEntriesByGbids at he
  simp only [List.mem_flatMap, List.mem_filter] at he
  obtain ⟨_, _, _, hpass⟩ := he
  intro mapped hmapped
  rw [hmapped] at hpass
  simpa using hpass

theorem searchGlobalCacheByParticipantId_gbids (s : LocalCapabilitiesDirectoryStore)
    (now : Int) (participantId : String) (gbids : List String) (maxCacheAge : Int)
    (e : DiscoveryEntry)
    (he : s.searchGlobalCacheByParticipantId now participantId gbids maxCacheAge = some e) :
    gbidsMatchIfMapped s gbids e.participantId := by
  simp only [searchGlobalCacheByParticipantId] at he
  generalize (if maxCacheAge ≥ 0 then
      s.globalLookupCache.lookupCacheByParticipantId now participantId maxCacheAge
    else s.globalLookupCache.lookupByParticipantId participantId) = entry at he
  cases entry with
  | none => simp at he
  | some c =>
    by_cases hpass : LCDUtil.isEntryForGbid c gbids s.globalParticipantIdsToGbidsMap = true
    · simp only [hpass, not_true_eq_false, if_false, Option.some.injEq] at he
      subst he
      intro mapped hmapped
      simp only [LCDUtil.isEntryForGbid, hmapped] at hpass
      simpa using hpass
    · simp [hpass] at he

theorem capabilitiesReceived_injective (callback : ILocalCapabilitiesCallback)
    (a b : List DiscoveryEntryWithMetaInfo)
    (h : callback.capabilitiesReceived a = callback.capabilitiesReceived b) : a = b := by
  simpa [ILocalCapabilitiesCallback.capabilitiesReceived] using h

theorem callReceiverIfPossible_delivered_global (scope : DiscoveryScope)
    (L C : List DiscoveryEntry) (callback : ILocalCapabilitiesCallback)
    (delivered : List DiscoveryEntryWithMetaInfo)
    (h : callReceiverIfPossible scope L C callback =
      (true, callback.capabilitiesReceived delivered)) :
    ∀ x ∈ delivered, x.isLocal = false → x.toDiscoveryEntry ∈ C := by
  intro x hx hglobal
  have hlocal : ∀ (l : List DiscoveryEntry), x ∈ LCDUtil.convert true l → False := by
    intro l hl
    have := ((LCDUtil.mem_convert _ _ _).mp hl).1
    rw [hglobal] at this
    exact absurd this (by decide)
  unfold callReceiverIfPossible at h
  split_ifs at h
  all_goals first
    | (simp only [Prod.mk.injEq, true_and] at h
       have hd := capabilitiesReceived_injective _ _ _ h
       subst hd
       first
         | exact (hlocal _ hx).elim
         | exact ((LCDUtil.mem_convert _ _ _).mp hx).2
         | (rcases LCDUtil.filterDuplicates_mem _ _ x hx with h1 | ⟨h1, _⟩
            · exact (hlocal _ h1).elim
            · exact ((LCDUtil.mem_convert _ _ _).mp h1).2))
    | simp at h

/-- C9, as amended: only the cache results are filtered by gbid membership. Every entry
returned by the cache search of either variant, and hence every entry that the
by-interface `getLocalAndCachedCapabilities` delivers tagged `isLocal = false`, whose
participant id has a gbid mapping has at least one mapped gbid among the requested gbids.
Nothing is claimed for entries taken from the local store. -/
theorem getLocalAndCachedCapabilities_cache_results_match_gbids
    (s : LocalCapabilitiesDirectoryStore) (now : Int)
    (interfaceAddresses : List InterfaceAddress) (participantId : String)
    (discoveryQos : DiscoveryQos) (gbids : List String)
    (callback : ILocalCapabilitiesCallback) :
    (∀ e ∈ s.searchGlobalCache now interfaceAddresses gbids discoveryQos.cacheMaxAge,
      gbidsMatchIfMapped s gbids e.participantId) ∧
    (∀ e : DiscoveryEntry,
      s.searchGlobalCacheByParticipantId now participantId gbids discoveryQos.cacheMaxAge =
          some e →
        gbidsMatchIfMapped s gbids e.participantId) ∧
    (∀ delivered : List DiscoveryEntryWithMetaInfo,
      s.getLocalAndCachedCapabilities now interfaceAddresses discoveryQos gbids callback =
          (true, callback.capabilitiesReceived delivered) →
        ∀ x ∈ delivered, x.isLocal = false → gbidsMatchIfMapped s gbids x.participantId) := by
  refine ⟨fun e he => searchGlobalCache_gbids s now _ gbids _ e he,
    fun e he => searchGlobalCacheByParticipantId_gbids s now _ gbids _ e he, ?_⟩
  intro delivered hres x hx hglobal
  rw [getLocalAndCachedCapabilities_eq] at hres
  have hmem := callReceiverIfPossible_delivered_global _ _ _ _ _ hres x hx hglobal
  split_ifs at hmem with hin
  · exact searchGlobalCache_gbids s now _ gbids _ _ hmem
  · simp at hmem

/-- Counterexample to C9 as stated: "p1" is registered locally for gbid "a" only; a
by-interface `LOCAL_ONLY` query for gbid "b" still delivers it, although its participant
id has a gbid mapping and no mapped gbid is among the requested ones. -/
theorem getLocalAndCachedCapabilities_local_results_ignore_gbids :
    Examples.storeLocalP1.getLocalAndCachedCapabilities 10 [Examples.address]
        (Examples.qos DiscoveryScope.LOCAL_ONLY 100) ["b"] ILocalCapabilitiesCallback.fresh =
      (true, ILocalCapabilitiesCallback.fresh.capabilitiesReceived
        [LCDUtil.convertEntry true Examples.p1]) ∧
    Examples.storeLocalP1.globalParticipantIdsToGbidsMap.find "p1" = some ["a"] ∧
    ¬ gbidsMatchIfMapped Examples.storeLocalP1 ["b"] "p1" := by
  refine ⟨by decide, by decide, ?_⟩
  intro h
  obtain ⟨gbid, h1, h2⟩ := h ["a"] (by decide)
  simp only [List.mem_singleton] at h1 h2
  rw [h1] at h2
  exact absurd h2 (by decide)

/-! ## Store invariant: local store and cache are disjoint -/

theorem mapGbidsToGlobalProviderParticipantId_storages (s : LocalCapabilitiesDirectoryStore)
    (participantId : String) (allGbids : List String) :
    (s.mapGbidsToGlobalProviderParticipantId participantId allGbids).1.locallyRegisteredCapabilities
        = s.locallyRegisteredCapabilities ∧
      (s.mapGbidsToGlobalProviderParticipantId participantId allGbids).1.globalLookupCache
        = s.globalLookupCache := by
  simp [mapGbidsToGlobalProviderParticipantId]

theorem insertInLocalCapabilitiesStorage_local (s : LocalCapabilitiesDirectoryStore)
    (entry : DiscoveryEntry) (awaitGlobalRegistration : Bool) (gbids : List String) :
    (s.insertInLocalCapabilitiesStorage entry awaitGlobalRegistration
        gbids).locallyRegisteredCapabilities.entries =
      s.locallyRegisteredCapabilities.entries.filter
          (fun e => decide (e.participantId ≠ entry.participantId)) ++ [entry] := by
  simp only [insertInLocalCapabilitiesStorage]
  cases s.globalLookupCache.lookupByParticipantId entry.participantId <;>
    split_ifs <;>
    simp [mapGbidsToGlobalProviderParticipantId, eraseParticipantIdToGbidMapping,
      capabilities.Storage.insert, capabilities.Storage.removeByParticipantId]

theorem insertInLocalCapabilitiesStorage_cache (s : LocalCapabilitiesDirectoryStore)
    (entry : DiscoveryEntry) (awaitGlobalRegistration : Bool) (gbids : List String) :
    (s.insertInLocalCapabilitiesStorage entry awaitGlobalRegistration
        gbids).globalLookupCache =
      s.globalLookupCache.removeByParticipantId entry.participantId := by
  simp only [insertInLocalCapabilitiesStorage]
  cases hc : s.globalLookupCache.lookupByParticipantId entry.participantId with
  | some c =>
    split_ifs <;>
      simp [mapGbidsToGlobalProviderParticipantId, eraseParticipantIdToGbidMapping]
  | none =>
    have hnone : s.globalLookupCache.removeByParticipantId entry.participantId =
        s.globalLookupCache := by
      unfold capabilities.CachingStorage.lookupByParticipantId at hc
      simp only [Option.map_eq_none', List.find?_eq_none, decide_eq_true_eq] at hc
      unfold capabilities.CachingStorage.removeByParticipantId
      cases hrows : s.globalLookupCache with
      | mk rows =>
        rw [hrows] at hc
        simp only [capabilities.CachingStorage.mk.injEq, List.filter_eq_self,
          decide_eq_true_eq]
        exact hc
    split_ifs <;> simp [mapGbidsToGlobalProviderParticipantId, hnone]

theorem insertInGlobalLookupCache_storages (s : LocalCapabilitiesDirectoryStore) (now : Int)
    (entry : DiscoveryEntry) (gbids : List String) :
    (s.insertInGlobalLookupCache now entry gbids).locallyRegisteredCapabilities =
        s.locallyRegisteredCapabilities ∧
      (s.insertInGlobalLookupCache now entry gbids).globalLookupCache.rows =
        s.globalLookupCache.rows.filter
            (fun r => decide (r.entry.participantId ≠ entry.participantId)) ++
          [⟨entry, now⟩] := by
  simp [insertInGlobalLookupCache, mapGbidsToGlobalProviderParticipantId,
    capabilities.CachingStorage.insert, capabilities.CachingStorage.removeByParticipantId]

/-- C10, as amended: the invariant that no participant id is present in both the local
store and the global lookup cache holds in the initial (empty) store and is preserved by
`insertInLocalCapabilitiesStorage` (any entry, flag and gbids), by `clear`, and by
`insertInGlobalLookupCache` of an entry whose participant id is not registered locally. -/
theorem localAndCacheDisjoint_preserved :
    localAndCacheDisjoint init ∧
    (∀ (s : LocalCapabilitiesDirectoryStore) (entry : DiscoveryEntry)
        (awaitGlobalRegistration : Bool) (gbids : List String),
      localAndCacheDisjoint s →
        localAndCacheDisjoint
          (s.insertInLocalCapabilitiesStorage entry awaitGlobalRegistration gbids)) ∧
    (∀ s : LocalCapabilitiesDirectoryStore, localAndCacheDisjoint s.clear) ∧
    (∀ (s : LocalCapabilitiesDirectoryStore) (now : Int) (entry : DiscoveryEntry)
        (gbids : List String),
      localAndCacheDisjoint s →
        s.locallyRegisteredCapabilities.lookupByParticipantId entry.participantId = none →
        localAndCacheDisjoint (s.insertInGlobalLookupCache now entry gbids)) := by
  refine ⟨by decide, ?_, ?_, ?_⟩
  · intro s entry awaitGlobalRegistration gbids hinv e he r hr
    rw [insertInLocalCapabilitiesStorage_local] at he
    rw [insertInLocalCapabilitiesStorage_cache] at hr
    unfold capabilities.CachingStorage.removeByParticipantId at hr
    simp only [List.mem_filter, decide_eq_true_eq] at hr
    rcases List.mem_append.mp he with he | he
    · exact hinv e (List.mem_filter.mp he).1 r hr.1
    · simp only [List.mem_singleton] at he
      rw [he]
      exact fun h => hr.2 h.symm
  · intro s e he
    simp [clear, capabilities.Storage.clear, capabilities.Storage.empty] at he
  · intro s now entry gbids hinv hnone e he r hr
    obtain ⟨hl, hc⟩ := insertInGlobalLookupCache_storages s now entry gbids
    rw [hl] at he
    rw [hc] at hr
    rcases List.mem_append.mp hr with hr | hr
    · exact hinv e he r (List.mem_filter.mp hr).1
    · simp only [List.mem_singleton] at hr
      rw [hr]
      unfold capabilities.Storage.lookupByParticipantId at hnone
      simp only [List.find?_eq_none, decide_eq_true_eq] at hnone
      exact hnone e he

/-- Counterexample to C10 as stated: the store with "p1" registered locally satisfies the
invariant, and `insertInGlobalLookupCache` of the same "p1" breaks it: afterwards "p1" is
present in both the local store and the cache. -/
theorem insertInGlobalLookupCache_breaks_localAndCacheDisjoint :
    localAndCacheDisjoint Examples.storeLocalP1 ∧
      ¬ localAndCacheDisjoint
        (Examples.storeLocalP1.insertInGlobalLookupCache 5 Examples.p1 ["b"]) ∧
      (Examples.storeLocalP1.insertInGlobalLookupCache 5 Examples.p1
        ["b"]).locallyRegisteredCapabilities.lookupByParticipantId "p1" = some Examples.p1 ∧
      (Examples.storeLocalP1.insertInGlobalLookupCache 5 Examples.p1
        ["b"]).globalLookupCache.lookupByParticipantId "p1" = some Examples.p1 := by
  decide

end LocalCapabilitiesDirectoryStore

/-! ## Helper lemmas: `UnorderedMap` -/

namespace UnorderedMap

theorem findIn_filter_ne {V : Type} (l : List (String × V)) (key other : String)
    (h : other ≠ key) :
    findIn (l.filter (fun b => decide (b.1 ≠ key))) other = findIn l other := by
  induction l with
  | nil => rfl
  | cons b rest ih =>
    obtain ⟨k, v⟩ := b
    rw [List.filter_cons]
    by_cases hk : k = key
    · have hko : ¬ k = other := fun h2 => h (h2.symm.trans hk)
      have hd : decide ((k, v).1 ≠ key) = false := by simp [hk]
      rw [hd]
      simp only [Bool.false_eq_true, if_false, findIn, hko]
      exact ih
    · have hd : decide ((k, v).1 ≠ key) = true := by simp [hk]
      rw [hd]
      simp only [if_true, findIn]
      rw [ih]

theorem findIn_filter_self {V : Type} (l : List (String × V)) (key : String) :
    findIn (l.filter (fun b => decide (b.1 ≠ key))) key = none := by
  induction l with
  | nil => rfl
  | cons b rest ih =>
    obtain ⟨k, v⟩ := b
    rw [List.filter_cons]
    by_cases hk : k = key
    · have hd : decide ((k, v).1 ≠ key) = false := by simp [hk]
      rw [hd]
      simp only [Bool.false_eq_true, if_false]
      exact ih
    · have hd : decide ((k, v).1 ≠ key) = true := by simp [hk]
      rw [hd]
      simp only [if_true, findIn, hk, if_false]
      exact ih

theorem find_erase_self {V : Type} (m : UnorderedMap V) (key : String) :
    (m.erase key).find key = none :=
  findIn_filter_self m.bindings key

theorem find_erase_ne {V : Type} (m : UnorderedMap V) (key other : String)
    (h : other ≠ key) : (m.erase key).find other = m.find other :=
  findIn_filter_ne m.bindings key other h

theorem find_assign_self {V : Type} (m : UnorderedMap V) (key : String) (value : V) :
    (m.assign key value).find key = some value := by
  simp [assign, find, findIn]

theorem find_assign_ne {V : Type} (m : UnorderedMap V) (key other : String) (value : V)
    (h : other ≠ key) : (m.assign key value).find other = m.find other := by
  have h2 : ¬ key = other := fun h3 => h h3.symm
  simp only [assign, find, findIn, h2, if_false]
  exact find_erase_ne m key other h

theorem find_empty {V : Type} (key : String) : (empty : UnorderedMap V).find key = none := rfl

end UnorderedMap

namespace LocalCapabilitiesDirectoryStore

/-! ## Insertion into the local store and into the cache -/

theorem find?_filter_append_singleton {α : Type} (l : List α) (p : α → Bool) (x : α)
    (hx : p x = true) :
    (l.filter (fun a => !p a) ++ [x]).find? p = some x := by
  induction l with
  | nil => simp [hx]
  | cons a rest ih =>
    rw [List.filter_cons]
    cases ha : p a
    · simp only [Bool.not_false, if_true, List.cons_append, List.find?_cons, ha]
      exact ih
    · simp only [Bool.not_true, Bool.false_eq_true, if_false]
      exact ih

theorem lookupByParticipantId_after_insert (l : List DiscoveryEntry) (entry : DiscoveryEntry) :
    capabilities.Storage.lookupByParticipantId
        ⟨l.filter (fun e => decide (e.participantId ≠ entry.participantId)) ++ [entry]⟩
        entry.participantId = some entry := by
  unfold capabilities.Storage.lookupByParticipantId
  have h := find?_filter_append_singleton l
    (fun e => decide (e.participantId = entry.participantId)) entry (by simp)
  have hf : (fun e : DiscoveryEntry => decide (e.participantId ≠ entry.participantId)) =
      (fun e => !decide (e.participantId = entry.participantId)) := by
    funext e
    simp
  rw [hf]
  exact h

theorem insertInLocalCapabilitiesStorage_await (s : LocalCapabilitiesDirectoryStore)
    (entry : DiscoveryEntry) (awaitGlobalRegistration : Bool) (gbids : List String) :
    (s.insertInLocalCapabilitiesStorage entry awaitGlobalRegistration
        gbids).participantIdToAwaitGlobalRegistrationMap =
      s.participantIdToAwaitGlobalRegistrationMap.assign entry.participantId
        awaitGlobalRegistration := by
  simp only [insertInLocalCapabilitiesStorage]
  cases s.globalLookupCache.lookupByParticipantId entry.participantId <;>
    split_ifs <;>
    simp [mapGbidsToGlobalProviderParticipantId, eraseParticipantIdToGbidMapping]

/-- C11: for every entry `e` and every store state, `insertInGlobalLookupCache(e, g1)`
followed by `insertInLocalCapabilitiesStorage(e, a, g2)` leaves no cache row with the
participant id of `e` (the row that the first call created is evicted, so
`getCachedGlobalDiscoveryEntries` holds no such entry) and makes
`getLocalCapabilities(e.participantId)` return exactly `e`. -/
theorem insertInLocalCapabilitiesStorage_evicts_cache_row (s : LocalCapabilitiesDirectoryStore)
    (now : Int) (e : DiscoveryEntry) (g1 : List String) (a : Bool) (g2 : List String) :
    (s.insertInGlobalLookupCache now e g1).globalLookupCache.lookupByParticipantId
        e.participantId = some e ∧
      (∀ c ∈ ((s.insertInGlobalLookupCache now e g1).insertInLocalCapabilitiesStorage e a
          g2).getCachedGlobalDiscoveryEntries, c.participantId ≠ e.participantId) ∧
      ((s.insertInGlobalLookupCache now e g1).insertInLocalCapabilitiesStorage e a
          g2).globalLookupCache.lookupByParticipantId e.participantId = none ∧
      ((s.insertInGlobalLookupCache now e g1).insertInLocalCapabilitiesStorage e a
          g2).getLocalCapabilitiesByParticipantId e.participantId = [e] := by
  refine ⟨?_, ?_, ?_, ?_⟩
  · unfold capabilities.CachingStorage.lookupByParticipantId
    rw [(insertInGlobalLookupCache_storages s now e g1).2]
    have h := find?_filter_append_singleton s.globalLookupCache.rows
      (fun r => decide (r.entry.participantId = e.participantId)) ⟨e, now⟩ (by simp)
    have hf : (fun r : capabilities.CachedEntry =>
        decide (r.entry.participantId ≠ e.participantId)) =
        (fun r => !decide (r.entry.participantId = e.participantId)) := by
      funext r
      simp
    rw [hf, h]
    rfl
  · intro c hc
    unfold getCachedGlobalDiscoveryEntries capabilities.CachingStorage.entries at hc
    rw [insertInLocalCapabilitiesStorage_cache] at hc
    unfold capabilities.CachingStorage.removeByParticipantId at hc
    simp only [List.mem_map, List.mem_filter, decide_eq_true_eq] at hc
    obtain ⟨r, ⟨_, hr⟩, rfl⟩ := hc
    exact hr
  · rw [insertInLocalCapabilitiesStorage_cache]
    unfold capabilities.CachingStorage.lookupByParticipantId
      capabilities.CachingStorage.removeByParticipantId
    simp only [Option.map_eq_none', List.find?_eq_none, List.mem_filter, decide_eq_true_eq]
    intro r hr
    exact hr.2
  · unfold getLocalCapabilitiesByParticipantId
    have hl := insertInLocalCapabilitiesStorage_local (s.insertInGlobalLookupCache now e g1) e a g2
    have hrow := lookupByParticipantId_after_insert
      (s.insertInGlobalLookupCache now e g1).locallyRegisteredCapabilities.entries e
    rw [← hl] at hrow
    rw [hrow]
    rfl

theorem insertInLocalCapabilitiesStorage_twice_local (s : LocalCapabilitiesDirectoryStore)
    (e1 e2 : DiscoveryEntry) (a1 a2 : Bool) (g1 g2 : List String)
    (hid : e1.participantId = e2.participantId) :
    ((s.insertInLocalCapabilitiesStorage e1 a1 g1).insertInLocalCapabilitiesStorage e2 a2
        g2).locallyRegisteredCapabilities.entries =
      s.locallyRegisteredCapabilities.entries.filter
          (fun e => decide (e.participantId ≠ e2.participantId)) ++ [e2] := by
  rw [insertInLocalCapabilitiesStorage_local, insertInLocalCapabilitiesStorage_local, hid,
    List.filter_append, List.filter_filter]
  simp [hid]

/-- C12: for every two entries `e1`, `e2` with the same participant id,
`insertInLocalCapabilitiesStorage(e1, ..)` followed by
`insertInLocalCapabilitiesStorage(e2, ..)` leaves exactly one local row with that id, and
it is `e2`; from a state without that id the size of the local store grows by one with the
first call and stays there with the second; the recorded `awaitGlobalRegistration` flag is
that of the second call. -/
theorem insertInLocalCapabilitiesStorage_twice (s : LocalCapabilitiesDirectoryStore)
    (e1 e2 : DiscoveryEntry) (a1 a2 : Bool) (g1 g2 : List String)
    (hid : e1.participantId = e2.participantId) :
    ((s.insertInLocalCapabilitiesStorage e1 a1 g1).insertInLocalCapabilitiesStorage e2 a2
        g2).locallyRegisteredCapabilities.entries.filter
        (fun e => decide (e.participantId = e2.participantId)) = [e2] ∧
      ((s.insertInLocalCapabilitiesStorage e1 a1 g1).insertInLocalCapabilitiesStorage e2 a2
        g2).locallyRegisteredCapabilities.lookupByParticipantId e2.participantId = some e2 ∧
      ((s.insertInLocalCapabilitiesStorage e1 a1 g1).insertInLocalCapabilitiesStorage e2 a2
        g2).getAwaitGlobalRegistration e2.participantId = a2 ∧
      (s.locallyRegisteredCapabilities.lookupByParticipantId e2.participantId = none →
        (s.insertInLocalCapabilitiesStorage e1 a1 g1).locallyRegisteredCapabilities.size =
            s.locallyRegisteredCapabilities.size + 1 ∧
          ((s.insertInLocalCapabilitiesStorage e1 a1 g1).insertInLocalCapabilitiesStorage e2 a2
            g2).locallyRegisteredCapabilities.size =
            s.locallyRegisteredCapabilities.size + 1) := by
  have hl := insertInLocalCapabilitiesStorage_twice_local s e1 e2 a1 a2 g1 g2 hid
  refine ⟨?_, ?_, ?_, ?_⟩
  · rw [hl, List.filter_append, List.filter_filter]
    simp
  · have hrow := lookupByParticipantId_after_insert s.locallyRegisteredCapabilities.entries e2
    rw [← hl] at hrow
    exact hrow
  · unfold getAwaitGlobalRegistration
    rw [insertInLocalCapabilitiesStorage_await, UnorderedMap.find_assign_self]
  · intro hnone
    unfold capabilities.Storage.lookupByParticipantId at hnone
    simp only [List.find?_eq_none, decide_eq_true_eq] at hnone
    have hfilter : s.locallyRegisteredCapabilities.entries.filter
        (fun e => decide (e.participantId ≠ e2.participantId)) =
        s.locallyRegisteredCapabilities.entries := by
      rw [List.filter_eq_self]
      intro e he
      simpa using hnone e he
    unfold capabilities.Storage.size
    refine ⟨?_, ?_⟩
    · rw [insertInLocalCapabilitiesStorage_local, hid, hfilter]
      simp
    · rw [hl, hfilter]
      simp

/-- Witness for C12: "p1" is registered twice in the empty store, first with provider scope
`GLOBAL` and flag `false`, then with provider scope `LOCAL` and flag `true`. -/
theorem insertInLocalCapabilitiesStorage_twice_witness :
    Examples.p1.participantId = (Examples.entry "d" "i" "p1" ProviderScope.LOCAL).participantId ∧
      ((init.insertInLocalCapabilitiesStorage Examples.p1 false
          ["a"]).insertInLocalCapabilitiesStorage
            (Examples.entry "d" "i" "p1" ProviderScope.LOCAL) true
          []).locallyRegisteredCapabilities.lookupByParticipantId
          (Examples.entry "d" "i" "p1" ProviderScope.LOCAL).participantId =
        some (Examples.entry "d" "i" "p1" ProviderScope.LOCAL) ∧
      ((init.insertInLocalCapabilitiesStorage Examples.p1 false
          ["a"]).insertInLocalCapabilitiesStorage
            (Examples.entry "d" "i" "p1" ProviderScope.LOCAL) true
          []).getAwaitGlobalRegistration
          (Examples.entry "d" "i" "p1" ProviderScope.LOCAL).participantId = true :=
  ⟨rfl,
    (insertInLocalCapabilitiesStorage_twice init Examples.p1
      (Examples.entry "d" "i" "p1" ProviderScope.LOCAL) false true ["a"] [] rfl).2.1,
    (insertInLocalCapabilitiesStorage_twice init Examples.p1
      (Examples.entry "d" "i" "p1" ProviderScope.LOCAL) false true ["a"] [] rfl).2.2.1⟩

/-! ## The participant id to gbids map -/

theorem mem_foldl_merge (old : List String) :
    ∀ (acc : List String) (g : String),
      g ∈ old.foldl (fun acc gbid => if gbid ∉ acc then acc ++ [gbid] else acc) acc ↔
        g ∈ acc ∨ g ∈ old := by
  induction old with
  | nil => intro acc g; simp
  | cons x rest ih =>
    intro acc g
    rw [List.foldl_cons, ih]
    by_cases hx : x ∈ acc
    · simp only [hx, not_true_eq_false, if_false, List.mem_cons]
      constructor
      · rintro (h | h)
        · exact Or.inl h
        · exact Or.inr (Or.inr h)
      · rintro (h | h | h)
        · exact Or.inl h
        · exact Or.inl (h ▸ hx)
        · exact Or.inr h
    · simp only [hx, not_false_eq_true, if_true, List.mem_append, List.mem_singleton,
        List.mem_cons]
      tauto

theorem mapGbidsToGlobalProviderParticipantId_getGbids_self
    (s : LocalCapabilitiesDirectoryStore) (participantId : String) (allGbids : List String) :
    (s.mapGbidsToGlobalProviderParticipantId participantId
        allGbids).1.getGbidsForParticipantId participantId =
      (s.getGbidsForParticipantId participantId).foldl
        (fun acc gbid => if gbid ∉ acc then acc ++ [gbid] else acc) allGbids := by
  simp only [mapGbidsToGlobalProviderParticipantId, getGbidsForParticipantId,
    UnorderedMap.find_assign_self]
  cases s.globalParticipantIdsToGbidsMap.find participantId <;> rfl

theorem mapGbidsToGlobalProviderParticipantId_find_ne
    (s : LocalCapabilitiesDirectoryStore) (participantId other : String)
    (allGbids : List String) (h : other ≠ participantId) :
    (s.mapGbidsToGlobalProviderParticipantId participantId
        allGbids).1.globalParticipantIdsToGbidsMap.find other =
      s.globalParticipantIdsToGbidsMap.find other := by
  simp only [mapGbidsToGlobalProviderParticipantId]
  exact UnorderedMap.find_assign_ne _ _ _ _ h

theorem insertInGlobalLookupCache_gbidsMap (s : LocalCapabilitiesDirectoryStore) (now : Int)
    (entry : DiscoveryEntry) (gbids : List String) :
    (s.insertInGlobalLookupCache now entry gbids).globalParticipantIdsToGbidsMap =
      (s.mapGbidsToGlobalProviderParticipantId entry.participantId
        gbids).1.globalParticipantIdsToGbidsMap := by
  simp [insertInGlobalLookupCache, mapGbidsToGlobalProviderParticipantId]

theorem getGbidsForParticipantId_congr (s t : LocalCapabilitiesDirectoryStore)
    (h : s.globalParticipantIdsToGbidsMap = t.globalParticipantIdsToGbidsMap)
    (participantId : String) :
    s.getGbidsForParticipantId participantId = t.getGbidsForParticipantId participantId := by
  unfold getGbidsForParticipantId
  rw [h]

theorem lookupByParticipantId_participantId (c : capabilities.CachingStorage)
    (participantId : String) (e : DiscoveryEntry)
    (h : c.lookupByParticipantId participantId = some e) : e.participantId = participantId := by
  unfold capabilities.CachingStorage.lookupByParticipantId at h
  simp only [Option.map_eq_some'] at h
  obtain ⟨r, hr, rfl⟩ := h
  simpa using List.find?_some hr

/-- The gbids map after `insertInLocalCapabilitiesStorage`: the mapping of the participant
id is erased if a cache row of that id existed, and then, for an entry of global scope, the
supplied gbids are merged into it. -/
theorem insertInLocalCapabilitiesStorage_gbidsMap (s : LocalCapabilitiesDirectoryStore)
    (entry : DiscoveryEntry) (awaitGlobalRegistration : Bool) (gbids : List String) :
    (s.insertInLocalCapabilitiesStorage entry awaitGlobalRegistration
        gbids).globalParticipantIdsToGbidsMap =
      (if LCDUtil.isGlobal entry then
        ((if (s.globalLookupCache.lookupByParticipantId entry.participantId).isSome then
            s.eraseParticipantIdToGbidMapping entry.participantId
          else s).mapGbidsToGlobalProviderParticipantId entry.participantId
            gbids).1.globalParticipantIdsToGbidsMap
      else
        (if (s.globalLookupCache.lookupByParticipantId entry.participantId).isSome then
            s.eraseParticipantIdToGbidMapping entry.participantId
          else s).globalParticipantIdsToGbidsMap) := by
  simp only [insertInLocalCapabilitiesStorage]
  cases hc : s.globalLookupCache.lookupByParticipantId entry.participantId with
  | none =>
    split_ifs <;> simp_all [mapGbidsToGlobalProviderParticipantId]
  | some c =>
    have hid := lookupByParticipantId_participantId _ _ _ hc
    split_ifs <;>
      simp_all [mapGbidsToGlobalProviderParticipantId, eraseParticipantIdToGbidMapping]

/-- C13: the gbid merge is a union. After `insertInGlobalLookupCache(entry, gbids)`, and
after `insertInLocalCapabilitiesStorage` of a GLOBAL-scope entry with no cache row of the
same id, a gbid is in the list mapped to `entry.participantId` if and only if it was
mapped before or is one of the supplied gbids. -/
theorem gbids_merged_as_union (s : LocalCapabilitiesDirectoryStore) (now : Int)
    (entry : DiscoveryEntry) (awaitGlobalRegistration : Bool) (gbids : List String) :
    (∀ g : String,
      g ∈ (s.insertInGlobalLookupCache now entry gbids).getGbidsForParticipantId
          entry.participantId ↔
        g ∈ s.getGbidsForParticipantId entry.participantId ∨ g ∈ gbids) ∧
    (entry.qos.scope = ProviderScope.GLOBAL →
      s.globalLookupCache.lookupByParticipantId entry.participantId = none →
      ∀ g : String,
        g ∈ (s.insertInLocalCapabilitiesStorage entry awaitGlobalRegistration
            gbids).getGbidsForParticipantId entry.participantId ↔
          g ∈ s.getGbidsForParticipantId entry.participantId ∨ g ∈ gbids) := by
  constructor
  · intro g
    rw [getGbidsForParticipantId_congr _ _ (insertInGlobalLookupCache_gbidsMap s now entry gbids),
      mapGbidsToGlobalProviderParticipantId_getGbids_self, mem_foldl_merge]
    exact Or.comm
  · intro hglobal hnone g
    have hmap := insertInLocalCapabilitiesStorage_gbidsMap s entry awaitGlobalRegistration gbids
    have hg : LCDUtil.isGlobal entry = true := by simp [LCDUtil.isGlobal, hglobal]
    rw [hg, hnone] at hmap
    simp only [if_true, Option.isSome_none, Bool.false_eq_true, if_false] at hmap
    rw [getGbidsForParticipantId_congr _ _ hmap,
      mapGbidsToGlobalProviderParticipantId_getGbids_self, mem_foldl_merge]
    exact Or.comm

/-- Witness for C13: "p1" (provider scope `GLOBAL`) is registered locally for gbid "a"
without a cache row, and is registered again for gbid "b". -/
theorem gbids_merged_as_union_witness :
    Examples.p1.qos.scope = ProviderScope.GLOBAL ∧
      Examples.storeLocalP1.globalLookupCache.lookupByParticipantId
        Examples.p1.participantId = none ∧
      ∀ g : String,
        g ∈ (Examples.storeLocalP1.insertInLocalCapabilitiesStorage Examples.p1 true
            ["b"]).getGbidsForParticipantId Examples.p1.participantId ↔
          g ∈ Examples.storeLocalP1.getGbidsForParticipantId Examples.p1.participantId ∨
            g ∈ ["b"] :=
  ⟨rfl, by decide,
    (gbids_merged_as_union Examples.storeLocalP1 0 Examples.p1 true ["b"]).2 rfl (by decide)⟩

/-! ## Store invariant: the gbids of globally registered entries -/

theorem nodup_foldl_merge (old : List String) :
    ∀ acc : List String, acc.Nodup →
      (old.foldl (fun acc gbid => if gbid ∉ acc then acc ++ [gbid] else acc) acc).Nodup := by
  induction old with
  | nil => intro acc h; exact h
  | cons x rest ih =>
    intro acc h
    rw [List.foldl_cons]
    apply ih
    by_cases hx : x ∈ acc
    · simp only [hx, not_true_eq_false, if_false]
      exact h
    · simp only [hx, not_false_eq_true, if_true]
      rw [List.nodup_append]
      refine ⟨h, by simp, ?_⟩
      intro a ha hb
      simp only [List.mem_singleton] at hb
      exact hx (hb ▸ ha)

theorem validGbidList_foldl_merge (old gbids : List String) (hgbids : validGbidList gbids)
    (hold : "" ∉ old) :
    validGbidList
      (old.foldl (fun acc gbid => if gbid ∉ acc then acc ++ [gbid] else acc) gbids) := by
  obtain ⟨hne, hempty, hnodup⟩ := hgbids
  refine ⟨?_, ?_, nodup_foldl_merge old gbids hnodup⟩
  · intro hnil
    obtain ⟨g, rest, hg⟩ := List.exists_cons_of_ne_nil hne
    have hmem : g ∈ old.foldl (fun acc gbid => if gbid ∉ acc then acc ++ [gbid] else acc) gbids :=
      (mem_foldl_merge old gbids g).mpr (Or.inl (by rw [hg]; exact List.mem_cons_self _ _))
    rw [hnil] at hmem
    simp at hmem
  · intro hmem
    rcases (mem_foldl_merge old gbids "").mp hmem with h | h
    · exact hempty h
    · exact hold h

theorem getGbidsForParticipantId_without_empty (s : LocalCapabilitiesDirectoryStore)
    (hclean : mappedGbidsWithoutEmptyString s) (participantId : String) :
    "" ∉ s.getGbidsForParticipantId participantId := by
  unfold getGbidsForParticipantId
  cases h : s.globalParticipantIdsToGbidsMap.find participantId with
  | none => simp
  | some mapped => exact hclean participantId mapped h

theorem getGbidsForParticipantId_of_find_eq (s t : LocalCapabilitiesDirectoryStore)
    (participantId : String)
    (h : s.globalParticipantIdsToGbidsMap.find participantId =
      t.globalParticipantIdsToGbidsMap.find participantId) :
    s.getGbidsForParticipantId participantId = t.getGbidsForParticipantId participantId := by
  unfold getGbidsForParticipantId
  rw [h]

/-- Merging valid gbids into a map without empty strings: the merged list is valid, the
other mappings are unchanged, and the map is still without empty strings. -/
theorem mapGbidsToGlobalProviderParticipantId_valid (t : LocalCapabilitiesDirectoryStore)
    (participantId : String) (gbids : List String) (hclean : mappedGbidsWithoutEmptyString t)
    (hgbids : validGbidList gbids) :
    validGbidList ((t.mapGbidsToGlobalProviderParticipantId participantId
        gbids).1.getGbidsForParticipantId participantId) ∧
      mappedGbidsWithoutEmptyString
        (t.mapGbidsToGlobalProviderParticipantId participantId gbids).1 := by
  have hvalid : validGbidList ((t.mapGbidsToGlobalProviderParticipantId participantId
      gbids).1.getGbidsForParticipantId participantId) := by
    rw [mapGbidsToGlobalProviderParticipantId_getGbids_self]
    exact validGbidList_foldl_merge _ _ hgbids
      (getGbidsForParticipantId_without_empty t hclean participantId)
  refine ⟨hvalid, ?_⟩
  intro k mapped hk
  by_cases hkp : k = participantId
  · subst hkp
    have : (t.mapGbidsToGlobalProviderParticipantId k gbids).1.getGbidsForParticipantId k =
        mapped := by
      unfold getGbidsForParticipantId
      rw [hk]
    rw [← this]
    exact hvalid.2.1
  · rw [mapGbidsToGlobalProviderParticipantId_find_ne t participantId k gbids hkp] at hk
    exact hclean k mapped hk

theorem eraseParticipantIdToGbidMapping_clean (s : LocalCapabilitiesDirectoryStore)
    (participantId : String) (hclean : mappedGbidsWithoutEmptyString s) :
    mappedGbidsWithoutEmptyString (s.eraseParticipantIdToGbidMapping participantId) := by
  intro k mapped hk
  unfold eraseParticipantIdToGbidMapping at hk
  by_cases hkp : k = participantId
  · subst hkp
    rw [UnorderedMap.find_erase_self] at hk
    simp at hk
  · rw [UnorderedMap.find_erase_ne _ _ _ hkp] at hk
    exact hclean k mapped hk

/-- C14, as amended: together with the property that no mapped gbid list contains the
empty string, the invariant "for every GLOBAL-scope entry of the local store the gbid list
mapped to its participant id is non-empty and contains no empty string and no duplicate"
is preserved by every `insertInLocalCapabilitiesStorage` and every
`insertInGlobalLookupCache` call whose gbid list is non-empty, without empty string and
without duplicate. -/
theorem globalEntriesHaveValidGbids_preserved (s : LocalCapabilitiesDirectoryStore)
    (now : Int) (entry : DiscoveryEntry) (awaitGlobalRegistration : Bool)
    (gbids : List String)
    (hinv : globalEntriesHaveValidGbids s) (hclean : mappedGbidsWithoutEmptyString s)
    (hgbids : validGbidList gbids) :
    (globalEntriesHaveValidGbids
        (s.insertInLocalCapabilitiesStorage entry awaitGlobalRegistration gbids) ∧
      mappedGbidsWithoutEmptyString
        (s.insertInLocalCapabilitiesStorage entry awaitGlobalRegistration gbids)) ∧
    (globalEntriesHaveValidGbids (s.insertInGlobalLookupCache now entry gbids) ∧
      mappedGbidsWithoutEmptyString (s.insertInGlobalLookupCache now entry gbids)) := by
  constructor
  · -- the state whose map receives the merge
    have hmap := insertInLocalCapabilitiesStorage_gbidsMap s entry awaitGlobalRegistration gbids
    generalize ht : (if (s.globalLookupCache.lookupByParticipantId
        entry.participantId).isSome then
          s.eraseParticipantIdToGbidMapping entry.participantId else s) = t at hmap
    have htclean : mappedGbidsWithoutEmptyString t := by
      rw [← ht]
      split_ifs
      · exact eraseParticipantIdToGbidMapping_clean s _ hclean
      · exact hclean
    have htne : ∀ k : String, k ≠ entry.participantId →
        t.globalParticipantIdsToGbidsMap.find k = s.globalParticipantIdsToGbidsMap.find k := by
      intro k hk
      rw [← ht]
      split_ifs
      · exact UnorderedMap.find_erase_ne _ _ _ hk
      · rfl
    have hmerged := mapGbidsToGlobalProviderParticipantId_valid t entry.participantId gbids
      htclean hgbids
    constructor
    · intro e he hscope
      rw [insertInLocalCapabilitiesStorage_local] at he
      rcases List.mem_append.mp he with he | he
      · obtain ⟨hmem, hne⟩ := List.mem_filter.mp he
        simp only [decide_eq_true_eq] at hne
        have hfind : (s.insertInLocalCapabilitiesStorage entry awaitGlobalRegistration
            gbids).globalParticipantIdsToGbidsMap.find e.participantId =
            s.globalParticipantIdsToGbidsMap.find e.participantId := by
          rw [hmap]
          split_ifs
          · rw [mapGbidsToGlobalProviderParticipantId_find_ne t _ _ gbids hne]
            exact htne _ hne
          · exact htne _ hne
        rw [getGbidsForParticipantId_of_find_eq _ s _ hfind]
        exact hinv e hmem hscope
      · simp only [List.mem_singleton] at he
        subst he
        have hg : LCDUtil.isGlobal e = true := by simp [LCDUtil.isGlobal, hscope]
        rw [hg] at hmap
        simp only [if_true] at hmap
        rw [getGbidsForParticipantId_congr _ _ hmap]
        exact hmerged.1
    · intro k mapped hk
      rw [hmap] at hk
      split_ifs at hk
      · exact hmerged.2 k mapped hk
      · exact htclean k mapped hk
  · have hmap := insertInGlobalLookupCache_gbidsMap s now entry gbids
    have hmerged := mapGbidsToGlobalProviderParticipantId_valid s entry.participantId gbids
      hclean hgbids
    constructor
    · intro e he hscope
      rw [(insertInGlobalLookupCache_storages s now entry gbids).1] at he
      by_cases hid : e.participantId = entry.participantId
      · rw [hid, getGbidsForParticipantId_congr _ _ hmap]
        exact hmerged.1
      · have hfind : (s.insertInGlobalLookupCache now entry
            gbids).globalParticipantIdsToGbidsMap.find e.participantId =
            s.globalParticipantIdsToGbidsMap.find e.participantId := by
          rw [hmap]
          exact mapGbidsToGlobalProviderParticipantId_find_ne s _ _ gbids hid
        rw [getGbidsForParticipantId_of_find_eq _ s _ hfind]
        exact hinv e he hscope
    · intro k mapped hk
      rw [hmap] at hk
      exact hmerged.2 k mapped hk

/-- Witness for C14 as amended: the empty store satisfies both properties and ["a", "b"] is
a valid gbid list. -/
theorem globalEntriesHaveValidGbids_preserved_witness :
    globalEntriesHaveValidGbids init ∧ mappedGbidsWithoutEmptyString init ∧
      validGbidList ["a", "b"] ∧
      globalEntriesHaveValidGbids
        (init.insertInLocalCapabilitiesStorage Examples.p1 false ["a", "b"]) ∧
      globalEntriesHaveValidGbids (init.insertInGlobalLookupCache 5 Examples.p1 ["a", "b"]) :=
  have hclean : mappedGbidsWithoutEmptyString init := by
    intro k mapped hk
    simp [init, UnorderedMap.find_empty] at hk
  ⟨by decide, hclean, by decide,
    (globalEntriesHaveValidGbids_preserved init 5 Examples.p1 false ["a", "b"]
      (by decide) hclean (by decide)).1.1,
    (globalEntriesHaveValidGbids_preserved init 5 Examples.p1 false ["a", "b"]
      (by decide) hclean (by decide)).2.1⟩

/-- Counterexample to C14 as stated: the empty store satisfies the invariant, and
registering the GLOBAL-scope entry "p1" locally with an empty gbid list, with the list
[""] or with the list ["a", "a"] breaks it: the list mapped to "p1" is then empty, holds
the empty string, or holds "a" twice. -/
theorem insertInLocalCapabilitiesStorage_breaks_globalEntriesHaveValidGbids :
    globalEntriesHaveValidGbids init ∧
      ¬ globalEntriesHaveValidGbids (init.insertInLocalCapabilitiesStorage Examples.p1 false []) ∧
      (init.insertInLocalCapabilitiesStorage Examples.p1 false []).getGbidsForParticipantId
        "p1" = [] ∧
      ¬ globalEntriesHaveValidGbids
        (init.insertInLocalCapabilitiesStorage Examples.p1 false [""]) ∧
      ¬ globalEntriesHaveValidGbids
        (init.insertInLocalCapabilitiesStorage Examples.p1 false ["a", "a"]) ∧
      (init.insertInLocalCapabilitiesStorage Examples.p1 false
        ["a", "a"]).getGbidsForParticipantId "p1" = ["a", "a"] := by
  decide

end LocalCapabilitiesDirectoryStore

namespace LCDUtil

/-! ## Gbid predicates and validation -/

/-- C15: `isEntryForGbid(entry, gbids, map)` returns `true` if and only if the map has no
gbid mapping for the participant id of the entry, or the gbid list mapped to it shares at
least one element with the requested gbids. -/
theorem isEntryForGbid_iff (entry : DiscoveryEntry) (gbids : List String)
    (globalParticipantIdsToGbidsMap : UnorderedMap (List String)) :
    isEntryForGbid entry gbids globalParticipantIdsToGbidsMap = true ↔
      (globalParticipantIdsToGbidsMap.find entry.participantId = none ∨
        ∃ mapped : List String,
          globalParticipantIdsToGbidsMap.find entry.participantId = some mapped ∧
            ∃ gbid ∈ mapped, gbid ∈ gbids) := by
  unfold isEntryForGbid
  cases h : globalParticipantIdsToGbidsMap.find entry.participantId with
  | none => simp
  | some mapped => simp

/-- C16: `filterDiscoveryEntriesByGbids(entries, gbids, map)` returns, in input order,
exactly those entries whose participant id is mapped to a gbid list that contains at least
one of the requested gbids: the result is `entries` filtered by a predicate that holds
exactly for these entries. An entry whose participant id has no mapping is not returned. -/
theorem filterDiscoveryEntriesByGbids_eq_filter (entries : List DiscoveryEntry)
    (gbids : List String) (globalParticipantIdsToGbidsMap : UnorderedMap (List String)) :
    (∃ keep : DiscoveryEntry → Bool,
      (∀ e : DiscoveryEntry, keep e = true ↔
        ∃ mapped : List String,
          globalParticipantIdsToGbidsMap.find e.participantId = some mapped ∧
            ∃ gbid ∈ mapped, gbid ∈ gbids) ∧
      filterDiscoveryEntriesByGbids entries gbids globalParticipantIdsToGbidsMap =
        entries.filter keep) ∧
    (∀ e : DiscoveryEntry,
      e ∈ filterDiscoveryEntriesByGbids entries gbids globalParticipantIdsToGbidsMap ↔
        e ∈ entries ∧
          ∃ mapped : List String,
            globalParticipantIdsToGbidsMap.find e.participantId = some mapped ∧
              ∃ gbid ∈ mapped, gbid ∈ gbids) ∧
    (∀ e : DiscoveryEntry, globalParticipantIdsToGbidsMap.find e.participantId = none →
      e ∉ filterDiscoveryEntriesByGbids entries gbids globalParticipantIdsToGbidsMap) := by
  have hkeep : ∀ e : DiscoveryEntry,
      (match globalParticipantIdsToGbidsMap.find e.participantId with
        | none => false
        | some entryBackends =>
            entryBackends.any (fun entryBackend => decide (entryBackend ∈ gbids))) = true ↔
        ∃ mapped : List String,
          globalParticipantIdsToGbidsMap.find e.participantId = some mapped ∧
            ∃ gbid ∈ mapped, gbid ∈ gbids := by
    intro e
    cases h : globalParticipantIdsToGbidsMap.find e.participantId with
    | none => simp
    | some mapped => simp
  refine ⟨⟨_, hkeep, rfl⟩, ?_, ?_⟩
  · intro e
    unfold filterDiscoveryEntriesByGbids
    rw [List.mem_filter, hkeep]
  · intro e hnone hmem
    unfold filterDiscoveryEntriesByGbids at hmem
    rw [List.mem_filter, hkeep] at hmem
    obtain ⟨_, mapped, hm, _⟩ := hmem
    rw [hnone] at hm
    simp at hm

/-- C17: `validateGbids(gbids, validGbids)` returns `OK` if and only if every element of
`gbids` is non-empty, no element occurs twice in `gbids`, and every element is a member of
`validGbids`; in particular the empty list yields `OK`. -/
theorem validateGbids_OK_iff (gbids validGbids : List String) :
    (validateGbids gbids validGbids = ValidateGBIDsEnum.OK ↔
      (∀ gbid ∈ gbids, gbid ≠ "") ∧ gbids.Nodup ∧ ∀ gbid ∈ gbids, gbid ∈ validGbids) ∧
    validateGbids [] validGbids = ValidateGBIDsEnum.OK := by
  constructor
  · unfold validateGbids
    split_ifs with h1 h2
    · simp only [false_iff, reduceCtorEq, not_and]
      intro hne hnodup
      rcases h1 with h | h
      · exact absurd rfl (hne "" h)
      · exact absurd hnodup h
    · simp only [false_iff, reduceCtorEq, not_and]
      intro _ _ hall
      obtain ⟨g, hg, hgv⟩ := h2
      exact hgv (hall g hg)
    · simp only [true_iff]
      push_neg at h1 h2
      refine ⟨?_, h1.2, h2⟩
      intro g hg hge
      exact h1.1 (hge ▸ hg)
  · simp [validateGbids]

/-- C18: for every gbids list and every set of valid gbids, if `gbids` contains an empty
string or contains some gbid twice, `validateGbids(gbids, validGbids)` returns `INVALID`. -/
theorem validateGbids_INVALID (gbids validGbids : List String)
    (h : "" ∈ gbids ∨ ∃ gbid : String, 2 ≤ gbids.count gbid) :
    validateGbids gbids validGbids = ValidateGBIDsEnum.INVALID := by
  unfold validateGbids
  have h1 : "" ∈ gbids ∨ ¬ gbids.Nodup := by
    rcases h with h | ⟨g, hg⟩
    · exact Or.inl h
    · right
      intro hnodup
      have := List.nodup_iff_count_le_one.mp hnodup g
      omega
  rw [if_pos h1]

/-- Witness for C18: the list ["a", ""] holds an empty string and ["a", "a"] holds "a"
twice. -/
theorem validateGbids_INVALID_witness :
    ("" ∈ ["a", ""] ∨ ∃ gbid : String, 2 ≤ ["a", ""].count gbid) ∧
      validateGbids ["a", ""] ["a", "b"] = ValidateGBIDsEnum.INVALID ∧
      ("" ∈ ["a", "a"] ∨ ∃ gbid : String, 2 ≤ ["a", "a"].count gbid) ∧
      validateGbids ["a", "a"] ["a", "b"] = ValidateGBIDsEnum.INVALID :=
  ⟨Or.inl (by decide),
    validateGbids_INVALID ["a", ""] ["a", "b"] (Or.inl (by decide)),
    Or.inr ⟨"a", by decide⟩,
    validateGbids_INVALID ["a", "a"] ["a", "b"] (Or.inr ⟨"a", by decide⟩)⟩

/-- C19: for every gbids list of pairwise distinct, non-empty strings that contains at
least one gbid that is not a valid one, `validateGbids(gbids, validGbids)` returns
`UNKNOWN`. -/
theorem validateGbids_UNKNOWN (gbids validGbids : List String)
    (hdistinct : gbids.Nodup) (hnonempty : ∀ gbid ∈ gbids, gbid ≠ "")
    (hunknown : ∃ gbid ∈ gbids, gbid ∉ validGbids) :
    validateGbids gbids validGbids = ValidateGBIDsEnum.UNKNOWN := by
  unfold validateGbids
  have h1 : ¬ ("" ∈ gbids ∨ ¬ gbids.Nodup) := by
    rintro (h | h)
    · exact hnonempty "" h rfl
    · exact h hdistinct
  rw [if_neg h1, if_pos hunknown]

/-- Witness for C19: the list ["a", "unknown"] against the valid gbids "a" and "b". -/
theorem validateGbids_UNKNOWN_witness :
    ["a", "unknown"].Nodup ∧ (∀ gbid ∈ ["a", "unknown"], gbid ≠ "") ∧
      (∃ gbid ∈ ["a", "unknown"], gbid ∉ ["a", "b"]) ∧
      validateGbids ["a", "unknown"] ["a", "b"] = ValidateGBIDsEnum.UNKNOWN :=
  ⟨by decide, by decide, by decide,
    validateGbids_UNKNOWN ["a", "unknown"] ["a", "b"] (by decide) (by decide) (by decide)⟩

/-! ## `filterDuplicates`: the local row wins -/

theorem foldl_insert_decompose (xs : List DiscoveryEntryWithMetaInfo) :
    ∀ acc : List DiscoveryEntryWithMetaInfo,
      ∃ taken : List DiscoveryEntryWithMetaInfo,
        xs.foldl insertByParticipantId acc = acc ++ taken ∧ taken.Sublist xs ∧
          ∀ y ∈ taken, y.participantId ∉ acc.map (fun x => x.participantId) := by
  induction xs with
  | nil => intro acc; exact ⟨[], by simp, List.Sublist.refl _, by simp⟩
  | cons e rest ih =>
    intro acc
    rw [List.foldl_cons]
    by_cases h : acc.any (fun x => decide (x.participantId = e.participantId)) = true
    · obtain ⟨taken, h1, h2, h3⟩ := ih acc
      refine ⟨taken, ?_, h2.cons e, h3⟩
      have hins : insertByParticipantId acc e = acc := by
        unfold insertByParticipantId
        rw [if_pos h]
      rw [hins]
      exact h1
    · obtain ⟨taken, h1, h2, h3⟩ := ih (acc ++ [e])
      refine ⟨e :: taken, ?_, h2.cons₂ e, ?_⟩
      · have hins : insertByParticipantId acc e = acc ++ [e] := by
          unfold insertByParticipantId
          rw [if_neg h]
        rw [hins, h1, List.append_assoc]
        rfl
      · intro y hy
        rcases List.mem_cons.mp hy with hy | hy
        · subst hy
          intro hmem
          apply h
          obtain ⟨x, hx, hxe⟩ := List.mem_map.mp hmem
          simp only [List.any_eq_true, decide_eq_true_eq]
          exact ⟨x, hx, hxe⟩
        · intro hmem
          apply h3 y hy
          rw [List.map_append]
          exact List.mem_append_left _ hmem

/-- C20: local wins on participant-id collision. For every pair of lists passed as
`filterDuplicates(localEntries, globalEntries)` the result consists of entries taken from
`localEntries`, one for every participant id of `localEntries`, followed by entries taken
from `globalEntries` whose participant id does not occur in `localEntries`. Hence, whenever
a participant id occurs in both lists, the result contains an entry of `localEntries` for
that id (equal to it on all fields, `isLocal` included), every entry of the result with
that id is an entry of `localEntries`, and an entry of `globalEntries` with that id is not
in the result (an entry that is equal on all fields to an entry of `localEntries` counts
as that local entry). For the lists that the store passes, local rows tagged
`isLocal = true` and cache rows tagged `isLocal = false`, no cache row with a colliding id
is in the result. -/
theorem filterDuplicates_local_wins (localEntries globalEntries : List DiscoveryEntryWithMetaInfo) :
    (∃ fromLocal fromGlobal : List DiscoveryEntryWithMetaInfo,
      filterDuplicates localEntries globalEntries = fromLocal ++ fromGlobal ∧
        fromLocal.Sublist localEntries ∧ fromGlobal.Sublist globalEntries ∧
        (∀ p ∈ localEntries.map (fun x => x.participantId),
          p ∈ fromLocal.map (fun x => x.participantId)) ∧
        (∀ y ∈ fromGlobal,
          y.participantId ∉ localEntries.map (fun x => x.participantId))) ∧
    (∀ p : String, p ∈ localEntries.map (fun x => x.participantId) →
      p ∈ globalEntries.map (fun x => x.participantId) →
        (∃ x ∈ filterDuplicates localEntries globalEntries,
          x ∈ localEntries ∧ x.participantId = p) ∧
        (∀ x ∈ filterDuplicates localEntries globalEntries,
          x.participantId = p → x ∈ localEntries) ∧
        (∀ y ∈ globalEntries, y.participantId = p → y ∉ localEntries →
          y ∉ filterDuplicates localEntries globalEntries)) ∧
    (∀ (L C : List DiscoveryEntry), ∀ y ∈ convert false C,
      y.participantId ∈ (convert true L).map (fun x => x.participantId) →
        y ∉ filterDuplicates (convert true L) (convert false C)) := by
  have hmem : ∀ (l g : List DiscoveryEntryWithMetaInfo), ∀ x ∈ filterDuplicates l g,
      x.participantId ∈ l.map (fun x => x.participantId) → x ∈ l := by
    intro l g x hx hp
    rcases filterDuplicates_mem _ _ x hx with h | ⟨_, h⟩
    · exact h
    · exact absurd hp h
  refine ⟨?_, ?_, ?_⟩
  · obtain ⟨fromLocal, h1, h2, _⟩ := foldl_insert_decompose localEntries []
    obtain ⟨fromGlobal, h4, h5, h6⟩ :=
      foldl_insert_decompose globalEntries (localEntries.foldl insertByParticipantId [])
    rw [List.nil_append] at h1
    refine ⟨fromLocal, fromGlobal, ?_, h2, h5, ?_, ?_⟩
    · unfold filterDuplicates
      rw [h4, h1]
    · intro p hp
      rw [← h1]
      exact (foldl_insert_pids localEntries [] p).mpr (Or.inr hp)
    · intro y hy hp
      exact h6 y hy ((foldl_insert_pids localEntries [] _).mpr (Or.inr hp))
  · intro p hl _
    refine ⟨?_, ?_, ?_⟩
    · have hp := (filterDuplicates_pids localEntries globalEntries p).mpr (Or.inl hl)
      obtain ⟨x, hx, hxp⟩ := List.mem_map.mp hp
      exact ⟨x, hx, hmem _ _ x hx (hxp ▸ hl), hxp⟩
    · intro x hx hxp
      exact hmem _ _ x hx (hxp ▸ hl)
    · intro y _ hyp hyl hy
      exact hyl (hmem _ _ y hy (hyp ▸ hl))
  · intro L C y hy hp hres
    have h1 := ((mem_convert _ _ _).mp (hmem _ _ y hres hp)).1
    have h2 := ((mem_convert _ _ _).mp hy).1
    rw [h2] at h1
    exact absurd h1 (by decide)

end LCDUtil

namespace LCDUtilTest

/-! ## The assertions of `LCDUtilTest.cpp` on the modelled helpers -/

theorem test_validateGbids :
    LCDUtil.validateGbids ["validGbid"] ["validGbid"] = ValidateGBIDsEnum.OK ∧
      LCDUtil.validateGbids [""] ["validGbid"] = ValidateGBIDsEnum.INVALID ∧
      LCDUtil.validateGbids ["validGbid", "validGbid"] ["validGbid"] =
        ValidateGBIDsEnum.INVALID ∧
      LCDUtil.validateGbids ["unknownGbid"] ["validGbid"] = ValidateGBIDsEnum.UNKNOWN := by
  decide

theorem test_filterDuplicates :
    (LCDUtil.filterDuplicates [entry1, entry2] [entry1_1, entry3]).length = 3 ∧
      entry1 ∈ LCDUtil.filterDuplicates [entry1, entry2] [entry1_1, entry3] ∧
      entry2 ∈ LCDUtil.filterDuplicates [entry1, entry2] [entry1_1, entry3] ∧
      entry3 ∈ LCDUtil.filterDuplicates [entry1, entry2] [entry1_1, entry3] := by
  decide

theorem test_isEntryForGbid :
    LCDUtil.isEntryForGbid (entry "domain1" "interface1" "participantId1" ProviderScope.LOCAL)
        ["gbid1"] participantIdsToGbidsMap = true ∧
      LCDUtil.isEntryForGbid
        (entry "domain1" "interface1" "participantId1" ProviderScope.LOCAL)
        ["wrongGbid"] participantIdsToGbidsMap = false := by
  decide

theorem test_filterDiscoveryEntriesByGbids :
    LCDUtil.filterDiscoveryEntriesByGbids
        [entry "domain1" "interface1" "participantId1" ProviderScope.LOCAL,
          entry "domain1" "interface1" "otherParticipantId" ProviderScope.LOCAL]
        ["gbid1"] participantIdsToGbidsMap =
      [entry "domain1" "interface1" "participantId1" ProviderScope.LOCAL] := by
  decide

end LCDUtilTest

namespace LCDUtil

/-! ## `filterDuplicates`: one row for each participant id -/

/-- C21: for every two input lists, the result of `filterDuplicates` holds exactly one
entry for each participant id that occurs in either input and no entry with any other
participant id; its length is the number of distinct participant ids of the two inputs
together (3 for the inputs of `test_filterDuplicates`, with ids {p1, p2} and {p1, p3}). -/
theorem filterDuplicates_one_row_for_each_participantId
    (localEntries globalEntries : List DiscoveryEntryWithMetaInfo) :
    ((filterDuplicates localEntries globalEntries).map (fun x => x.participantId)).Nodup ∧
      (∀ p : String,
        p ∈ (filterDuplicates localEntries globalEntries).map (fun x => x.participantId) ↔
          p ∈ localEntries.map (fun x => x.participantId) ∨
            p ∈ globalEntries.map (fun x => x.participantId)) ∧
      (∀ p : String,
        (p ∈ localEntries.map (fun x => x.participantId) ∨
            p ∈ globalEntries.map (fun x => x.participantId)) →
          ((filterDuplicates localEntries globalEntries).filter
            (fun x => decide (x.participantId = p))).length = 1) ∧
      (filterDuplicates localEntries globalEntries).length =
        (((localEntries ++ globalEntries).map (fun x => x.participantId)).dedup).length ∧
      (filterDuplicates [LCDUtilTest.entry1, LCDUtilTest.entry2]
        [LCDUtilTest.entry1_1, LCDUtilTest.entry3]).length = 3 := by
  have hnodup := filterDuplicates_nodup localEntries globalEntries
  have hpids := filterDuplicates_pids localEntries globalEntries
  refine ⟨hnodup, hpids, ?_, ?_, by decide⟩
  · intro p hp
    have hcount : ((filterDuplicates localEntries globalEntries).map
        (fun x => x.participantId)).count p = 1 :=
      List.count_eq_one_of_mem hnodup ((hpids p).mpr hp)
    rw [List.count_eq_countP, List.countP_map, List.countP_eq_length_filter] at hcount
    rw [← hcount]
    congr 2
  · have hperm : ((filterDuplicates localEntries globalEntries).map
        (fun x => x.participantId)).Perm
        (((localEntries ++ globalEntries).map (fun x => x.participantId)).dedup) := by
      rw [List.perm_ext_iff_of_nodup hnodup (List.nodup_dedup _)]
      intro p
      rw [hpids, List.mem_dedup, List.map_append, List.mem_append]
    have hlen := hperm.length_eq
    rw [List.length_map] at hlen
    exact hlen

end LCDUtil

namespace LocalCapabilitiesDirectoryStore

/-! ## The age bound of the cache searches -/

theorem searchGlobalCache_age (s : LocalCapabilitiesDirectoryStore) (now : Int)
    (interfaceAddresses : List InterfaceAddress) (gbids : List String) (maxCacheAge : Int)
    (e : DiscoveryEntry)
    (he : e ∈ s.searchGlobalCache now interfaceAddresses gbids maxCacheAge) :
    ∃ r ∈ s.globalLookupCache.rows, r.entry = e ∧ now - r.timestamp ≤ maxCacheAge := by
  unfold searchGlobalCache LCDUtil.filterDiscoveryEntriesByGbids
    capabilities.CachingStorage.lookupCacheByDomainAndInterface at he
  simp only [List.mem_flatMap, List.mem_filter, List.mem_map, Bool.and_eq_true,
    decide_eq_true_eq] at he
  obtain ⟨_, _, ⟨r, ⟨hr, _, hage⟩, hre⟩, _⟩ := he
  exact ⟨r, hr, hre, hage⟩

theorem searchGlobalCacheByParticipantId_age (s : LocalCapabilitiesDirectoryStore)
    (now : Int) (participantId : String) (gbids : List String) (maxCacheAge : Int)
    (hage : 0 ≤ maxCacheAge) (e : DiscoveryEntry)
    (he : s.searchGlobalCacheByParticipantId now participantId gbids maxCacheAge = some e) :
    ∃ r ∈ s.globalLookupCache.rows, r.entry = e ∧ now - r.timestamp ≤ maxCacheAge := by
  simp only [searchGlobalCacheByParticipantId, ge_iff_le, hage, if_true] at he
  cases hl : s.globalLookupCache.lookupCacheByParticipantId now participantId maxCacheAge with
  | none => rw [hl] at he; simp at he
  | some c =>
    rw [hl] at he
    have hce : c = e := by
      by_cases hpass : LCDUtil.isEntryForGbid c gbids s.globalParticipantIdsToGbidsMap = true
      · simpa [hpass] using he
      · simp [hpass] at he
    subst hce
    unfold capabilities.CachingStorage.lookupCacheByParticipantId at hl
    cases hf : s.globalLookupCache.rows.find?
        (fun r => decide (r.entry.participantId = participantId)) with
    | none => rw [hf] at hl; simp at hl
    | some r =>
      rw [hf] at hl
      simp only [] at hl
      by_cases hr : now - r.timestamp ≤ maxCacheAge
      · simp only [hr, if_true, Option.some.injEq] at hl
        exact ⟨r, List.mem_of_find?_eq_some hf, hl, hr⟩
      · simp [hr] at hl

theorem cachedEntry_eq_of_participantId (rows : List capabilities.CachedEntry)
    (hkeys : (rows.map (fun r => r.entry.participantId)).Nodup)
    (r r2 : capabilities.CachedEntry) (hr : r ∈ rows) (hr2 : r2 ∈ rows)
    (hid : r.entry.participantId = r2.entry.participantId) : r = r2 :=
  List.inj_on_of_nodup_map hkeys hr hr2 hid

/-- C22, as amended: the cache age bound holds for the search by interface with every
value of `cacheMaxAge` (zero and negative included) and for the search by participant id
with every `cacheMaxAge ≥ 0`: an entry is returned only from a cache row inserted at a
time `t` with `now - t ≤ cacheMaxAge`; when the participant ids of the cache rows are
pairwise distinct, this is the bound for every single row whose entry is returned. -/
theorem searchGlobalCache_age_bound (s : LocalCapabilitiesDirectoryStore) (now : Int)
    (interfaceAddresses : List InterfaceAddress) (participantId : String)
    (gbids : List String) (maxCacheAge : Int) :
    (∀ e ∈ s.searchGlobalCache now interfaceAddresses gbids maxCacheAge,
      ∃ r ∈ s.globalLookupCache.rows, r.entry = e ∧ now - r.timestamp ≤ maxCacheAge) ∧
    (0 ≤ maxCacheAge → ∀ e : DiscoveryEntry,
      s.searchGlobalCacheByParticipantId now participantId gbids maxCacheAge = some e →
        ∃ r ∈ s.globalLookupCache.rows, r.entry = e ∧ now - r.timestamp ≤ maxCacheAge) ∧
    ((s.globalLookupCache.rows.map (fun r => r.entry.participantId)).Nodup →
      ∀ r ∈ s.globalLookupCache.rows,
        (r.entry ∈ s.searchGlobalCache now interfaceAddresses gbids maxCacheAge →
          now - r.timestamp ≤ maxCacheAge) ∧
        (0 ≤ maxCacheAge →
          s.searchGlobalCacheByParticipantId now participantId gbids maxCacheAge =
              some r.entry →
            now - r.timestamp ≤ maxCacheAge)) := by
  refine ⟨fun e he => searchGlobalCache_age s now _ gbids _ e he,
    fun hage e he => searchGlobalCacheByParticipantId_age s now _ gbids _ hage e he, ?_⟩
  intro hkeys r hr
  constructor
  · intro he
    obtain ⟨r2, hr2, hre, hage⟩ := searchGlobalCache_age s now _ gbids _ _ he
    have := cachedEntry_eq_of_participantId _ hkeys r2 r hr2 hr (by rw [hre])
    rw [← this]
    exact hage
  · intro hnonneg he
    obtain ⟨r2, hr2, hre, hage⟩ :=
      searchGlobalCacheByParticipantId_age s now _ gbids _ hnonneg _ he
    have := cachedEntry_eq_of_participantId _ hkeys r2 r hr2 hr (by rw [hre])
    rw [← this]
    exact hage

/-- Counterexample to C22 as stated: "p2" was cached at time 5; at time 100 a search by
participant id with `cacheMaxAge = -1` returns the row, although `-1 < 100 - 5`. The
search by interface with the same arguments returns nothing. -/
theorem searchGlobalCacheByParticipantId_negative_age_unbounded :
    Examples.storeCachedP2.globalLookupCache.rows = [⟨Examples.p2, 5⟩] ∧
      Examples.storeCachedP2.searchGlobalCacheByParticipantId 100 "p2" ["a"] (-1) =
        some Examples.p2 ∧
      ¬ ((-1 : Int) ≥ 100 - 5) ∧
      Examples.storeCachedP2.searchGlobalCache 100 [Examples.address] ["a"] (-1) = [] := by
  decide

/-! ## Local entries of local scope and global-only queries -/

theorem providerScope_eq_GLOBAL_of_ne_LOCAL (scope : ProviderScope)
    (h : scope ≠ ProviderScope.LOCAL) : scope = ProviderScope.GLOBAL := by
  cases scope
  · rfl
  · exact absurd rfl h

theorem callReceiverIfPossible_GLOBAL_ONLY_delivered
    (L C : List DiscoveryEntry) (callback : ILocalCapabilitiesCallback)
    (delivered : List DiscoveryEntryWithMetaInfo)
    (h : callReceiverIfPossible DiscoveryScope.GLOBAL_ONLY L C callback =
      (true, callback.capabilitiesReceived delivered)) :
    ∀ x ∈ delivered,
      (x.isLocal = true ∧ x.toDiscoveryEntry ∈ L ∧ x.qos.scope = ProviderScope.GLOBAL) ∨
        (x.isLocal = false ∧ x.toDiscoveryEntry ∈ C) := by
  intro x hx
  unfold callReceiverIfPossible at h
  by_cases hC : C = []
  · simp [hC] at h
  · simp only [reduceCtorEq, false_and, if_false, ne_eq, hC, not_false_eq_true, and_self,
      if_true, Prod.mk.injEq, true_and] at h
    have hd := capabilitiesReceived_injective _ _ _ h
    subst hd
    rcases LCDUtil.filterDuplicates_mem _ _ x hx with h1 | ⟨h1, _⟩
    · left
      obtain ⟨h2, h3⟩ := (LCDUtil.mem_convert _ _ _).mp h1
      rw [List.mem_filter] at h3
      refine ⟨h2, h3.1, ?_⟩
      simpa [LCDUtil.isGlobal] using h3.2
    · right
      exact (LCDUtil.mem_convert _ _ _).mp h1

theorem searchLocalByParticipantId_GLOBAL_ONLY (s : LocalCapabilitiesDirectoryStore)
    (participantId : String) (e : DiscoveryEntry)
    (h : s.searchLocalByParticipantId participantId DiscoveryScope.GLOBAL_ONLY = some e) :
    s.locallyRegisteredCapabilities.lookupByParticipantId participantId = some e ∧
      e.qos.scope = ProviderScope.GLOBAL := by
  simp only [searchLocalByParticipantId] at h
  cases hl : s.locallyRegisteredCapabilities.lookupByParticipantId participantId with
  | none => rw [hl] at h; simp at h
  | some c =>
    rw [hl] at h
    simp only [] at h
    by_cases hc : c.qos.scope = ProviderScope.LOCAL
    · simp [hc, includeLocalScopes] at h
    · have hce : c = e := by simpa [hc] using h
      subst hce
      exact ⟨rfl, providerScope_eq_GLOBAL_of_ne_LOCAL _ hc⟩

/-- C23: a locally registered LOCAL-scope entry is never exposed to a global-only query.
For both variants of `getLocalAndCachedCapabilities` with scope `GLOBAL_ONLY` and every
store state, every delivered entry is either taken from the local store, and then has
provider scope `GLOBAL`, or is a result of the cache search. By interface the rows taken
from the local store are those tagged `isLocal = true`; by participant id the locally
registered entry is delivered tagged `isLocal = false`. -/
theorem getLocalAndCachedCapabilities_GLOBAL_ONLY_hides_local_scope
    (s : LocalCapabilitiesDirectoryStore) (now : Int)
    (interfaceAddresses : List InterfaceAddress) (participantId : String)
    (discoveryQos : DiscoveryQos) (gbids : List String)
    (callback : ILocalCapabilitiesCallback)
    (hscope : discoveryQos.discoveryScope = DiscoveryScope.GLOBAL_ONLY) :
    (∀ delivered : List DiscoveryEntryWithMetaInfo,
      s.getLocalAndCachedCapabilities now interfaceAddresses discoveryQos gbids callback =
          (true, callback.capabilitiesReceived delivered) →
        ∀ x ∈ delivered,
          (x.isLocal = true ∧ x.toDiscoveryEntry ∈ s.locallyRegisteredCapabilities.entries ∧
              x.qos.scope = ProviderScope.GLOBAL) ∨
            (x.isLocal = false ∧
              x.toDiscoveryEntry ∈
                s.searchGlobalCache now interfaceAddresses gbids discoveryQos.cacheMaxAge)) ∧
    (∀ delivered : List DiscoveryEntryWithMetaInfo,
      s.getLocalAndCachedCapabilitiesByParticipantId now participantId discoveryQos gbids
          callback = (true, callback.capabilitiesReceived delivered) →
        ∀ x ∈ delivered,
          x.isLocal = false ∧
            ((s.locallyRegisteredCapabilities.lookupByParticipantId participantId =
                  some x.toDiscoveryEntry ∧
                x.qos.scope = ProviderScope.GLOBAL) ∨
              s.searchGlobalCacheByParticipantId now participantId gbids
                  discoveryQos.cacheMaxAge = some x.toDiscoveryEntry)) := by
  constructor
  · intro delivered hres x hx
    rw [getLocalAndCachedCapabilities_eq, hscope] at hres
    rcases callReceiverIfPossible_GLOBAL_ONLY_delivered _ _ _ _ hres x hx with
      ⟨h1, h2, h3⟩ | ⟨h1, h2⟩
    · left
      rw [searchLocal_GLOBAL_ONLY, List.mem_filter] at h2
      exact ⟨h1, ((mem_localMatches s _ _).mp h2.1).1, h3⟩
    · right
      simp only [includeGlobalScopes, List.mem_cons, true_or, if_true] at h2
      exact ⟨h1, h2⟩
  · intro delivered hres x hx
    rw [getLocalAndCachedCapabilitiesByParticipantId_eq, hscope] at hres
    cases hfound : s.searchLocalByParticipantId participantId DiscoveryScope.GLOBAL_ONLY with
    | some e =>
      rw [hfound] at hres
      simp only [if_true] at hres
      obtain ⟨hlookup, hglobal⟩ := searchLocalByParticipantId_GLOBAL_ONLY s _ e hfound
      rcases callReceiverIfPossible_GLOBAL_ONLY_delivered _ _ _ _ hres x hx with
        ⟨_, h2, _⟩ | ⟨h1, h2⟩
      · simp at h2
      · simp only [List.mem_singleton] at h2
        refine ⟨h1, Or.inl ⟨?_, ?_⟩⟩
        · rw [h2]; exact hlookup
        · have : x.qos = e.qos := by rw [← h2]
          rw [this]; exact hglobal
    | none =>
      rw [hfound] at hres
      simp only [includeGlobalScopes, List.mem_cons, true_or, if_true] at hres
      rcases callReceiverIfPossible_GLOBAL_ONLY_delivered _ _ _ _ hres x hx with
        ⟨_, h2, _⟩ | ⟨h1, h2⟩
      · simp at h2
      · refine ⟨h1, Or.inr ?_⟩
        cases hc : s.searchGlobalCacheByParticipantId now participantId gbids
            discoveryQos.cacheMaxAge with
        | none => rw [hc] at h2; simp [LCDUtil.optionalToVector] at h2
        | some c =>
          rw [hc] at h2
          simp only [LCDUtil.optionalToVector, List.mem_singleton] at h2
          rw [h2]

/-- Witness for C23: "p3" (provider scope `LOCAL`) is registered locally and "p2" is
cached; the `GLOBAL_ONLY` query by interface delivers only the cache row. -/
theorem getLocalAndCachedCapabilities_GLOBAL_ONLY_hides_local_scope_witness :
    (Examples.qos DiscoveryScope.GLOBAL_ONLY 100).discoveryScope =
        DiscoveryScope.GLOBAL_ONLY ∧
      Examples.storeLocalP3CachedP2.getLocalAndCachedCapabilities 10 [Examples.address]
          (Examples.qos DiscoveryScope.GLOBAL_ONLY 100) ["a"]
          ILocalCapabilitiesCallback.fresh =
        (true, ILocalCapabilitiesCallback.fresh.capabilitiesReceived
          [LCDUtil.convertEntry false Examples.p2]) ∧
      ∀ x ∈ [LCDUtil.convertEntry false Examples.p2],
        (x.isLocal = true ∧
            x.toDiscoveryEntry ∈
              Examples.storeLocalP3CachedP2.locallyRegisteredCapabilities.entries ∧
            x.qos.scope = ProviderScope.GLOBAL) ∨
          (x.isLocal = false ∧
            x.toDiscoveryEntry ∈
              Examples.storeLocalP3CachedP2.searchGlobalCache 10 [Examples.address] ["a"]
                (Examples.qos DiscoveryScope.GLOBAL_ONLY 100).cacheMaxAge) :=
  ⟨rfl, by decide,
    (getLocalAndCachedCapabilities_GLOBAL_ONLY_hides_local_scope
      Examples.storeLocalP3CachedP2 10 [Examples.address] "p3"
      (Examples.qos DiscoveryScope.GLOBAL_ONLY 100) ["a"] ILocalCapabilitiesCallback.fresh
      rfl).1 _ (by decide)⟩

/-! ## The await-global-registration flag -/

/-- C24: after `insertInLocalCapabilitiesStorage(entry, awaitGlobal, gbids)`, for an entry
of either provider scope and from any prior state,
`getAwaitGlobalRegistration(entry.participantId)` returns the `awaitGlobal` value of that
call; the flags recorded for all other participant ids are unchanged. -/
theorem insertInLocalCapabilitiesStorage_records_await_flag
    (s : LocalCapabilitiesDirectoryStore) (entry : DiscoveryEntry)
    (awaitGlobalRegistration : Bool) (gbids : List String) :
    (s.insertInLocalCapabilitiesStorage entry awaitGlobalRegistration
        gbids).getAwaitGlobalRegistration entry.participantId = awaitGlobalRegistration ∧
      (∀ other : String, other ≠ entry.participantId →
        (s.insertInLocalCapabilitiesStorage entry awaitGlobalRegistration
            gbids).participantIdToAwaitGlobalRegistrationMap.find other =
          s.participantIdToAwaitGlobalRegistrationMap.find other ∧
        (s.insertInLocalCapabilitiesStorage entry awaitGlobalRegistration
            gbids).getAwaitGlobalRegistration other = s.getAwaitGlobalRegistration other) := by
  constructor
  · unfold getAwaitGlobalRegistration
    rw [insertInLocalCapabilitiesStorage_await, UnorderedMap.find_assign_self]
  · intro other hother
    have hfind : (s.insertInLocalCapabilitiesStorage entry awaitGlobalRegistration
        gbids).participantIdToAwaitGlobalRegistrationMap.find other =
        s.participantIdToAwaitGlobalRegistrationMap.find other := by
      rw [insertInLocalCapabilitiesStorage_await]
      exact UnorderedMap.find_assign_ne _ _ _ _ hother
    refine ⟨hfind, ?_⟩
    unfold getAwaitGlobalRegistration
    rw [hfind]

/-! ## Lookups and accessors are read-only -/

theorem stateful_searchLocalByParticipantId_eq (s : LocalCapabilitiesDirectoryStore)
    (participantId : String) (scope : DiscoveryScope) :
    stateful.searchLocalByParticipantId s participantId scope =
      (s.searchLocalByParticipantId participantId scope, s) := by
  simp only [stateful.searchLocalByParticipantId, stateful.Storage.lookupByParticipantId,
    searchLocalByParticipantId]
  cases s.locallyRegisteredCapabilities.lookupByParticipantId participantId with
  | none => rfl
  | some e => simp only []; split_ifs <;> rfl

theorem stateful_searchLocal_foldl (scope : DiscoveryScope)
    (interfaceAddresses : List InterfaceAddress) :
    ∀ (result : List DiscoveryEntry) (s : LocalCapabilitiesDirectoryStore),
      interfaceAddresses.foldl
        (fun (state : List DiscoveryEntry × LocalCapabilitiesDirectoryStore)
            interfaceAddress =>
          let found := stateful.Storage.lookupByDomainAndInterface
            state.2.locallyRegisteredCapabilities interfaceAddress.domain
            interfaceAddress.interface
          let s1 := { state.2 with locallyRegisteredCapabilities := found.2 }
          let entries := found.1
          if scope ∈ includeLocalScopes then (state.1 ++ entries, s1)
          else (state.1 ++ entries.filter (fun entry => LCDUtil.isGlobal entry), s1))
        (result, s) =
        (result ++ s.searchLocal interfaceAddresses scope, s) := by
  induction interfaceAddresses with
  | nil => intro result s; simp [searchLocal]
  | cons ia rest ih =>
    intro result s
    rw [List.foldl_cons]
    by_cases hscope : scope ∈ includeLocalScopes
    · simp only [stateful.Storage.lookupByDomainAndInterface, hscope, if_true]
      have hstep := ih (result ++ s.locallyRegisteredCapabilities.lookupByDomainAndInterface
        ia.domain ia.interface) s
      simp only [stateful.Storage.lookupByDomainAndInterface, hscope, if_true] at hstep
      rw [hstep]
      simp [searchLocal, hscope]
    · simp only [stateful.Storage.lookupByDomainAndInterface, hscope, if_false]
      have hstep := ih (result ++
        (s.locallyRegisteredCapabilities.lookupByDomainAndInterface ia.domain
          ia.interface).filter (fun entry => LCDUtil.isGlobal entry)) s
      simp only [stateful.Storage.lookupByDomainAndInterface, hscope, if_false] at hstep
      rw [hstep]
      simp [searchLocal, hscope]

theorem stateful_searchLocal_eq (s : LocalCapabilitiesDirectoryStore)
    (interfaceAddresses : List InterfaceAddress) (scope : DiscoveryScope) :
    stateful.searchLocal s interfaceAddresses scope =
      (s.searchLocal interfaceAddresses scope, s) := by
  unfold stateful.searchLocal
  rw [stateful_searchLocal_foldl]
  rfl

theorem stateful_searchGlobalCacheByParticipantId_eq (s : LocalCapabilitiesDirectoryStore)
    (now : Int) (participantId : String) (gbids : List String) (maxCacheAge : Int) :
    stateful.searchGlobalCacheByParticipantId s now participantId gbids maxCacheAge =
      (s.searchGlobalCacheByParticipantId now participantId gbids maxCacheAge, s) := by
  simp only [stateful.searchGlobalCacheByParticipantId,
    stateful.CachingStorage.lookupCacheByParticipantId,
    stateful.CachingStorage.lookupByParticipantId, searchGlobalCacheByParticipantId]
  by_cases hage : maxCacheAge ≥ 0
  · simp only [hage, if_true]
    cases s.globalLookupCache.lookupCacheByParticipantId now participantId maxCacheAge with
    | none => rfl
    | some e => simp only []; split_ifs <;> rfl
  · simp only [hage, if_false]
    cases s.globalLookupCache.lookupByParticipantId participantId with
    | none => rfl
    | some e => simp only []; split_ifs <;> rfl

theorem stateful_searchGlobalCache_foldl (now : Int) (gbids : List String)
    (maxCacheAge : Int) (interfaceAddresses : List InterfaceAddress) :
    ∀ (result : List DiscoveryEntry) (s : LocalCapabilitiesDirectoryStore),
      interfaceAddresses.foldl
        (fun (state : List DiscoveryEntry × LocalCapabilitiesDirectoryStore)
            interfaceAddress =>
          let found := stateful.CachingStorage.lookupCacheByDomainAndInterface
            state.2.globalLookupCache now interfaceAddress.domain interfaceAddress.interface
            maxCacheAge
          let s1 := { state.2 with globalLookupCache := found.2 }
          let entries := found.1
          let filteredEntries := LCDUtil.filterDiscoveryEntriesByGbids entries gbids
            s1.globalParticipantIdsToGbidsMap
          (state.1 ++ filteredEntries, s1))
        (result, s) =
        (result ++ s.searchGlobalCache now interfaceAddresses gbids maxCacheAge, s) := by
  induction interfaceAddresses with
  | nil => intro result s; simp [searchGlobalCache]
  | cons ia rest ih =>
    intro result s
    rw [List.foldl_cons]
    simp only [stateful.CachingStorage.lookupCacheByDomainAndInterface]
    have hstep := ih (result ++ LCDUtil.filterDiscoveryEntriesByGbids
      (s.globalLookupCache.lookupCacheByDomainAndInterface now ia.domain ia.interface
        maxCacheAge) gbids s.globalParticipantIdsToGbidsMap) s
    simp only [stateful.CachingStorage.lookupCacheByDomainAndInterface] at hstep
    rw [hstep]
    simp [searchGlobalCache]

theorem stateful_searchGlobalCache_eq (s : LocalCapabilitiesDirectoryStore) (now : Int)
    (interfaceAddresses : List InterfaceAddress) (gbids : List String) (maxCacheAge : Int) :
    stateful.searchGlobalCache s now interfaceAddresses gbids maxCacheAge =
      (s.searchGlobalCache now interfaceAddresses gbids maxCacheAge, s) := by
  unfold stateful.searchGlobalCache
  rw [stateful_searchGlobalCache_foldl]
  rfl

theorem stateful_getLocalAndCachedCapabilities_eq (s : LocalCapabilitiesDirectoryStore)
    (now : Int) (interfaceAddresses : List InterfaceAddress) (discoveryQos : DiscoveryQos)
    (gbids : List String) (callback : ILocalCapabilitiesCallback) :
    stateful.getLocalAndCachedCapabilities s now interfaceAddresses discoveryQos gbids
        callback =
      (s.getLocalAndCachedCapabilities now interfaceAddresses discoveryQos gbids callback,
        s) := by
  simp only [stateful.getLocalAndCachedCapabilities, stateful_searchLocal_eq,
    stateful_searchGlobalCache_eq, getLocalAndCachedCapabilities]
  split_ifs <;> rfl

theorem stateful_getLocalAndCachedCapabilitiesByParticipantId_eq
    (s : LocalCapabilitiesDirectoryStore) (now : Int) (participantId : String)
    (discoveryQos : DiscoveryQos) (gbids : List String)
    (callback : ILocalCapabilitiesCallback) :
    stateful.getLocalAndCachedCapabilitiesByParticipantId s now participantId discoveryQos
        gbids callback =
      (s.getLocalAndCachedCapabilitiesByParticipantId now participantId discoveryQos gbids
        callback, s) := by
  simp only [stateful.getLocalAndCachedCapabilitiesByParticipantId,
    stateful_searchLocalByParticipantId_eq, stateful_searchGlobalCacheByParticipantId_eq,
    getLocalAndCachedCapabilitiesByParticipantId]
  cases s.searchLocalByParticipantId participantId discoveryQos.discoveryScope with
  | none => simp only []; split_ifs <;> rfl
  | some e => simp only []; split_ifs <;> rfl

/-- The transition function `call` leaves, for every lookup and accessor, the store that
the state passing embedding of the member function computes. -/
theorem call_store_eq_stateful (s : LocalCapabilitiesDirectoryStore) (now : Int)
    (interfaceAddresses : List InterfaceAddress) (participantId : String)
    (discoveryQos : DiscoveryQos) (gbids : List String)
    (callback : ILocalCapabilitiesCallback) (defaultScope : DiscoveryScope) :
    (s.call now (Call.getLocalAndCachedCapabilities interfaceAddresses discoveryQos gbids
        callback)).1 =
        (stateful.getLocalAndCachedCapabilities s now interfaceAddresses discoveryQos gbids
          callback).2 ∧
      (s.call now (Call.getLocalAndCachedCapabilitiesByParticipantId participantId
        discoveryQos gbids callback)).1 =
        (stateful.getLocalAndCachedCapabilitiesByParticipantId s now participantId
          discoveryQos gbids callback).2 ∧
      (s.call now Call.getCachedGlobalDiscoveryEntries).1 =
        (stateful.getCachedGlobalDiscoveryEntries s).2 ∧
      (s.call now Call.countGlobalCapabilities).1 = (stateful.countGlobalCapabilities s).2 ∧
      (s.call now Call.getAllGlobalCapabilities).1 =
        (stateful.getAllGlobalCapabilities s).2 ∧
      (s.call now (Call.getLocalCapabilitiesByParticipantId participantId)).1 =
        (stateful.getLocalCapabilitiesByParticipantId s participantId).2 ∧
      (s.call now (Call.getLocalCapabilities defaultScope interfaceAddresses)).1 =
        (stateful.getLocalCapabilities s defaultScope interfaceAddresses).2 := by
  rw [stateful_getLocalAndCachedCapabilities_eq,
    stateful_getLocalAndCachedCapabilitiesByParticipantId_eq]
  refine ⟨rfl, rfl, rfl, rfl, rfl, rfl, ?_⟩
  simp only [stateful.getLocalCapabilities, stateful_searchLocal_eq, call]

/-- C25: lookups and accessors are read-only. With every member function embedded so that
it returns the store after the call, the store after `getLocalAndCachedCapabilities` (both
variants, every scope, hit or miss), `getCachedGlobalDiscoveryEntries`,
`countGlobalCapabilities`, `getAllGlobalCapabilities` and `getLocalCapabilities` is the
store before the call: the local store, the cache and both maps are unchanged. In
particular every cache row, also one that is too old for the `cacheMaxAge` of the lookup,
is still a row of the cache after the lookup and is listed by a following
`getCachedGlobalDiscoveryEntries`. -/
theorem lookups_and_accessors_are_read_only (s : LocalCapabilitiesDirectoryStore)
    (now : Int) (interfaceAddresses : List InterfaceAddress) (participantId : String)
    (discoveryQos : DiscoveryQos) (gbids : List String)
    (callback : ILocalCapabilitiesCallback) (defaultScope : DiscoveryScope) :
    (stateful.getLocalAndCachedCapabilities s now interfaceAddresses discoveryQos gbids
        callback).2 = s ∧
      (stateful.getLocalAndCachedCapabilitiesByParticipantId s now participantId
        discoveryQos gbids callback).2 = s ∧
      (stateful.getCachedGlobalDiscoveryEntries s).2 = s ∧
      (stateful.countGlobalCapabilities s).2 = s ∧
      (stateful.getAllGlobalCapabilities s).2 = s ∧
      (stateful.getLocalCapabilitiesByParticipantId s participantId).2 = s ∧
      (stateful.getLocalCapabilities s defaultScope interfaceAddresses).2 = s ∧
      (∀ r ∈ s.globalLookupCache.rows,
        r ∈ (stateful.getLocalAndCachedCapabilities s now interfaceAddresses discoveryQos
            gbids callback).2.globalLookupCache.rows ∧
          r.entry ∈ (stateful.getCachedGlobalDiscoveryEntries
            (stateful.getLocalAndCachedCapabilities s now interfaceAddresses discoveryQos
              gbids callback).2).1 ∧
          r ∈ (stateful.getLocalAndCachedCapabilitiesByParticipantId s now participantId
            discoveryQos gbids callback).2.globalLookupCache.rows ∧
          r.entry ∈ (stateful.getCachedGlobalDiscoveryEntries
            (stateful.getLocalAndCachedCapabilitiesByParticipantId s now participantId
              discoveryQos gbids callback).2).1) := by
  have hlisted : ∀ r ∈ s.globalLookupCache.rows,
      r.entry ∈ (stateful.getCachedGlobalDiscoveryEntries s).1 := by
    intro r hr
    simp only [stateful.getCachedGlobalDiscoveryEntries, stateful.CachingStorage.iterate,
      capabilities.CachingStorage.entries]
    exact List.mem_map.mpr ⟨r, hr, rfl⟩
  rw [stateful_getLocalAndCachedCapabilities_eq,
    stateful_getLocalAndCachedCapabilitiesByParticipantId_eq]
  refine ⟨rfl, rfl, rfl, rfl, rfl, rfl, ?_, ?_⟩
  · simp only [stateful.getLocalCapabilities, stateful_searchLocal_eq]
  · intro r hr
    exact ⟨hr, hlisted r hr, hr, hlisted r hr⟩

/-- Witness for C25: "p2" was cached at time 5; at time 100 a lookup by participant id with
`cacheMaxAge = 10` misses, the store after it is the store before it, and the row is listed
by a following `getCachedGlobalDiscoveryEntries`. -/
theorem lookups_and_accessors_are_read_only_witness :
    (stateful.getLocalAndCachedCapabilitiesByParticipantId Examples.storeCachedP2 100 "p2"
        (Examples.qos DiscoveryScope.LOCAL_THEN_GLOBAL 10) ["a"]
        ILocalCapabilitiesCallback.fresh).1 = (false, ILocalCapabilitiesCallback.fresh) ∧
      (stateful.getLocalAndCachedCapabilitiesByParticipantId Examples.storeCachedP2 100 "p2"
        (Examples.qos DiscoveryScope.LOCAL_THEN_GLOBAL 10) ["a"]
        ILocalCapabilitiesCallback.fresh).2 = Examples.storeCachedP2 ∧
      (stateful.getCachedGlobalDiscoveryEntries
        (stateful.getLocalAndCachedCapabilitiesByParticipantId Examples.storeCachedP2 100
          "p2" (Examples.qos DiscoveryScope.LOCAL_THEN_GLOBAL 10) ["a"]
          ILocalCapabilitiesCallback.fresh).2).1 = [Examples.p2] :=
  ⟨by decide,
    (lookups_and_accessors_are_read_only Examples.storeCachedP2 100 [] "p2"
      (Examples.qos DiscoveryScope.LOCAL_THEN_GLOBAL 10) ["a"]
      ILocalCapabilitiesCallback.fresh DiscoveryScope.LOCAL_ONLY).2.1,
    by decide⟩

end LocalCapabilitiesDirectoryStore

namespace ThreadSafeMap

/-! ## `ThreadSafeMap`: `remove` and `take` on a missing key -/

theorem find_eq_none_of_not_contains {Key T : Type} [DecidableEq Key]
    (m : ThreadSafeMap Key T) (key : Key) (h : m.contains key = false) :
    m.find key = none := by
  unfold contains at h
  cases hf : m.find key with
  | none => rfl
  | some b => rw [hf] at h; simp at h

/-- C26: `ThreadSafeMap::remove(key)` erases the position returned by `find(key)` without
comparing it to `end()`. For a key that is not in the map, `find` returns `end()` and the
call reaches the erase of `end()`, which is undefined behaviour, instead of leaving the
map unchanged; `take(key)` on the same missing key is guarded: it does not reach the
erase and leaves the map unchanged, whatever the local `aValue` holds. For a key that is in
the map `remove` does not reach the error. -/
theorem remove_of_missing_key_erases_end {Key T : Type} [DecidableEq Key]
    (m : ThreadSafeMap Key T) (key : Key) (hmissing : m.contains key = false) :
    m.find key = none ∧
      m.remove key = Except.error UndefinedBehaviour.eraseOfEnd ∧
      m.remove key ≠ Except.ok m ∧
      (∀ aValue : T, ∃ returned : T, m.take aValue key = Except.ok (returned, m)) ∧
      (∀ present : Key, m.contains present = true →
        ∃ erased : ThreadSafeMap Key T, m.remove present = Except.ok erased) := by
  have hfind := find_eq_none_of_not_contains m key hmissing
  refine ⟨hfind, ?_, ?_, ?_, ?_⟩
  · unfold remove
    rw [hfind]
    rfl
  · unfold remove
    rw [hfind]
    intro h
    cases h
  · intro aValue
    refine ⟨aValue, ?_⟩
    unfold take
    rw [hfind]
  · intro present hpresent
    unfold contains at hpresent
    cases hf : m.find present with
    | none => rw [hf] at hpresent; simp at hpresent
    | some b =>
      unfold remove
      rw [hf]
      exact ⟨_, rfl⟩

/-- Witness for C26: the map holding only the key "a" does not contain "b". -/
theorem remove_of_missing_key_erases_end_witness :
    ((ThreadSafeMap.empty : ThreadSafeMap String Nat).insert "a" 1).contains "b" = false ∧
      ((ThreadSafeMap.empty : ThreadSafeMap String Nat).insert "a" 1).remove "b" =
        Except.error UndefinedBehaviour.eraseOfEnd ∧
      ∃ returned : Nat,
        ((ThreadSafeMap.empty : ThreadSafeMap String Nat).insert "a" 1).take 7 "b" =
          Except.ok (returned, (ThreadSafeMap.empty : ThreadSafeMap String Nat).insert "a" 1) :=
  ⟨by decide,
    (remove_of_missing_key_erases_end
      ((ThreadSafeMap.empty : ThreadSafeMap String Nat).insert "a" 1) "b" (by decide)).2.1,
    (remove_of_missing_key_erases_end
      ((ThreadSafeMap.empty : ThreadSafeMap String Nat).insert "a" 1) "b"
      (by decide)).2.2.2.1 7⟩

end ThreadSafeMap

namespace LCDUtil

/-! ## Conversions -/

/-- C27: `convert(isLocal, entries)` returns a list of the same length and order as
`entries` whose i-th element has its `isLocal` flag equal to the argument and projects
back to a `DiscoveryEntry` equal to the i-th input, all fields unchanged; the single-entry
overload agrees with the list overload on a one-element list. -/
theorem convert_preserves_entries (isLocal : Bool) (entries : List DiscoveryEntry)
    (entry : DiscoveryEntry) :
    (convert isLocal entries).length = entries.length ∧
      (∀ i : Nat, (convert isLocal entries)[i]? = (entries[i]?).map (convertEntry isLocal)) ∧
      (∀ (i : Nat) (x : DiscoveryEntryWithMetaInfo), (convert isLocal entries)[i]? = some x →
        x.isLocal = isLocal ∧ entries[i]? = some x.toDiscoveryEntry) ∧
      (convert isLocal entries).map (fun x => x.toDiscoveryEntry) = entries ∧
      (convertEntry isLocal entry).isLocal = isLocal ∧
      (convertEntry isLocal entry).toDiscoveryEntry = entry ∧
      convert isLocal [entry] = [convertEntry isLocal entry] := by
  refine ⟨?_, ?_, ?_, convert_map_toDiscoveryEntry isLocal entries, rfl, rfl, rfl⟩
  · unfold convert
    exact List.length_map _ _
  · intro i
    unfold convert
    exact List.getElem?_map _ _ _
  · intro i x hx
    unfold convert at hx
    rw [List.getElem?_map] at hx
    cases he : entries[i]? with
    | none => rw [he] at hx; simp at hx
    | some e =>
      rw [he] at hx
      simp only [Option.map_some', Option.some.injEq] at hx
      subst hx
      exact ⟨rfl, rfl⟩

/-- C28: for every discovery entry `e` and every string `localAddress`,
`toGlobalDiscoveryEntry(e, localAddress)` has its address equal to `localAddress` and
projects back to a `DiscoveryEntry` equal to `e`, field by field. -/
theorem toGlobalDiscoveryEntry_preserves_entry (e : DiscoveryEntry) (localAddress : String) :
    (toGlobalDiscoveryEntry e localAddress).address = localAddress ∧
      (toGlobalDiscoveryEntry e localAddress).toDiscoveryEntry = e ∧
      (toGlobalDiscoveryEntry e localAddress).providerVersion = e.providerVersion ∧
      (toGlobalDiscoveryEntry e localAddress).domain = e.domain ∧
      (toGlobalDiscoveryEntry e localAddress).interfaceName = e.interfaceName ∧
      (toGlobalDiscoveryEntry e localAddress).participantId = e.participantId ∧
      (toGlobalDiscoveryEntry e localAddress).qos = e.qos ∧
      (toGlobalDiscoveryEntry e localAddress).lastSeenDateMs = e.lastSeenDateMs ∧
      (toGlobalDiscoveryEntry e localAddress).expiryDateMs = e.expiryDateMs ∧
      (toGlobalDiscoveryEntry e localAddress).publicKeyId = e.publicKeyId :=
  ⟨rfl, rfl, rfl, rfl, rfl, rfl, rfl, rfl, rfl, rfl⟩

/-- C29: for every list of domains (duplicates included) and every interface name,
`getInterfaceAddresses(domains, interfaceName)` has the same length as `domains`, and its
i-th element is the pair of the i-th domain and `interfaceName`. -/
theorem getInterfaceAddresses_elementwise (domains : List String) (interfaceName : String) :
    (getInterfaceAddresses domains interfaceName).length = domains.length ∧
      (∀ i : Nat, (getInterfaceAddresses domains interfaceName)[i]? =
        (domains[i]?).map (fun domain => { domain := domain, interface := interfaceName })) ∧
      (∀ (i : Nat) (a : InterfaceAddress),
        (getInterfaceAddresses domains interfaceName)[i]? = some a →
          domains[i]? = some a.domain ∧ a.interface = interfaceName) := by
  refine ⟨?_, ?_, ?_⟩
  · unfold getInterfaceAddresses
    exact List.length_map _ _
  · intro i
    unfold getInterfaceAddresses
    exact List.getElem?_map _ _ _
  · intro i a ha
    unfold getInterfaceAddresses at ha
    rw [List.getElem?_map] at ha
    cases hd : domains[i]? with
    | none => rw [hd] at ha; simp at ha
    | some d =>
      rw [hd] at ha
      simp only [Option.map_some', Option.some.injEq] at ha
      subst ha
      exact ⟨rfl, rfl⟩

/-- C30: `containsOnlyEmptyString(gbids)` returns `true` for the one-element list [""] and
`false` for every list that contains at least one non-empty string, for example
["validGbid"] and ["", "validGbid"]. -/
theorem containsOnlyEmptyString_values :
    containsOnlyEmptyString [""] = true ∧
      (∀ gbids : List String, (∃ gbid ∈ gbids, gbid ≠ "") →
        containsOnlyEmptyString gbids = false) ∧
      containsOnlyEmptyString ["validGbid"] = false ∧
      containsOnlyEmptyString ["", "validGbid"] = false := by
  refine ⟨by decide, ?_, by decide, by decide⟩
  intro gbids hne
  obtain ⟨g, hg, hgne⟩ := hne
  unfold containsOnlyEmptyString
  match gbids, hg with
  | [x], hg =>
    simp only [List.mem_singleton] at hg
    subst hg
    simp [hgne]
  | [], hg => simp at hg
  | _ :: _ :: _, _ => simp

end LCDUtil

namespace LCDUtilTest

theorem test_containsOnlyEmptyString :
    LCDUtil.containsOnlyEmptyString [""] = true ∧
      LCDUtil.containsOnlyEmptyString ["validGbid"] = false ∧
      LCDUtil.containsOnlyEmptyString ["", "validGbid"] = false := by
  decide

theorem test_optionalToVector :
    (LCDUtil.optionalToVector none).length = 0 ∧
      LCDUtil.optionalToVector
          (some (entry "domain1" "interface1" "participantId1" ProviderScope.LOCAL)) =
        [entry "domain1" "interface1" "participantId1" ProviderScope.LOCAL] := by
  decide

theorem test_isGlobal :
    LCDUtil.isGlobal (entry "domain1" "interface1" "participantId1" ProviderScope.LOCAL) =
        false ∧
      LCDUtil.isGlobal (entry "domain1" "interface1" "participantId1" ProviderScope.GLOBAL) =
        true := by
  decide

theorem test_getInterfaceAddresses :
    LCDUtil.getInterfaceAddresses ["localDomain", "cachedDomain", "remoteDomain"]
        "myInterfaceName" =
      [⟨"localDomain", "myInterfaceName"⟩, ⟨"cachedDomain", "myInterfaceName"⟩,
        ⟨"remoteDomain", "myInterfaceName"⟩] := by
  decide

theorem test_toGlobalDiscoveryEntry :
    (LCDUtil.toGlobalDiscoveryEntry
        (entry "domain" "interfaceName" "participantId" ProviderScope.GLOBAL)
        "myLocalAddress").address = "myLocalAddress" ∧
      (LCDUtil.toGlobalDiscoveryEntry
        (entry "domain" "interfaceName" "participantId" ProviderScope.GLOBAL)
        "myLocalAddress").toDiscoveryEntry =
        entry "domain" "interfaceName" "participantId" ProviderScope.GLOBAL := by
  decide

theorem test_convertDiscoveryEntryVector (isLocal : Bool) :
    (LCDUtil.convert isLocal
        [entry "domain" "interfaceName" "participantId" ProviderScope.LOCAL,
          entry "domain1" "interfaceName1" "participantId1" ProviderScope.GLOBAL]).map
        (fun x => x.toDiscoveryEntry) =
      [entry "domain" "interfaceName" "participantId" ProviderScope.LOCAL,
        entry "domain1" "interfaceName1" "participantId1" ProviderScope.GLOBAL] ∧
      ∀ x ∈ LCDUtil.convert isLocal
          [entry "domain" "interfaceName" "participantId" ProviderScope.LOCAL,
            entry "domain1" "interfaceName1" "participantId1" ProviderScope.GLOBAL],
        x.isLocal = isLocal := by
  cases isLocal <;> decide

end LCDUtilTest

namespace LocalCapabilitiesDirectoryStore

/-! ## Participants without a recorded `awaitGlobalRegistration` flag -/

theorem mapGbidsToGlobalProviderParticipantId_await (s : LocalCapabilitiesDirectoryStore)
    (participantId : String) (allGbids : List String) :
    (s.mapGbidsToGlobalProviderParticipantId participantId
        allGbids).1.participantIdToAwaitGlobalRegistrationMap =
      s.participantIdToAwaitGlobalRegistrationMap := by
  simp [mapGbidsToGlobalProviderParticipantId]

theorem call_await_find (s : LocalCapabilitiesDirectoryStore) (now : Int) (c : Call)
    (participantId : String)
    (hc : ∀ entry awaitGlobalRegistration gbids,
      c = Call.insertInLocalCapabilitiesStorage entry awaitGlobalRegistration gbids →
        entry.participantId ≠ participantId)
    (hs : s.participantIdToAwaitGlobalRegistrationMap.find participantId = none) :
    (s.call now c).1.participantIdToAwaitGlobalRegistrationMap.find participantId = none := by
  cases c with
  | insertInLocalCapabilitiesStorage entry awaitGlobalRegistration gbids =>
    have hne := hc entry awaitGlobalRegistration gbids rfl
    simp only [call]
    rw [insertInLocalCapabilitiesStorage_await,
      UnorderedMap.find_assign_ne _ _ _ _ (fun h => hne h.symm)]
    exact hs
  | insertInGlobalLookupCache entry gbids =>
    simp only [call, insertInGlobalLookupCache]
    rw [mapGbidsToGlobalProviderParticipantId_await]
    exact hs
  | clear => rfl
  | _ => exact hs

theorem afterCalls_await_find (calls : List (Int × Call)) (participantId : String) :
    ∀ s : LocalCapabilitiesDirectoryStore,
      (∀ c ∈ calls, ∀ entry awaitGlobalRegistration gbids,
        c.2 = Call.insertInLocalCapabilitiesStorage entry awaitGlobalRegistration gbids →
          entry.participantId ≠ participantId) →
      s.participantIdToAwaitGlobalRegistrationMap.find participantId = none →
      (s.afterCalls calls).participantIdToAwaitGlobalRegistrationMap.find participantId =
        none := by
  induction calls with
  | nil => intro s _ hs; exact hs
  | cons c rest ih =>
    intro s hc hs
    obtain ⟨now, c⟩ := c
    simp only [afterCalls]
    apply ih
    · intro c' hc'
      exact hc c' (List.mem_cons_of_mem _ hc')
    · exact call_await_find s now c participantId
        (fun e a g h => hc (now, c) (List.mem_cons_self _ _) e a g h) hs

/-- C32: `getAwaitGlobalRegistration(participantId)` returns false for every participant id
without a recorded flag: in every store whose flag map has no binding of the id, hence
after any sequence of calls on the initial store none of which inserts an entry of that id
in the local store, after `eraseParticipantIdToAwaitGlobalRegistrationMapping` of the id,
and after `clear()`. -/
theorem getAwaitGlobalRegistration_false_of_unknown (s : LocalCapabilitiesDirectoryStore)
    (participantId : String) :
    (s.participantIdToAwaitGlobalRegistrationMap.find participantId = none →
        s.getAwaitGlobalRegistration participantId = false) ∧
      (∀ calls : List (Int × Call),
        (∀ c ∈ calls, ∀ entry awaitGlobalRegistration gbids,
          c.2 = Call.insertInLocalCapabilitiesStorage entry awaitGlobalRegistration gbids →
            entry.participantId ≠ participantId) →
        (init.afterCalls calls).getAwaitGlobalRegistration participantId = false) ∧
      (s.eraseParticipantIdToAwaitGlobalRegistrationMapping
          participantId).getAwaitGlobalRegistration participantId = false ∧
      s.clear.getAwaitGlobalRegistration participantId = false := by
  have hnone : ∀ t : LocalCapabilitiesDirectoryStore,
      t.participantIdToAwaitGlobalRegistrationMap.find participantId = none →
        t.getAwaitGlobalRegistration participantId = false := by
    intro t ht
    simp only [getAwaitGlobalRegistration, ht]
  refine ⟨hnone s, ?_, ?_, ?_⟩
  · intro calls hcalls
    exact hnone _ (afterCalls_await_find calls participantId init hcalls
      (UnorderedMap.find_empty participantId))
  · apply hnone
    simp only [eraseParticipantIdToAwaitGlobalRegistrationMapping]
    exact UnorderedMap.find_erase_self _ _
  · apply hnone
    exact UnorderedMap.find_empty participantId

/-! ## The by-participant cache search with a negative `cacheMaxAge` -/

/-- C34: for a negative `cacheMaxAge` the by-participant `searchGlobalCache` is the
unbounded `lookupByParticipantId` of the cache followed by the gbid filter: the cached
entry of the participant id is returned if and only if it passes `isEntryForGbid`,
whatever the time of the search and the time of the insertion of the row. -/
theorem searchGlobalCacheByParticipantId_negative_cacheMaxAge
    (s : LocalCapabilitiesDirectoryStore) (now : Int) (participantId : String)
    (gbids : List String) (maxCacheAge : Int) (hneg : maxCacheAge < 0) :
    s.searchGlobalCacheByParticipantId now participantId gbids maxCacheAge =
      (s.globalLookupCache.lookupByParticipantId participantId).filter
        (fun e => LCDUtil.isEntryForGbid e gbids s.globalParticipantIdsToGbidsMap) := by
  have hage : ¬ maxCacheAge ≥ 0 := by omega
  simp only [searchGlobalCacheByParticipantId, if_neg hage]
  cases s.globalLookupCache.lookupByParticipantId participantId with
  | none => rfl
  | some e =>
    by_cases hpass : LCDUtil.isEntryForGbid e gbids s.globalParticipantIdsToGbidsMap = true
    · simp [Option.filter, hpass]
    · simp [Option.filter, hpass]

theorem searchGlobalCacheByParticipantId_negative_cacheMaxAge_witness :
    Examples.storeCachedP2.searchGlobalCacheByParticipantId 100 "p2" ["a"] (-1) =
      (Examples.storeCachedP2.globalLookupCache.lookupByParticipantId "p2").filter
        (fun e => LCDUtil.isEntryForGbid e ["a"]
          Examples.storeCachedP2.globalParticipantIdsToGbidsMap) :=
  searchGlobalCacheByParticipantId_negative_cacheMaxAge Examples.storeCachedP2 100 "p2"
    ["a"] (-1) (by decide)

/-! ## Local registration of an entry of local scope and the gbids map -/

/-- C35: `insertInLocalCapabilitiesStorage` of a LOCAL-scope entry writes no gbid mapping.
If the cache holds no row of the participant id, the participant id to gbids map is left
unchanged, so that a mapping of the id made earlier is still returned by
`getGbidsForParticipantId`. If the cache holds such a row, the map afterwards is the map
before with the mapping of the id erased: the id has no mapping and every other id keeps
its mapping. -/
theorem insertInLocalCapabilitiesStorage_LOCAL_writes_no_gbids
    (s : LocalCapabilitiesDirectoryStore) (entry : DiscoveryEntry)
    (awaitGlobalRegistration : Bool) (gbids : List String)
    (hscope : entry.qos.scope = ProviderScope.LOCAL) :
    (s.globalLookupCache.lookupByParticipantId entry.participantId = none →
        (s.insertInLocalCapabilitiesStorage entry awaitGlobalRegistration
            gbids).globalParticipantIdsToGbidsMap = s.globalParticipantIdsToGbidsMap ∧
          (s.insertInLocalCapabilitiesStorage entry awaitGlobalRegistration
            gbids).getGbidsForParticipantId entry.participantId =
            s.getGbidsForParticipantId entry.participantId) ∧
      ((s.globalLookupCache.lookupByParticipantId entry.participantId).isSome = true →
        (s.insertInLocalCapabilitiesStorage entry awaitGlobalRegistration
            gbids).globalParticipantIdsToGbidsMap =
            s.globalParticipantIdsToGbidsMap.erase entry.participantId ∧
          (s.insertInLocalCapabilitiesStorage entry awaitGlobalRegistration
            gbids).globalParticipantIdsToGbidsMap.find entry.participantId = none ∧
          ∀ other, other ≠ entry.participantId →
            (s.insertInLocalCapabilitiesStorage entry awaitGlobalRegistration
              gbids).globalParticipantIdsToGbidsMap.find other =
              s.globalParticipantIdsToGbidsMap.find other) := by
  have hglobal : LCDUtil.isGlobal entry = false := by
    simp [LCDUtil.isGlobal, hscope]
  have hmap := insertInLocalCapabilitiesStorage_gbidsMap s entry awaitGlobalRegistration gbids
  rw [hglobal] at hmap
  simp only [Bool.false_eq_true, if_false] at hmap
  constructor
  · intro hnone
    rw [hnone] at hmap
    simp only [Option.isSome_none, Bool.false_eq_true, if_false] at hmap
    refine ⟨hmap, ?_⟩
    simp only [getGbidsForParticipantId, hmap]
  · intro hsome
    rw [hsome] at hmap
    simp only [if_true, eraseParticipantIdToGbidMapping] at hmap
    refine ⟨hmap, ?_, ?_⟩
    · rw [hmap]
      exact UnorderedMap.find_erase_self _ _
    · intro other hother
      rw [hmap]
      exact UnorderedMap.find_erase_ne _ _ _ hother

theorem insertInLocalCapabilitiesStorage_LOCAL_writes_no_gbids_witness :
    (Examples.storeLocalP1.insertInLocalCapabilitiesStorage
        (Examples.entry "d" "i" "p1" ProviderScope.LOCAL) false
        ["b"]).getGbidsForParticipantId "p1" = ["a"] ∧
      (Examples.storeCachedP2.insertInLocalCapabilitiesStorage
        (Examples.entry "d" "i" "p2" ProviderScope.LOCAL) false
        ["b"]).globalParticipantIdsToGbidsMap.find "p2" = none :=
  ⟨((insertInLocalCapabilitiesStorage_LOCAL_writes_no_gbids Examples.storeLocalP1
      (Examples.entry "d" "i" "p1" ProviderScope.LOCAL) false ["b"] rfl).1
      (by decide)).2.trans (by decide),
    ((insertInLocalCapabilitiesStorage_LOCAL_writes_no_gbids Examples.storeCachedP2
      (Examples.entry "d" "i" "p2" ProviderScope.LOCAL) false ["b"] rfl).2
      (by decide)).2.1⟩

/-! ## Counting the global capabilities -/

theorem foldl_count_global (entries : List DiscoveryEntry) :
    ∀ counter : Nat,
      entries.foldl
        (fun counter capability =>
          if capability.qos.scope = ProviderScope.GLOBAL then counter + 1 else counter)
        counter =
        counter +
          (entries.filter (fun e => decide (e.qos.scope = ProviderScope.GLOBAL))).length := by
  induction entries with
  | nil => intro counter; rfl
  | cons e rest ih =>
    intro counter
    rw [List.foldl_cons, ih, List.filter_cons]
    by_cases h : e.qos.scope = ProviderScope.GLOBAL
    · have hd : decide (e.qos.scope = ProviderScope.GLOBAL) = true := by simp [h]
      rw [if_pos h, hd]
      simp only [if_true, List.length_cons]
      omega
    · have hd : decide (e.qos.scope = ProviderScope.GLOBAL) = false := by simp [h]
      rw [if_neg h, hd]
      simp only [Bool.false_eq_true, if_false]

theorem foldl_collect_global (entries : List DiscoveryEntry) :
    ∀ allGlobalEntries : List DiscoveryEntry,
      entries.foldl
        (fun allGlobalEntries capability =>
          if LCDUtil.isGlobal capability then allGlobalEntries ++ [capability]
          else allGlobalEntries)
        allGlobalEntries =
        allGlobalEntries ++
          entries.filter (fun e => decide (e.qos.scope = ProviderScope.GLOBAL)) := by
  induction entries with
  | nil => intro acc; simp
  | cons e rest ih =>
    intro acc
    rw [List.foldl_cons, ih, List.filter_cons]
    by_cases h : e.qos.scope = ProviderScope.GLOBAL
    · have hd : decide (e.qos.scope = ProviderScope.GLOBAL) = true := by simp [h]
      have hg : LCDUtil.isGlobal e = true := by simp [LCDUtil.isGlobal, h]
      rw [hd, hg]
      simp
    · have hd : decide (e.qos.scope = ProviderScope.GLOBAL) = false := by simp [h]
      have hg : LCDUtil.isGlobal e = false := by simp [LCDUtil.isGlobal, h]
      rw [hd, hg]
      simp

/-- C36: in every store state `countGlobalCapabilities()` is the length of
`getAllGlobalCapabilities()`; the latter is the list of the entries of the local store
whose provider scope is GLOBAL, in the order of the store, so both equal the number of
these entries. The cache rows are not counted: two stores with the same local store give
the same count and the same list, whatever their caches. -/
theorem countGlobalCapabilities_eq_length_getAllGlobalCapabilities
    (s : LocalCapabilitiesDirectoryStore) :
    s.countGlobalCapabilities = s.getAllGlobalCapabilities.length ∧
      s.getAllGlobalCapabilities =
        s.locallyRegisteredCapabilities.entries.filter
          (fun e => decide (e.qos.scope = ProviderScope.GLOBAL)) ∧
      s.countGlobalCapabilities =
        s.locallyRegisteredCapabilities.entries.countP
          (fun e => decide (e.qos.scope = ProviderScope.GLOBAL)) ∧
      ∀ t : LocalCapabilitiesDirectoryStore,
        t.locallyRegisteredCapabilities = s.locallyRegisteredCapabilities →
          t.countGlobalCapabilities = s.countGlobalCapabilities ∧
            t.getAllGlobalCapabilities = s.getAllGlobalCapabilities := by
  have hcount : ∀ t : LocalCapabilitiesDirectoryStore, t.countGlobalCapabilities =
      (t.locallyRegisteredCapabilities.entries.filter
        (fun e => decide (e.qos.scope = ProviderScope.GLOBAL))).length := by
    intro t
    simp only [countGlobalCapabilities]
    rw [foldl_count_global, Nat.zero_add]
  have hall : ∀ t : LocalCapabilitiesDirectoryStore, t.getAllGlobalCapabilities =
      t.locallyRegisteredCapabilities.entries.filter
        (fun e => decide (e.qos.scope = ProviderScope.GLOBAL)) := by
    intro t
    simp only [getAllGlobalCapabilities]
    rw [foldl_collect_global, List.nil_append]
  refine ⟨?_, hall s, ?_, ?_⟩
  · rw [hcount, hall]
  · rw [hcount, List.countP_eq_length_filter]
  · intro t ht
    rw [hcount t, hcount s, hall t, hall s, ht]
    exact ⟨rfl, rfl⟩

/-! ## Lookups of scope `LOCAL_ONLY` -/

theorem not_LOCAL_ONLY_mem_includeGlobalScopes :
    DiscoveryScope.LOCAL_ONLY ∉ includeGlobalScopes := by
  decide

/-- C37: a `LOCAL_ONLY` lookup depends neither on the cache nor on the gbids. For two
stores with the same local store, whatever their caches and gbid maps, two gbid lists, two
qos of scope `LOCAL_ONLY` (of any `cacheMaxAge`) and two times of the call, each variant
of `getLocalAndCachedCapabilities` returns the same value and leaves the same callback,
that is, delivers the same result. -/
theorem getLocalAndCachedCapabilities_LOCAL_ONLY_independent_of_cache
    (s1 s2 : LocalCapabilitiesDirectoryStore) (now1 now2 : Int)
    (interfaceAddresses : List InterfaceAddress) (participantId : String)
    (qos1 qos2 : DiscoveryQos) (gbids1 gbids2 : List String)
    (callback : ILocalCapabilitiesCallback)
    (hlocal : s1.locallyRegisteredCapabilities = s2.locallyRegisteredCapabilities)
    (hscope1 : qos1.discoveryScope = DiscoveryScope.LOCAL_ONLY)
    (hscope2 : qos2.discoveryScope = DiscoveryScope.LOCAL_ONLY) :
    s1.getLocalAndCachedCapabilities now1 interfaceAddresses qos1 gbids1 callback =
        s2.getLocalAndCachedCapabilities now2 interfaceAddresses qos2 gbids2 callback ∧
      s1.getLocalAndCachedCapabilitiesByParticipantId now1 participantId qos1 gbids1
          callback =
        s2.getLocalAndCachedCapabilitiesByParticipantId now2 participantId qos2 gbids2
          callback := by
  constructor
  · simp only [getLocalAndCachedCapabilities, hscope1, hscope2,
      if_neg not_LOCAL_ONLY_mem_includeGlobalScopes, searchLocal, hlocal]
  · simp only [getLocalAndCachedCapabilitiesByParticipantId, hscope1, hscope2,
      if_neg not_LOCAL_ONLY_mem_includeGlobalScopes, searchLocalByParticipantId, hlocal]

theorem getLocalAndCachedCapabilities_LOCAL_ONLY_independent_of_cache_witness :
    Examples.storeLocalP1.getLocalAndCachedCapabilities 7 [Examples.address]
        (Examples.qos DiscoveryScope.LOCAL_ONLY 0) ["a"] ILocalCapabilitiesCallback.fresh =
        Examples.storeLocalP1CachedP2.getLocalAndCachedCapabilities 100 [Examples.address]
          (Examples.qos DiscoveryScope.LOCAL_ONLY 50) ["b"]
          ILocalCapabilitiesCallback.fresh ∧
      Examples.storeLocalP1.getLocalAndCachedCapabilitiesByParticipantId 7 "p2"
          (Examples.qos DiscoveryScope.LOCAL_ONLY 0) ["a"]
          ILocalCapabilitiesCallback.fresh =
        Examples.storeLocalP1CachedP2.getLocalAndCachedCapabilitiesByParticipantId 100 "p2"
          (Examples.qos DiscoveryScope.LOCAL_ONLY 50) ["b"]
          ILocalCapabilitiesCallback.fresh :=
  getLocalAndCachedCapabilities_LOCAL_ONLY_independent_of_cache Examples.storeLocalP1
    Examples.storeLocalP1CachedP2 7 100 [Examples.address] "p2"
    (Examples.qos DiscoveryScope.LOCAL_ONLY 0) (Examples.qos DiscoveryScope.LOCAL_ONLY 50)
    ["a"] ["b"] ILocalCapabilitiesCallback.fresh (by decide) rfl rfl

/-! ## The shape of the merged gbid list -/

theorem foldl_merge_shape (old : List String) :
    ∀ acc : List String, ∃ rest : List String,
      old.foldl (fun acc gbid => if gbid ∉ acc then acc ++ [gbid] else acc) acc =
          acc ++ rest ∧
        rest.Sublist old ∧ rest.Nodup ∧ (∀ g ∈ rest, g ∉ acc) := by
  induction old with
  | nil =>
    intro acc
    exact ⟨[], by simp, List.Sublist.refl _, List.nodup_nil, by simp⟩
  | cons x old ih =>
    intro acc
    rw [List.foldl_cons]
    by_cases hx : x ∈ acc
    · obtain ⟨rest, heq, hsub, hnodup, hnot⟩ := ih acc
      refine ⟨rest, ?_, hsub.cons x, hnodup, hnot⟩
      simp only [hx, not_true_eq_false, if_false]
      exact heq
    · obtain ⟨rest, heq, hsub, hnodup, hnot⟩ := ih (acc ++ [x])
      refine ⟨x :: rest, ?_, hsub.cons₂ x, ?_, ?_⟩
      · simp only [hx, not_false_eq_true, if_true]
        rw [heq]
        simp
      · rw [List.nodup_cons]
        refine ⟨?_, hnodup⟩
        intro hmem
        exact hnot x hmem (by simp)
      · intro g hg
        rcases List.mem_cons.mp hg with rfl | hg
        · exact hx
        · intro hacc
          exact hnot g hg (List.mem_append_left _ hacc)

theorem foldl_merge_of_nodup (old : List String) :
    ∀ acc : List String, old.Nodup →
      old.foldl (fun acc gbid => if gbid ∉ acc then acc ++ [gbid] else acc) acc =
        acc ++ old.filter (fun gbid => decide (gbid ∉ acc)) := by
  induction old with
  | nil => intro acc _; simp
  | cons x old ih =>
    intro acc hnodup
    rw [List.nodup_cons] at hnodup
    obtain ⟨hxold, hold⟩ := hnodup
    rw [List.foldl_cons, List.filter_cons]
    by_cases hx : x ∈ acc
    · have hd : decide (x ∉ acc) = false := by simp [hx]
      rw [hd]
      simp only [hx, not_true_eq_false, if_false, Bool.false_eq_true]
      exact ih acc hold
    · have hd : decide (x ∉ acc) = true := by simp [hx]
      rw [hd]
      simp only [hx, not_false_eq_true, if_true]
      rw [ih (acc ++ [x]) hold]
      have hfilter : old.filter (fun gbid => decide (gbid ∉ acc ++ [x])) =
          old.filter (fun gbid => decide (gbid ∉ acc)) := by
        apply List.filter_congr
        intro g hg
        have hgx : g ≠ x := fun h => hxold (h ▸ hg)
        simp [hgx]
      rw [hfilter]
      simp

theorem foldl_merge_of_subset (old : List String) :
    ∀ acc : List String, (∀ g ∈ old, g ∈ acc) →
      old.foldl (fun acc gbid => if gbid ∉ acc then acc ++ [gbid] else acc) acc = acc := by
  induction old with
  | nil => intro acc _; rfl
  | cons x old ih =>
    intro acc h
    rw [List.foldl_cons]
    have hx : x ∈ acc := h x (List.mem_cons_self _ _)
    simp only [hx, not_true_eq_false, if_false]
    exact ih acc (fun g hg => h g (List.mem_cons_of_mem _ hg))

theorem foldl_merge_idempotent (old gbids : List String) :
    (old.foldl (fun acc gbid => if gbid ∉ acc then acc ++ [gbid] else acc) gbids).foldl
        (fun acc gbid => if gbid ∉ acc then acc ++ [gbid] else acc) gbids =
      old.foldl (fun acc gbid => if gbid ∉ acc then acc ++ [gbid] else acc) gbids := by
  obtain ⟨rest, heq, _, hnodup, hnot⟩ := foldl_merge_shape old gbids
  rw [heq, List.foldl_append, foldl_merge_of_subset gbids gbids (fun g hg => hg),
    foldl_merge_of_nodup rest gbids hnodup]
  congr 1
  rw [List.filter_eq_self]
  intro g hg
  simpa using hnot g hg

/-- C33: the shape of the gbid merge. `mapGbidsToGlobalProviderParticipantId(id, gbids)`
stores for `id` the supplied gbids in their given order, followed by the previously mapped
gbids that are not among them, each once, in their previous order: the appended part is a
duplicate-free sublist of the previous list whose members are exactly the previous gbids
that were not supplied, and it is the previous list without the supplied gbids when the
previous list is duplicate-free. Hence the stored list is duplicate-free whenever the
supplied list is, and a second merge of the same gbids stores the same list again. -/
theorem mapGbidsToGlobalProviderParticipantId_shape (s : LocalCapabilitiesDirectoryStore)
    (participantId : String) (gbids : List String) :
    (∃ rest : List String,
        (s.mapGbidsToGlobalProviderParticipantId participantId
            gbids).1.getGbidsForParticipantId participantId = gbids ++ rest ∧
          rest.Sublist (s.getGbidsForParticipantId participantId) ∧ rest.Nodup ∧
          ∀ g, g ∈ rest ↔ g ∈ s.getGbidsForParticipantId participantId ∧ g ∉ gbids) ∧
      ((s.getGbidsForParticipantId participantId).Nodup →
        (s.mapGbidsToGlobalProviderParticipantId participantId
            gbids).1.getGbidsForParticipantId participantId =
          gbids ++ (s.getGbidsForParticipantId participantId).filter
            (fun gbid => decide (gbid ∉ gbids))) ∧
      (gbids.Nodup →
        ((s.mapGbidsToGlobalProviderParticipantId participantId
            gbids).1.getGbidsForParticipantId participantId).Nodup) ∧
      ((s.mapGbidsToGlobalProviderParticipantId participantId
            gbids).1.mapGbidsToGlobalProviderParticipantId participantId
            gbids).1.getGbidsForParticipantId participantId =
        (s.mapGbidsToGlobalProviderParticipantId participantId
            gbids).1.getGbidsForParticipantId participantId ∧
      (s.mapGbidsToGlobalProviderParticipantId participantId gbids).2 =
        (s.mapGbidsToGlobalProviderParticipantId participantId
            gbids).1.getGbidsForParticipantId participantId := by
  refine ⟨?_, ?_, ?_, ?_, ?_⟩
  · obtain ⟨rest, heq, hsub, hnodup, hnot⟩ :=
      foldl_merge_shape (s.getGbidsForParticipantId participantId) gbids
    refine ⟨rest, ?_, hsub, hnodup, ?_⟩
    · rw [mapGbidsToGlobalProviderParticipantId_getGbids_self, heq]
    · intro g
      constructor
      · intro hg
        exact ⟨hsub.subset hg, hnot g hg⟩
      · rintro ⟨hold, hnew⟩
        have hmem := (mem_foldl_merge (s.getGbidsForParticipantId participantId) gbids
          g).mpr (Or.inr hold)
        rw [heq, List.mem_append] at hmem
        rcases hmem with h | h
        · exact absurd h hnew
        · exact h
  · intro hnodup
    rw [mapGbidsToGlobalProviderParticipantId_getGbids_self]
    exact foldl_merge_of_nodup _ gbids hnodup
  · intro hnodup
    rw [mapGbidsToGlobalProviderParticipantId_getGbids_self]
    exact nodup_foldl_merge _ gbids hnodup
  · rw [mapGbidsToGlobalProviderParticipantId_getGbids_self,
      mapGbidsToGlobalProviderParticipantId_getGbids_self]
    exact foldl_merge_idempotent _ gbids
  · simp only [mapGbidsToGlobalProviderParticipantId, getGbidsForParticipantId,
      UnorderedMap.find_assign_self]

end LocalCapabilitiesDirectoryStore

namespace ThreadSafeMap

/-! ## `ThreadSafeMap`: `insert` and `take` -/

theorem find_key {Key T : Type} [DecidableEq Key] (m : ThreadSafeMap Key T) (key : Key)
    (b : Key × T) (h : m.find key = some b) : b.1 = key ∧ b ∈ m.map := by
  unfold find at h
  exact ⟨by simpa using List.find?_some h, List.mem_of_find?_eq_some h⟩

theorem find_append_singleton_ne {Key T : Type} [DecidableEq Key] (l : List (Key × T))
    (key other : Key) (value : T) (h : other ≠ key) :
    (l ++ [(key, value)]).find? (fun b => decide (b.1 = other)) =
      l.find? (fun b => decide (b.1 = other)) := by
  rw [List.find?_append]
  have hk : ¬ key = other := fun h2 => h h2.symm
  cases l.find? (fun b => decide (b.1 = other)) with
  | none => simp [List.find?, hk]
  | some b => rfl

theorem find_filter_ne {Key T : Type} [DecidableEq Key] (l : List (Key × T))
    (key other : Key) (h : other ≠ key) :
    (l.filter (fun x => decide (x.1 ≠ key))).find? (fun b => decide (b.1 = other)) =
      l.find? (fun b => decide (b.1 = other)) := by
  induction l with
  | nil => rfl
  | cons x rest ih =>
    rw [List.filter_cons]
    by_cases hx : x.1 = key
    · have hd : decide (x.1 ≠ key) = false := by simp [hx]
      have ho : decide (x.1 = other) = false := by
        simp only [decide_eq_false_iff_not]
        intro h2
        exact h (h2.symm.trans hx)
      rw [hd]
      simp only [Bool.false_eq_true, if_false]
      rw [ih, List.find?_cons, ho]
    · have hd : decide (x.1 ≠ key) = true := by simp [hx]
      rw [hd]
      simp only [if_true]
      rw [List.find?_cons, List.find?_cons, ih]

theorem find_filter_self {Key T : Type} [DecidableEq Key] (l : List (Key × T)) (key : Key) :
    (l.filter (fun x => decide (x.1 ≠ key))).find? (fun b => decide (b.1 = key)) = none := by
  rw [List.find?_eq_none]
  intro x hx
  have := (List.mem_filter.mp hx).2
  simpa using this

theorem length_filter_ne {Key T : Type} [DecidableEq Key] (l : List (Key × T)) (key : Key)
    (hkeys : (l.map (fun b => b.1)).Nodup) (hmem : key ∈ l.map (fun b => b.1)) :
    (l.filter (fun x => decide (x.1 ≠ key))).length + 1 = l.length := by
  induction l with
  | nil => simp at hmem
  | cons x rest ih =>
    rw [List.map_cons, List.nodup_cons] at hkeys
    obtain ⟨hx, hrest⟩ := hkeys
    rw [List.filter_cons]
    by_cases hk : x.1 = key
    · have hd : decide (x.1 ≠ key) = false := by simp [hk]
      rw [hd]
      simp only [Bool.false_eq_true, if_false, List.length_cons]
      have hall : rest.filter (fun x => decide (x.1 ≠ key)) = rest := by
        rw [List.filter_eq_self]
        intro y hy
        simp only [ne_eq, decide_eq_true_eq]
        intro hyk
        apply hx
        rw [hk, ← hyk]
        exact List.mem_map_of_mem _ hy
      rw [hall]
    · have hd : decide (x.1 ≠ key) = true := by simp [hk]
      rw [hd]
      simp only [if_true, List.length_cons]
      have hmem2 : key ∈ rest.map (fun b => b.1) := by
        rw [List.map_cons, List.mem_cons] at hmem
        rcases hmem with h | h
        · exact absurd h.symm hk
        · exact h
      rw [ih hrest hmem2]

theorem keysDistinct_empty {Key T : Type} : (empty : ThreadSafeMap Key T).keysDistinct :=
  List.nodup_nil

theorem insert_keysDistinct {Key T : Type} [DecidableEq Key] (m : ThreadSafeMap Key T)
    (key : Key) (value : T) (hkeys : m.keysDistinct) : (m.insert key value).keysDistinct := by
  unfold insert
  cases hf : m.find key with
  | some b => exact hkeys
  | none =>
    unfold keysDistinct at *
    simp only [List.map_append, List.map_cons, List.map_nil]
    rw [List.nodup_append]
    refine ⟨hkeys, List.nodup_singleton _, ?_⟩
    intro k hk hk2
    rw [List.mem_singleton] at hk2
    subst hk2
    obtain ⟨b, hb, hbk⟩ := List.mem_map.mp hk
    unfold find at hf
    rw [List.find?_eq_none] at hf
    exact hf b hb (by simpa using hbk)

theorem filter_keysDistinct {Key T : Type} [DecidableEq Key] (m : ThreadSafeMap Key T)
    (key : Key) (hkeys : m.keysDistinct) :
    (⟨m.map.filter (fun x => decide (x.1 ≠ key))⟩ : ThreadSafeMap Key T).keysDistinct := by
  unfold keysDistinct at *
  exact (List.filter_sublist m.map).map _ |>.nodup hkeys

/-- C38: `ThreadSafeMap::insert(key, value)` does not overwrite. If the key is present the
map is unchanged and `value(key)` still returns the value stored before; if the key is
absent the map gains exactly the binding of `key` to `value`, `value(key)` returns `value`
and `size()` grows by one. In both cases `find`, `value` and `contains` of every other key
are unchanged and `contains(key)` is true afterwards. -/
theorem insert_does_not_overwrite {Key T : Type} [DecidableEq Key]
    (m : ThreadSafeMap Key T) (key : Key) (value : T) :
    (m.contains key = true →
        m.insert key value = m ∧
          (∃ old : T, m.value key = Except.ok old ∧
            (m.insert key value).value key = Except.ok old) ∧
          (m.insert key value).size = m.size) ∧
      (m.contains key = false →
        (m.insert key value).map = m.map ++ [(key, value)] ∧
          (m.insert key value).value key = Except.ok value ∧
          (m.insert key value).size = m.size + 1) ∧
      (∀ other : Key, other ≠ key →
        (m.insert key value).find other = m.find other ∧
          (m.insert key value).value other = m.value other ∧
          (m.insert key value).contains other = m.contains other) ∧
      (m.insert key value).contains key = true := by
  have hother : ∀ other : Key, other ≠ key →
      (m.insert key value).find other = m.find other := by
    intro other hne
    unfold insert
    cases hf : m.find key with
    | some b => rfl
    | none =>
      unfold find
      exact find_append_singleton_ne m.map key other value hne
  have hself : m.find key = none →
      (m.insert key value).find key = some (key, value) := by
    intro hf
    unfold insert
    rw [hf]
    unfold find at hf ⊢
    rw [List.find?_append, hf]
    simp [List.find?]
  refine ⟨?_, ?_, ?_, ?_⟩
  · intro hpresent
    unfold contains at hpresent
    cases hf : m.find key with
    | none => rw [hf] at hpresent; simp at hpresent
    | some b =>
      have hins : m.insert key value = m := by
        unfold insert
        rw [hf]
      refine ⟨hins, ⟨b.2, ?_, ?_⟩, by rw [hins]⟩
      · simp only [ThreadSafeMap.value, hf]
      · rw [hins]
        simp only [ThreadSafeMap.value, hf]
  · intro habsent
    have hf := find_eq_none_of_not_contains m key habsent
    refine ⟨?_, ?_, ?_⟩
    · unfold insert
      rw [hf]
    · simp only [ThreadSafeMap.value, hself hf]
    · unfold insert size
      rw [hf]
      simp
  · intro other hne
    refine ⟨hother other hne, ?_, ?_⟩
    · simp only [ThreadSafeMap.value, hother other hne]
    · unfold contains
      rw [hother other hne]
  · unfold contains
    cases hf : m.find key with
    | none => rw [hself hf]; rfl
    | some b =>
      unfold insert
      rw [hf]
      simp only [hf, Option.isSome_some]

/-- C39: `ThreadSafeMap::take(key)`. If the key is present, `take` returns the stored value
and removes exactly that binding: `contains(key)` is false afterwards, `size()` has dropped
by one, and `find` of every other key is unchanged. If the key is absent, `take` leaves the
map unchanged and returns its local `aValue` as declared, never assigned: whatever the
variable holds, which is a default constructed value only when `T` is a class type. The
keys of the map are pairwise distinct, as in every `std::map`, and they remain so. -/
theorem take_removes_exactly_the_binding {Key T : Type} [DecidableEq Key]
    (m : ThreadSafeMap Key T) (aValue : T) (key : Key) (hkeys : m.keysDistinct) :
    (m.contains key = true →
        ∃ (stored : T) (rest : ThreadSafeMap Key T),
          m.value key = Except.ok stored ∧
            m.take aValue key = Except.ok (stored, rest) ∧
            rest.contains key = false ∧
            rest.size + 1 = m.size ∧
            (∀ other : Key, other ≠ key → rest.find other = m.find other) ∧
            rest.keysDistinct) ∧
      (m.contains key = false → m.take aValue key = Except.ok (aValue, m)) := by
  constructor
  · intro hpresent
    unfold contains at hpresent
    cases hf : m.find key with
    | none => rw [hf] at hpresent; simp at hpresent
    | some b =>
      obtain ⟨hbk, hbm⟩ := find_key m key b hf
      refine ⟨b.2, ⟨m.map.filter (fun x => decide (x.1 ≠ key))⟩, ?_, ?_, ?_, ?_, ?_, ?_⟩
      · unfold value
        rw [hf]
      · unfold take
        simp only [hf, erase, hbk]
      · unfold contains find
        simp only [find_filter_self, Option.isSome_none]
      · unfold size
        apply length_filter_ne m.map key hkeys
        rw [← hbk]
        exact List.mem_map_of_mem _ hbm
      · intro other hne
        unfold find
        exact find_filter_ne m.map key other hne
      · exact filter_keysDistinct m key hkeys
  · intro habsent
    unfold take
    rw [find_eq_none_of_not_contains m key habsent]

/-- Witness for C39, on the map with the bindings of "a" to 1 and of "b" to 2. Taking "a"
returns 1 and leaves the binding of "b". Taking the missing key "c" when the local `aValue`
holds 32766 returns 32766, which is not the default constructed value 0, and leaves the
map unchanged. -/
theorem take_removes_exactly_the_binding_witness :
    (((ThreadSafeMap.empty : ThreadSafeMap String Nat).insert "a" 1).insert "b"
        2).keysDistinct ∧
      (((ThreadSafeMap.empty : ThreadSafeMap String Nat).insert "a" 1).insert "b" 2).take
          32766 "a" = Except.ok (1, ⟨[("b", 2)]⟩) ∧
      (((ThreadSafeMap.empty : ThreadSafeMap String Nat).insert "a" 1).insert "b" 2).take
          32766 "c" = Except.ok (32766, ⟨[("a", 1), ("b", 2)]⟩) ∧
      (32766 : Nat) ≠ default :=
  ⟨by decide, rfl,
    ((take_removes_exactly_the_binding
      (((ThreadSafeMap.empty : ThreadSafeMap String Nat).insert "a" 1).insert "b" 2) 32766
      "c" (by decide)).2 (by decide)).trans rfl,
    by decide⟩

end ThreadSafeMap

namespace CapabilitiesRegistrar

/-! ## The order of the effects of `CapabilitiesRegistrar::removeAsync` -/

theorem foldl_removeRequestCaller (dispatcherList : List IDispatcher)
    (participantId : String) :
    ∀ effects : Effects,
      dispatcherList.foldl
        (fun effects currentDispatcher =>
          currentDispatcher.removeRequestCaller participantId effects) effects =
        effects ++
          dispatcherList.map (fun d => Effect.removeRequestCaller d.name participantId) := by
  induction dispatcherList with
  | nil => intro effects; simp
  | cons d rest ih =>
    intro effects
    rw [List.foldl_cons, ih]
    simp [IDispatcher.removeRequestCaller]

theorem removeAsync_effects (r : CapabilitiesRegistrar) (participantId : String) :
    r.removeAsync participantId recordOnSuccess recordOnError [] =
      Effect.discoveryProxyRemoveAsync participantId ::
        (match r.discoveryProxy.removeAsyncReply with
          | Reply.onSuccess =>
            (match r.messageRouter with
              | some ptr =>
                Effect.removeNextHop participantId ::
                  (match ptr.removeNextHopReply with
                    | Reply.onSuccess =>
                      r.dispatcherList.map
                          (fun d => Effect.removeRequestCaller d.name participantId) ++
                        [Effect.onSuccess]
                    | Reply.onError error => [Effect.onError error]
                    | Reply.noReply => [])
              | none => [])
          | Reply.onError error => [Effect.onError error]
          | Reply.noReply => []) := by
  simp only [removeAsync, IDiscoveryAsync.removeAsync, List.nil_append]
  cases r.discoveryProxy.removeAsyncReply with
  | onError error => simp [recordOnError]
  | noReply => simp
  | onSuccess =>
    cases r.messageRouter with
    | none => simp
    | some ptr =>
      simp only [IMessageRouter.removeNextHop]
      cases ptr.removeNextHopReply with
      | onError error => simp [recordOnError]
      | noReply => simp
      | onSuccess => simp [recordOnSuccess, foldl_removeRequestCaller]

/-- C40: `CapabilitiesRegistrar::removeAsync` orders its effects. The caller's `onSuccess`
is invoked if and only if the discovery proxy replied to `removeAsync` with success and the
message router, still alive, replied to `removeNextHop` with success; the effects are then,
in this order, the discovery removal, `removeNextHop(participantId)`,
`removeRequestCaller(participantId)` on every dispatcher of the list in list order, and
`onSuccess` as the last effect. If the discovery removal fails, the only effect after it is
the caller's `onError` with the exception: no next hop is removed, no dispatcher is touched
and `onSuccess` is not invoked. -/
theorem removeAsync_orders_effects (r : CapabilitiesRegistrar) (participantId : String) :
    (Effect.onSuccess ∈ r.removeAsync participantId recordOnSuccess recordOnError [] ↔
        r.discoveryProxy.removeAsyncReply = Reply.onSuccess ∧
          ∃ ptr, r.messageRouter = some ptr ∧ ptr.removeNextHopReply = Reply.onSuccess) ∧
      (Effect.onSuccess ∈ r.removeAsync participantId recordOnSuccess recordOnError [] →
        r.removeAsync participantId recordOnSuccess recordOnError [] =
          [Effect.discoveryProxyRemoveAsync participantId,
              Effect.removeNextHop participantId] ++
            r.dispatcherList.map
              (fun d => Effect.removeRequestCaller d.name participantId) ++
            [Effect.onSuccess]) ∧
      (∀ error, r.discoveryProxy.removeAsyncReply = Reply.onError error →
        r.removeAsync participantId recordOnSuccess recordOnError [] =
            [Effect.discoveryProxyRemoveAsync participantId, Effect.onError error] ∧
          Effect.removeNextHop participantId ∉
            r.removeAsync participantId recordOnSuccess recordOnError [] ∧
          (∀ dispatcher, Effect.removeRequestCaller dispatcher participantId ∉
            r.removeAsync participantId recordOnSuccess recordOnError []) ∧
          Effect.onSuccess ∉ r.removeAsync participantId recordOnSuccess recordOnError []) := by
  rw [removeAsync_effects]
  refine ⟨?_, ?_, ?_⟩
  · cases r.discoveryProxy.removeAsyncReply with
    | onError error => simp
    | noReply => simp
    | onSuccess =>
      cases r.messageRouter with
      | none => simp
      | some ptr =>
        cases hreply : ptr.removeNextHopReply with
        | onError error => simp [hreply]
        | noReply => simp [hreply]
        | onSuccess => simp [hreply]
  · cases r.discoveryProxy.removeAsyncReply with
    | onError error => simp
    | noReply => simp
    | onSuccess =>
      cases r.messageRouter with
      | none => simp
      | some ptr =>
        cases hreply : ptr.removeNextHopReply with
        | onError error => simp [hreply]
        | noReply => simp [hreply]
        | onSuccess => simp [hreply]
  · intro error herror
    rw [herror]
    simp

/-- The effects of `removeAsync("p1", ...)` on the example registrar: the two dispatchers
are called in list order after the discovery removal and the removal of the next hop, and
`onSuccess` comes last. -/
theorem removeAsync_of_registrar :
    Examples.registrar.removeAsync "p1" recordOnSuccess recordOnError [] =
      [Effect.discoveryProxyRemoveAsync "p1", Effect.removeNextHop "p1",
        Effect.removeRequestCaller "dispatcher1" "p1",
        Effect.removeRequestCaller "dispatcher2" "p1", Effect.onSuccess] := by
  decide

/-- When the message router has been destroyed, `removeAsync` stops after the discovery
removal: neither `onSuccess` nor `onError` is invoked. -/
theorem removeAsync_without_messageRouter :
    ({ Examples.registrar with messageRouter := none }).removeAsync "p1" recordOnSuccess
        recordOnError [] = [Effect.discoveryProxyRemoveAsync "p1"] := by
  decide

/-- When the removal of the next hop fails, the caller's `onError` is invoked and no
dispatcher is called. -/
theorem removeAsync_with_failing_removeNextHop :
    ({ Examples.registrar with messageRouter := some ⟨Reply.onError ⟨"no route"⟩⟩ }).removeAsync
        "p1" recordOnSuccess recordOnError [] =
      [Effect.discoveryProxyRemoveAsync "p1", Effect.removeNextHop "p1",
        Effect.onError ⟨"no route"⟩] := by
  decide

end CapabilitiesRegistrar

namespace LcdPendingLookupsHandler

/-! ## Coalescing of pending lookups -/

theorem waiters_register (h : LcdPendingLookupsHandler) (key : LookupKey) (callback : String)
    (qos : DiscoveryQos) (gbids : List String) :
    (h.register key callback qos gbids).1.waiters key =
      h.waiters key ++ [⟨callback, qos, gbids⟩] := by
  simp [register, waiters, List.filter_append]

theorem waiters_resolve (h : LcdPendingLookupsHandler)
    (waiterFilter : DiscoveryQos → List String → List DiscoveryEntryWithMetaInfo →
      List DiscoveryEntryWithMetaInfo)
    (key : LookupKey) (entries : List DiscoveryEntryWithMetaInfo) :
    (h.resolve waiterFilter key entries).1.waiters key = [] := by
  simp only [resolve, waiters]
  rw [List.map_eq_nil_iff, List.filter_eq_nil_iff]
  intro p hp
  have := (List.mem_filter.mp hp).2
  simpa using this

end LcdPendingLookupsHandler

namespace LocalCapabilitiesDirectory

theorem perm_cons_eraseIdx {α : Type} (l : List α) :
    ∀ (i : Nat) (a : α), l[i]? = some a → (a :: l.eraseIdx i).Perm l := by
  induction l with
  | nil => intro i a h; simp at h
  | cons x rest ih =>
    intro i a h
    cases i with
    | zero =>
      simp only [List.getElem?_cons_zero, Option.some.injEq] at h
      subst h
      simp
    | succ i =>
      simp only [List.getElem?_cons_succ] at h
      rw [List.eraseIdx_cons_succ]
      exact (List.Perm.swap x a _).trans ((ih i a h).cons x)

theorem length_eraseIdx_of_getElem? {α : Type} (l : List α) (i : Nat) (a : α)
    (h : l[i]? = some a) : (l.eraseIdx i).length + 1 = l.length := by
  have hlt : i < l.length := by
    by_contra hge
    rw [List.getElem?_eq_none (by omega)] at h
    cases h
  rw [List.length_eraseIdx, if_pos hlt]
  omega

theorem getLocalAndCachedCapabilities_miss (s : LocalCapabilitiesDirectoryStore) (now : Int)
    (interfaceAddresses : List InterfaceAddress) (w : Waiter)
    (hscope : w.qos.discoveryScope = DiscoveryScope.LOCAL_THEN_GLOBAL)
    (hlocal : s.searchLocal interfaceAddresses DiscoveryScope.LOCAL_THEN_GLOBAL = [])
    (hcache : s.searchGlobalCache now interfaceAddresses w.gbids w.qos.cacheMaxAge = []) :
    (s.getLocalAndCachedCapabilities now interfaceAddresses w.qos w.gbids
      ILocalCapabilitiesCallback.fresh).1 = false := by
  rw [LocalCapabilitiesDirectoryStore.getLocalAndCachedCapabilities_eq, hscope, hlocal]
  have hin : DiscoveryScope.LOCAL_THEN_GLOBAL ∈
      LocalCapabilitiesDirectoryStore.includeGlobalScopes := by decide
  rw [if_pos hin, hcache]
  rfl

/-- The three steps of one caller, made one after the other, are the lookup of
section 4.6. -/
theorem steps_of_one_caller (d : LocalCapabilitiesDirectory) (now : Int)
    (domains : List String) (interfaceName : String) (w : Waiter) :
    (Burst.run now domains interfaceName (Burst.start d [w])
        [LookupStep.query 0, LookupStep.register 0, LookupStep.fetch 0]).directory =
        (d.lookup now domains interfaceName w.gbids w.callback w.qos).1 ∧
      (Burst.run now domains interfaceName (Burst.start d [w])
        [LookupStep.query 0, LookupStep.register 0, LookupStep.fetch 0]).finished := by
  simp only [Burst.run, Burst.start, List.foldl_cons, List.foldl_nil, Burst.step, lookup,
    Burst.finished, List.getElem?_cons_zero, List.eraseIdx_cons_zero]
  by_cases hhit : (d.localCapabilitiesDirectoryStore.getLocalAndCachedCapabilities now
      (LCDUtil.getInterfaceAddresses domains interfaceName) w.qos w.gbids
      ILocalCapabilitiesCallback.fresh).1 = true
  · simp [hhit]
  · by_cases hin : w.qos.discoveryScope ∈ LocalCapabilitiesDirectoryStore.includeGlobalScopes
    · by_cases hfirst : (d.lcdPendingLookupsHandler.register ⟨domains, interfaceName⟩
          w.callback w.qos w.gbids).2 = true
      · simp [hhit, hin, hfirst]
      · simp [hhit, hin, hfirst]
    · simp [hhit, hin]

theorem coalescing_start (d : LocalCapabilitiesDirectory) (callers : List Waiter)
    (key : LookupKey) (hpending : d.lcdPendingLookupsHandler.waiters key = []) :
    Burst.coalescing d callers key (Burst.start d callers) := by
  simp [Burst.coalescing, Burst.start, hpending]

theorem coalescing_step (d : LocalCapabilitiesDirectory) (now : Int)
    (domains : List String) (interfaceName : String) (callers : List Waiter)
    (hscope : ∀ w ∈ callers, w.qos.discoveryScope = DiscoveryScope.LOCAL_THEN_GLOBAL)
    (hlocal : d.localCapabilitiesDirectoryStore.searchLocal
      (LCDUtil.getInterfaceAddresses domains interfaceName)
      DiscoveryScope.LOCAL_THEN_GLOBAL = [])
    (hcache : ∀ w ∈ callers, d.localCapabilitiesDirectoryStore.searchGlobalCache now
      (LCDUtil.getInterfaceAddresses domains interfaceName) w.gbids w.qos.cacheMaxAge = [])
    (b : Burst) (hb : Burst.coalescing d callers ⟨domains, interfaceName⟩ b)
    (next : LookupStep) :
    Burst.coalescing d callers ⟨domains, interfaceName⟩
      (Burst.step now domains interfaceName b next) := by
  obtain ⟨hstore, hperm, hanswered, horder, hflags, hsent⟩ := hb
  cases next with
  | query caller =>
    simp only [Burst.step]
    cases hw : b.notStarted[caller]? with
    | none => exact ⟨hstore, hperm, hanswered, horder, hflags, hsent⟩
    | some w =>
      have hmem : w ∈ callers :=
        hperm.subset (List.mem_append_left _ (List.mem_append_left _ (List.getElem?_mem hw)))
      have hmiss := getLocalAndCachedCapabilities_miss
        b.directory.localCapabilitiesDirectoryStore now
        (LCDUtil.getInterfaceAddresses domains interfaceName) w (hscope w hmem)
        (by rw [hstore]; exact hlocal) (by rw [hstore]; exact hcache w hmem)
      have hin : w.qos.discoveryScope ∈
          LocalCapabilitiesDirectoryStore.includeGlobalScopes := by
        rw [hscope w hmem]
        decide
      simp only [hmiss, Bool.false_eq_true, if_false, if_pos hin]
      refine ⟨hstore, ?_, hanswered, horder, hflags, hsent⟩
      refine List.Perm.trans ?_ hperm
      have hcons := perm_cons_eraseIdx b.notStarted caller w hw
      rw [List.perm_iff_count]
      intro a
      have hcount := hcons.count_eq a
      simp only [List.count_append, List.count_cons, List.count_nil] at hcount ⊢
      omega
  | register caller =>
    simp only [Burst.step]
    cases hw : b.missed[caller]? with
    | none => exact ⟨hstore, hperm, hanswered, horder, hflags, hsent⟩
    | some w =>
      have hwaiters : (b.directory.lcdPendingLookupsHandler.register ⟨domains, interfaceName⟩
          w.callback w.qos w.gbids).1.waiters ⟨domains, interfaceName⟩ =
          b.directory.lcdPendingLookupsHandler.waiters ⟨domains, interfaceName⟩ ++ [w] :=
        LcdPendingLookupsHandler.waiters_register b.directory.lcdPendingLookupsHandler
          ⟨domains, interfaceName⟩ w.callback w.qos w.gbids
      have hcons := perm_cons_eraseIdx b.missed caller w hw
      simp only [Burst.coalescing, hwaiters]
      refine ⟨hstore, ?_, hanswered, ?_, ?_, ?_⟩
      · refine List.Perm.trans ?_ hperm
        rw [List.perm_iff_count]
        intro a
        have hcount := hcons.count_eq a
        simp only [List.count_append, List.count_cons, List.count_nil] at hcount ⊢
        omega
      · rw [List.map_append, List.map_append, horder]
        rfl
      · rw [List.map_append, hflags]
        simp only [LcdPendingLookupsHandler.register, List.map_cons, List.map_nil,
          List.length_append, List.length_singleton]
        by_cases hR : b.directory.lcdPendingLookupsHandler.waiters
            ⟨domains, interfaceName⟩ = []
        · simp [hR]
        · obtain ⟨r, rest, hcons2⟩ := List.exists_cons_of_ne_nil hR
          rw [hcons2]
          simp only [List.length_cons, List.isEmpty_cons]
          have h1 : min 1 (rest.length + 1) = 1 := by omega
          have h2 : min 1 (rest.length + 1 + 1) = 1 := by omega
          rw [h1, h2]
          simp only [Nat.add_sub_cancel, List.append_assoc]
          rw [← List.replicate_succ']
      · simp only [LcdPendingLookupsHandler.register]
        have hne : b.directory.lcdPendingLookupsHandler.waiters ⟨domains, interfaceName⟩ ++
            [w] ≠ [] := by simp
        rw [if_neg hne]
        by_cases hR : b.directory.lcdPendingLookupsHandler.waiters
            ⟨domains, interfaceName⟩ = []
        · have hempty : (b.directory.lcdPendingLookupsHandler.waiters
              ⟨domains, interfaceName⟩).isEmpty = true := by simp [hR]
          rw [if_pos hR] at hsent
          rw [if_pos hempty, List.map_append, ← List.append_assoc, hsent]
          simp
        · have hempty : (b.directory.lcdPendingLookupsHandler.waiters
              ⟨domains, interfaceName⟩).isEmpty = false := by simpa using hR
          rw [if_neg hR] at hsent
          simp only [hempty, Bool.false_eq_true, if_false]
          exact hsent
  | fetch caller =>
    simp only [Burst.step]
    cases hw : b.mustFetch[caller]? with
    | none => exact ⟨hstore, hperm, hanswered, horder, hflags, hsent⟩
    | some w =>
      refine ⟨hstore, hperm, hanswered, horder, hflags, ?_⟩
      simp only []
      rw [← hsent]
      have hlen := length_eraseIdx_of_getElem? b.mustFetch caller w hw
      have hconst : ∀ l : List Waiter,
          l.map (fun _ => (⟨domains, interfaceName⟩ : LookupKey)) =
            List.replicate l.length ⟨domains, interfaceName⟩ := by
        intro l
        induction l with
        | nil => rfl
        | cons x rest ih => simp [List.replicate_succ, ih]
      rw [hconst, hconst, ← hlen, List.append_assoc]
      congr 1

theorem coalescing_run (d : LocalCapabilitiesDirectory) (now : Int)
    (domains : List String) (interfaceName : String) (callers : List Waiter)
    (hscope : ∀ w ∈ callers, w.qos.discoveryScope = DiscoveryScope.LOCAL_THEN_GLOBAL)
    (hlocal : d.localCapabilitiesDirectoryStore.searchLocal
      (LCDUtil.getInterfaceAddresses domains interfaceName)
      DiscoveryScope.LOCAL_THEN_GLOBAL = [])
    (hcache : ∀ w ∈ callers, d.localCapabilitiesDirectoryStore.searchGlobalCache now
      (LCDUtil.getInterfaceAddresses domains interfaceName) w.gbids w.qos.cacheMaxAge = [])
    (schedule : List LookupStep) :
    ∀ b : Burst, Burst.coalescing d callers ⟨domains, interfaceName⟩ b →
      Burst.coalescing d callers ⟨domains, interfaceName⟩
        (Burst.run now domains interfaceName b schedule) := by
  induction schedule with
  | nil => intro b hb; exact hb
  | cons next rest ih =>
    intro b hb
    simp only [Burst.run, List.foldl_cons]
    exact ih _ (coalescing_step d now domains interfaceName callers hscope hlocal hcache b hb
      next)


/-- C31, as amended: lookup coalescing. Take a non-empty burst of `LOCAL_THEN_GLOBAL`
lookups on the same domains and interface that all miss the store (it has no local match
and, for the gbids and `cacheMaxAge` of each lookup, no cached match), started while no
lookup of the key is pending, and any interleaving of the steps of the callers in which
every caller finishes its lookup before the resolution. Then `register` reports the first
waiter to exactly one caller, the one that registers first, and to no other; exactly one
`lookup` is sent to the global capabilities directory; no caller is answered by the store,
and `hasPendingLookups()` is true. The resolution with the fetched entries invokes every
caller of the burst exactly once, in the order of registration, with the entries filtered
for its own qos and gbids, and leaves no waiter of the key; when all callers have the same
qos and gbids, all receive the identical list. -/
theorem burst_of_lookups_is_coalesced (d : LocalCapabilitiesDirectory) (now : Int)
    (domains : List String) (interfaceName : String) (burst : List Waiter)
    (schedule : List LookupStep)
    (waiterFilter : DiscoveryQos → List String → List DiscoveryEntryWithMetaInfo →
      List DiscoveryEntryWithMetaInfo)
    (entries : List DiscoveryEntryWithMetaInfo)
    (hburst : burst ≠ [])
    (hscope : ∀ w ∈ burst, w.qos.discoveryScope = DiscoveryScope.LOCAL_THEN_GLOBAL)
    (hlocal : d.localCapabilitiesDirectoryStore.searchLocal
      (LCDUtil.getInterfaceAddresses domains interfaceName)
      DiscoveryScope.LOCAL_THEN_GLOBAL = [])
    (hcache : ∀ w ∈ burst, d.localCapabilitiesDirectoryStore.searchGlobalCache now
      (LCDUtil.getInterfaceAddresses domains interfaceName) w.gbids w.qos.cacheMaxAge = [])
    (hpending : d.lcdPendingLookupsHandler.waiters ⟨domains, interfaceName⟩ = [])
    (hfinished : (Burst.run now domains interfaceName (Burst.start d burst)
      schedule).finished) :
    ((Burst.run now domains interfaceName (Burst.start d burst) schedule).registered.map
        (fun r => r.2)) = true :: List.replicate (burst.length - 1) false ∧
      ((Burst.run now domains interfaceName (Burst.start d burst) schedule).registered.map
        (fun r => r.2)).count true = 1 ∧
      (Burst.run now domains interfaceName (Burst.start d burst) schedule).answered = [] ∧
      (Burst.run now domains interfaceName (Burst.start d burst)
        schedule).directory.globalLookups = d.globalLookups ++ [⟨domains, interfaceName⟩] ∧
      (Burst.run now domains interfaceName (Burst.start d burst)
        schedule).directory.hasPendingLookups = true ∧
      ((Burst.run now domains interfaceName (Burst.start d burst)
        schedule).directory.lcdPendingLookupsHandler.waiters ⟨domains, interfaceName⟩).Perm
        burst ∧
      (((Burst.run now domains interfaceName (Burst.start d burst)
        schedule).directory.lcdPendingLookupsHandler.resolve waiterFilter
        ⟨domains, interfaceName⟩ entries).2).Perm
        (burst.map (fun w => (w.callback, waiterFilter w.qos w.gbids entries))) ∧
      (((Burst.run now domains interfaceName (Burst.start d burst)
        schedule).directory.lcdPendingLookupsHandler.resolve waiterFilter
        ⟨domains, interfaceName⟩ entries).2).map (fun r => r.1) =
        (Burst.run now domains interfaceName (Burst.start d burst) schedule).registered.map
          (fun r => r.1) ∧
      ((Burst.run now domains interfaceName (Burst.start d burst)
        schedule).directory.lcdPendingLookupsHandler.resolve waiterFilter
        ⟨domains, interfaceName⟩ entries).1.waiters ⟨domains, interfaceName⟩ = [] ∧
      (∀ (qos : DiscoveryQos) (gbids : List String),
        (∀ w ∈ burst, w.qos = qos ∧ w.gbids = gbids) →
          (((Burst.run now domains interfaceName (Burst.start d burst)
            schedule).directory.lcdPendingLookupsHandler.resolve waiterFilter
            ⟨domains, interfaceName⟩ entries).2).map (fun r => r.2) =
            List.replicate burst.length (waiterFilter qos gbids entries)) := by
  have hinv := coalescing_run d now domains interfaceName burst hscope hlocal hcache schedule
    (Burst.start d burst) (coalescing_start d burst ⟨domains, interfaceName⟩ hpending)
  generalize Burst.run now domains interfaceName (Burst.start d burst) schedule = final
    at hinv hfinished ⊢
  obtain ⟨_, hperm, hanswered, horder, hflags, hsent⟩ := hinv
  obtain ⟨hnotStarted, hmissed, hmustFetch⟩ := hfinished
  rw [hnotStarted, hmissed] at hperm
  simp only [List.append_nil, List.nil_append] at hperm
  rw [hmustFetch] at hsent
  simp only [List.map_nil, List.append_nil] at hsent
  have hlength := hperm.length_eq
  have hpos : 0 < burst.length := List.length_pos.mpr hburst
  have hne : final.directory.lcdPendingLookupsHandler.waiters ⟨domains, interfaceName⟩ ≠
      [] := by
    intro h
    rw [h] at hlength
    simp only [List.length_nil] at hlength
    omega
  have hflags2 : final.registered.map (fun r => r.2) =
      true :: List.replicate (burst.length - 1) false := by
    rw [hflags, hlength]
    have h1 : min 1 burst.length = 1 := by omega
    rw [h1]
    rfl
  have hdelivered : (final.directory.lcdPendingLookupsHandler.resolve waiterFilter
      ⟨domains, interfaceName⟩ entries).2 =
      (final.directory.lcdPendingLookupsHandler.waiters ⟨domains, interfaceName⟩).map
        (fun w => (w.callback, waiterFilter w.qos w.gbids entries)) := rfl
  refine ⟨hflags2, ?_, hanswered, ?_, ?_, hperm, ?_, ?_, ?_, ?_⟩
  · rw [hflags2]
    simp [List.count_cons, List.count_replicate]
  · rw [hsent, if_neg hne]
  · obtain ⟨w, rest, hw⟩ := List.exists_cons_of_ne_nil hne
    have hwmem : w ∈ final.directory.lcdPendingLookupsHandler.waiters
        ⟨domains, interfaceName⟩ := by
      rw [hw]
      exact List.mem_cons_self _ _
    have hwburst : w ∈ burst := hperm.subset hwmem
    simp only [LcdPendingLookupsHandler.waiters, List.mem_map, List.mem_filter] at hwmem
    obtain ⟨p, ⟨hp, _⟩, hpw⟩ := hwmem
    simp only [hasPendingLookups, List.any_eq_true]
    refine ⟨p, hp, ?_⟩
    rw [hpw]
    simpa using hscope w hwburst
  · rw [hdelivered]
    exact hperm.map _
  · rw [hdelivered, horder, List.map_map]
    rfl
  · exact LcdPendingLookupsHandler.waiters_resolve _ _ _ _
  · intro qos gbids hsame
    rw [hdelivered, List.map_map, ← hlength, List.eq_replicate_iff]
    refine ⟨by simp, ?_⟩
    intro x hx
    simp only [List.mem_map, Function.comp] at hx
    obtain ⟨w, hw, rfl⟩ := hx
    have := hsame w (hperm.subset hw)
    rw [this.1, this.2]

/-- Witness for C31: three callers of the same lookup on an empty directory, with their
steps interleaved so that the third caller registers first. It alone is told that it is the
first waiter, one request is sent, and the resolution hands the same list to the three
callers. -/
theorem burst_of_lookups_is_coalesced_witness :
    ((Burst.run 7 ["d"] "i" (Burst.start Examples.emptyDirectory Examples.threeCallers)
        Examples.overlappingSchedule).registered =
        [("caller3", true), ("caller2", false), ("caller1", false)]) ∧
      (Burst.run 7 ["d"] "i" (Burst.start Examples.emptyDirectory Examples.threeCallers)
        Examples.overlappingSchedule).directory.globalLookups = [⟨["d"], "i"⟩] ∧
      (((Burst.run 7 ["d"] "i" (Burst.start Examples.emptyDirectory Examples.threeCallers)
        Examples.overlappingSchedule).directory.lcdPendingLookupsHandler.resolve
        (fun _ _ entries => entries) ⟨["d"], "i"⟩ [⟨Examples.p2, false⟩]).2).map
        (fun r => r.2) = List.replicate 3 [⟨Examples.p2, false⟩] :=
  have h := burst_of_lookups_is_coalesced Examples.emptyDirectory 7 ["d"] "i"
    Examples.threeCallers Examples.overlappingSchedule (fun _ _ entries => entries)
    [⟨Examples.p2, false⟩] (by decide) (by decide) (by decide) (by decide) (by decide)
    (by decide)
  ⟨by decide, h.2.2.2.1,
    h.2.2.2.2.2.2.2.2.2 (Examples.qos DiscoveryScope.LOCAL_THEN_GLOBAL 0) ["a"] (by decide)⟩

/-- Counterexample to C31 as stated: a burst of three `LOCAL_THEN_GLOBAL` lookups on the
same domain and interface with no local match need not send exactly one request, need not
have a first waiter, and need not hand the same list to all callers. With a cached match
every caller is answered by the store and no request is sent; with a lookup of the key
already pending no caller of the burst is the first waiter and the burst sends no request;
and two callers naming different gbids are handed different lists by a resolution that
filters by gbid. -/
theorem burst_of_lookups_not_coalesced_as_stated :
    (Examples.directoryCachedP2.localCapabilitiesDirectoryStore.searchLocal
        (LCDUtil.getInterfaceAddresses ["d"] "i") DiscoveryScope.LOCAL_THEN_GLOBAL = [] ∧
      (Burst.run 7 ["d"] "i"
        (Burst.start Examples.directoryCachedP2 Examples.threeCallersAcceptingCache)
        [LookupStep.query 0, LookupStep.query 0, LookupStep.query 0]).finished ∧
      (Burst.run 7 ["d"] "i"
        (Burst.start Examples.directoryCachedP2 Examples.threeCallersAcceptingCache)
        [LookupStep.query 0, LookupStep.query 0, LookupStep.query 0]).registered = [] ∧
      (Burst.run 7 ["d"] "i"
        (Burst.start Examples.directoryCachedP2 Examples.threeCallersAcceptingCache)
        [LookupStep.query 0, LookupStep.query 0,
          LookupStep.query 0]).directory.globalLookups = []) ∧
    (Examples.directoryWithPendingLookup.localCapabilitiesDirectoryStore.searchLocal
        (LCDUtil.getInterfaceAddresses ["d"] "i") DiscoveryScope.LOCAL_THEN_GLOBAL = [] ∧
      (Burst.run 7 ["d"] "i"
        (Burst.start Examples.directoryWithPendingLookup Examples.threeCallers)
        Examples.overlappingSchedule).finished ∧
      (Burst.run 7 ["d"] "i"
        (Burst.start Examples.directoryWithPendingLookup Examples.threeCallers)
        Examples.overlappingSchedule).registered =
        [("caller3", false), ("caller2", false), ("caller1", false)] ∧
      (Burst.run 7 ["d"] "i"
        (Burst.start Examples.directoryWithPendingLookup Examples.threeCallers)
        Examples.overlappingSchedule).directory.globalLookups = []) ∧
    ((Burst.run 7 ["d"] "i"
        (Burst.start Examples.emptyDirectory Examples.twoCallersOfDifferentGbids)
        [LookupStep.query 0, LookupStep.query 0, LookupStep.register 0,
          LookupStep.register 0, LookupStep.fetch 0]).finished ∧
      ((Burst.run 7 ["d"] "i"
        (Burst.start Examples.emptyDirectory Examples.twoCallersOfDifferentGbids)
        [LookupStep.query 0, LookupStep.query 0, LookupStep.register 0,
          LookupStep.register 0,
          LookupStep.fetch 0]).directory.lcdPendingLookupsHandler.resolve Examples.gbidFilter
        ⟨["d"], "i"⟩ [⟨Examples.p2, false⟩]).2 =
        [("caller1", [⟨Examples.p2, false⟩]), ("caller2", [])]) := by
  decide

end LocalCapabilitiesDirectory

end joynr
